import Mathlib

/-!
# Stop-time interpolation (`interpolate.go`)

A shallow embedding of `interpolateStopTimes` and `interpolateStopTimesByShapeDist`
together with the helpers `getTime` and `setTime`, followed by the properties of the
specification proved about them.

Conventions of the embedding.

* `time.Duration` is a signed 64-bit integer: values are `Int`, and the arithmetic
  operators of the source wrap modulo `2^64` (`dAdd`, `dSub`, `dMul`, `dDiv`).
* `float64` arithmetic is kept abstract in a record `Float64Ops`. `float64Ops` is the
  arithmetic of the source on values within the normal range (round to nearest, ties to
  even, 53-bit significand), `exactOps` is the idealisation without rounding, and
  `RelativeError` is the standard model of rounding, which both meet.
* A Go slice is a `List`; indexing outside the slice and dereferencing a nil pointer are
  run-time panics, rendered as the faults of `Except Fault`.
* The `for i < n` loop, whose index is reassigned in its body, is a fuel-indexed
  recursion; running out of fuel is the fault `fuelExhausted`.
-/

namespace Gtfs

/-! ## Durations -/

/-- Reduction of an integer to the range of Go's `int64` (two's complement wrap-around). -/
def wrap64 (x : Int) : Int :=
  (x + 9223372036854775808) % 18446744073709551616 - 9223372036854775808

/-- Go `a + b` on `time.Duration`. -/
def dAdd (a b : Int) : Int := wrap64 (a + b)

/-- Go `a - b` on `time.Duration`. -/
def dSub (a b : Int) : Int := wrap64 (a - b)

/-- Go `a * b` on `time.Duration`. -/
def dMul (a b : Int) : Int := wrap64 (a * b)

/-- Go `a / b` on `time.Duration`: the quotient truncated toward zero. -/
def dDiv (a b : Int) : Int := wrap64 (Int.tdiv a b)

/-! ## Floating point, abstractly -/

/-- The `float64` operations used by `interpolateStopTimesByShapeDist`: subtraction,
multiplication, division, the comparisons `>` and `<=`, the zero value of an uninitialised
`float64` variable, and the conversions `float64(d)` and `time.Duration(f)`.
The only law assumed is that `a <= b` excludes `a > b`. -/
structure Float64Ops (F : Type) where
  zero : F
  sub : F → F → F
  mul : F → F → F
  div : F → F → F
  gt : F → F → Bool
  le : F → F → Bool
  ofDuration : Int → F
  toDuration : F → Int
  le_not_gt : ∀ a b, le a b = true → gt a b = false

/-- Source `time.Duration(f)`: the conversion of a `float64` to `int64` truncates toward
zero; for a value outside `int64` Go leaves the result to the implementation, and the
amd64 conversion instruction yields `-2^63`. -/
def truncateToDuration (q : ℚ) : Int :=
  let t := Int.tdiv q.num (q.den : Int)
  if -9223372036854775808 ≤ t ∧ t < 9223372036854775808 then t else -9223372036854775808

/-- Exact arithmetic on the rationals as an instance of `Float64Ops`: an idealisation of
the source, in which no operation rounds. The source itself computes in `float64`, which
is `float64Ops` below. -/
def exactOps : Float64Ops ℚ where
  zero := 0
  sub := fun a b => a - b
  mul := fun a b => a * b
  div := fun a b => a / b
  gt := fun a b => decide (b < a)
  le := fun a b => decide (a ≤ b)
  ofDuration := fun d => (d : ℚ)
  toDuration := truncateToDuration
  le_not_gt := by
    intro a b h
    simp only [decide_eq_true_eq] at h
    simp only [decide_eq_false_iff_not, not_lt]
    exact h

/-! ## Rounding to `float64` -/

/-- The nearest integer to `num / den`, ties going to the even one (`den > 0`). -/
def roundHalfEven (num den : Nat) : Nat :=
  let f := num / den
  let r := num % den
  if 2 * r < den then f
  else if den < 2 * r then f + 1
  else if f % 2 = 0 then f else f + 1

/-- The position of the highest set bit of `n` (`0` for `n < 2`), by halving at most
`fuel` times. -/
def log2Fuel : Nat → Nat → Nat
  | 0, _ => 0
  | fuel + 1, n => if n < 2 then 0 else log2Fuel fuel (n / 2) + 1

/-- The integer part of the binary logarithm of `n`, for `n ≥ 1`. -/
def floorLog2 (n : Nat) : Nat := log2Fuel n n

/-- The exponent `e` at which the magnitude `n / d` (`n, d ≥ 1`) is scaled into
`[2^52, 2^53)`: `2^52 ≤ (n / d) / 2^e < 2^53`. -/
def binaryExponent (n d : Nat) : Int :=
  -- `2^(e0 + 51) < n / d < 2^(e0 + 53)`
  let e0 : Int := (floorLog2 n : Int) - (floorLog2 d : Int) - 52
  if n * 2 ^ (-e0).toNat < d * 2 ^ e0.toNat * 2 ^ 52 then e0 - 1 else e0

/-- The magnitude `n / d` rounded to a 53-bit significand: scaled by `2^e` into
`[2^52, 2^53)`, rounded to the nearest integer (ties to even) and scaled back. -/
def roundMagnitude (n d : Nat) : ℚ :=
  let e := binaryExponent n d
  let m := roundHalfEven (n * 2 ^ (-e).toNat) (d * 2 ^ e.toNat)
  ((m * 2 ^ e.toNat : Nat) : ℚ) / ((2 ^ (-e).toNat : Nat) : ℚ)

/-- Rounding to the nearest `float64`, ties to even. This is the value an IEEE binary64
operation returns for the exact result `q` as long as the result is neither subnormal nor
beyond the largest finite value; infinities and NaN are not represented. -/
def roundBinary64 (q : ℚ) : ℚ :=
  if q.num = 0 then 0
  else if q.num < 0 then -roundMagnitude q.num.natAbs q.den
  else roundMagnitude q.num.natAbs q.den

/-- The `float64` arithmetic of the source on values within the normal range: every
operation returns the exact result rounded to the nearest `float64`, and the comparisons
are exact. -/
def float64Ops : Float64Ops ℚ where
  zero := 0
  sub := fun a b => roundBinary64 (a - b)
  mul := fun a b => roundBinary64 (a * b)
  div := fun a b => roundBinary64 (a / b)
  gt := fun a b => decide (b < a)
  le := fun a b => decide (a ≤ b)
  ofDuration := fun d => roundBinary64 (d : ℚ)
  toDuration := truncateToDuration
  le_not_gt := by
    intro a b h
    simp only [decide_eq_true_eq] at h
    simp only [decide_eq_false_iff_not, not_lt]
    exact h

/-! ## Records -/

/-- Modelled from the spec: the declaration of the record type `ScheduledStopTime` is not
part of the files at hand; these are the fields listed in the data model (section 3).
`ArrivalTime` and `DepartureTime` are durations with `0` as the sentinel for "not provided";
`ShapeDistanceTraveled` is a `*float64`, `none` standing for the nil pointer. -/
structure ScheduledStopTime (F : Type) where
  StopSequence : Int
  ArrivalTime : Int
  DepartureTime : Int
  ExactTimes : Bool
  ShapeDistanceTraveled : Option F
  deriving DecidableEq, Repr

/-- The run-time failures of the embedding. -/
inductive Fault where
  | nilDereference
  | indexOutOfRange
  | fuelExhausted
  deriving DecidableEq, Repr

deriving instance DecidableEq for Except

variable {F : Type}

/-- Source `getTime`: the arrival time for `tType = 0`, the departure time otherwise. -/
def getTime (stop : ScheduledStopTime F) (tType : Nat) : Int :=
  if tType = 0 then stop.ArrivalTime else stop.DepartureTime

/-- Source `setTime`: overwrite the arrival time for `tType = 0`, the departure time
otherwise. -/
def setTime (stop : ScheduledStopTime F) (tType : Nat) (t : Int) : ScheduledStopTime F :=
  if tType = 0 then { stop with ArrivalTime := t } else { stop with DepartureTime := t }

/-- The slice access `result[idx]`; an index outside `0 .. len-1` panics. -/
def readAt (result : List (ScheduledStopTime F)) (idx : Int) :
    Except Fault (ScheduledStopTime F) :=
  if idx < 0 then .error .indexOutOfRange
  else
    match result[idx.toNat]? with
    | some st => .ok st
    | none => .error .indexOutOfRange

/-- The expression `getTime(&result[idx], tType)`. -/
def readTime (result : List (ScheduledStopTime F)) (idx : Int) (tType : Nat) :
    Except Fault Int :=
  match readAt result idx with
  | .ok st => .ok (getTime st tType)
  | .error e => .error e

/-- The statement `setTime(&result[idx], tType, t)`. -/
def writeTime (result : List (ScheduledStopTime F)) (idx : Int) (tType : Nat) (t : Int) :
    Except Fault (List (ScheduledStopTime F)) :=
  match readAt result idx with
  | .ok st => .ok (result.set idx.toNat (setTime st tType t))
  | .error e => .error e

/-! ## Gap scanning -/

/-- The loop `for endIdx < n && getTime(&result[endIdx], tType) == 0 { endIdx++ }`,
walking the part of the slice that starts at position `endIdx`: called as
`scanEnd tType (result.drop i) i`. -/
def scanEnd (tType : Nat) : List (ScheduledStopTime F) → Nat → Nat
  | [], endIdx => endIdx
  | st :: rest, endIdx =>
    if getTime st tType = 0 then scanEnd tType rest (endIdx + 1) else endIdx

/-- The loop `for j := 1; j < intervals; j++ { setTime(&result[startIdx+j], tType,
startTime+time.Duration(j)*delta) }` of `interpolateStopTimes`, over the list of the
values taken by `j`. -/
def fillUniform (tType : Nat) (startIdx startTime delta : Int) :
    List Nat → List (ScheduledStopTime F) → Except Fault (List (ScheduledStopTime F))
  | [], result => .ok result
  | j :: js, result =>
    match writeTime result (startIdx + (j : Int)) tType
        (dAdd startTime (dMul (j : Int) delta)) with
    | .ok result' => fillUniform tType startIdx startTime delta js result'
    | .error e => .error e

/-- The body of the branch `getTime(&result[i], tType) == 0` of `interpolateStopTimes`
(from `startIdx := i - 1` to the value assigned by `i = endIdx`): the slice after the
gap has been handled, and the index at which the scan resumes. -/
def uniformGap (n tType : Nat) (result : List (ScheduledStopTime F)) (i : Nat) :
    Except Fault (List (ScheduledStopTime F) × Nat) :=
  let startIdx : Int := (i : Int) - 1
  match (if startIdx ≥ 0 then readTime result startIdx tType else .ok 0) with
  | .error e => .error e
  | .ok startTime =>
    let endIdx := scanEnd tType (result.drop i) i
    match (if endIdx < n then readTime result (endIdx : Int) tType else .ok 0) with
    | .error e => .error e
    | .ok endTime =>
      let intervals : Int := (endIdx : Int) - startIdx
      if startIdx ≥ 0 ∧ endIdx < n ∧ endTime > startTime ∧ intervals > 0 then
        let delta := dDiv (dSub endTime startTime) intervals
        match fillUniform tType startIdx startTime delta
            (List.range' 1 (intervals.toNat - 1)) result with
        | .ok result' => .ok (result', endIdx)
        | .error e => .error e
      else .ok (result, endIdx)

/-- The guarded read of a gap boundary in `interpolateStopTimesByShapeDist`:
`if <idx in range> && result[idx].ShapeDistanceTraveled != nil { time = getTime(...);
dist = *result[idx].ShapeDistanceTraveled }`, both variables keeping their zero value
otherwise. -/
def boundary (A : Float64Ops F) (result : List (ScheduledStopTime F)) (inRange : Bool)
    (idx : Int) (tType : Nat) : Except Fault (Int × F) :=
  if inRange then
    match readAt result idx with
    | .error e => .error e
    | .ok st =>
      match st.ShapeDistanceTraveled with
      | some d => .ok (getTime st tType, d)
      | none => .ok (0, A.zero)
  else .ok (0, A.zero)

/-- The two assignments `w := (dist - startDist) / (endDist - startDist)` and
`interpolated := startTime + time.Duration(float64(endTime-startTime)*w)` of
`interpolateStopTimesByShapeDist`: the value of `interpolated`. -/
def interpolated (A : Float64Ops F) (startTime endTime : Int) (startDist endDist dist : F) :
    Int :=
  let w := A.div (A.sub dist startDist) (A.sub endDist startDist)
  dAdd startTime (A.toDuration (A.mul (A.ofDuration (dSub endTime startTime)) w))

/-- The loop `for j := 1; j < intervals; j++ { ... }` of
`interpolateStopTimesByShapeDist`, over the list of the values taken by `j`; the
dereference `*result[startIdx+j].ShapeDistanceTraveled` panics on a nil pointer. -/
def fillByShapeDist (A : Float64Ops F) (tType : Nat) (startIdx startTime endTime : Int)
    (startDist endDist : F) :
    List Nat → List (ScheduledStopTime F) → Except Fault (List (ScheduledStopTime F))
  | [], result => .ok result
  | j :: js, result =>
    match readAt result (startIdx + (j : Int)) with
    | .error e => .error e
    | .ok st =>
      match st.ShapeDistanceTraveled with
      | none => .error .nilDereference
      | some dist =>
        match writeTime result (startIdx + (j : Int)) tType
            (interpolated A startTime endTime startDist endDist dist) with
        | .ok result' =>
          fillByShapeDist A tType startIdx startTime endTime startDist endDist js result'
        | .error e => .error e

/-- The body of the branch `getTime(&result[i], tType) == 0` of
`interpolateStopTimesByShapeDist` (from `startIdx := i - 1` to the value assigned by
`i = endIdx`). -/
def shapeDistGap (A : Float64Ops F) (n tType : Nat) (result : List (ScheduledStopTime F))
    (i : Nat) : Except Fault (List (ScheduledStopTime F) × Nat) :=
  let startIdx : Int := (i : Int) - 1
  match boundary A result (decide (startIdx ≥ 0)) startIdx tType with
  | .error e => .error e
  | .ok (startTime, startDist) =>
    let endIdx := scanEnd tType (result.drop i) i
    match boundary A result (decide (endIdx < n)) (endIdx : Int) tType with
    | .error e => .error e
    | .ok (endTime, endDist) =>
      let intervals : Int := (endIdx : Int) - startIdx
      if startIdx ≥ 0 ∧ endIdx < n ∧ A.gt endDist startDist = true ∧ endTime > startTime
          ∧ intervals > 0 then
        match fillByShapeDist A tType startIdx startTime endTime startDist endDist
            (List.range' 1 (intervals.toNat - 1)) result with
        | .ok result' => .ok (result', endIdx)
        | .error e => .error e
      else .ok (result, endIdx)

/-- The loop `i := 0; for i < n { if getTime(&result[i], tType) == 0 { ...; i = endIdx }
else { i++ } }` shared by both functions, with the gap branch as the parameter `gap`.
The first argument is the fuel: one unit per iteration. -/
def scanLoop (gap : List (ScheduledStopTime F) → Nat →
      Except Fault (List (ScheduledStopTime F) × Nat)) (n tType : Nat) :
    Nat → Nat → List (ScheduledStopTime F) → Except Fault (List (ScheduledStopTime F))
  | 0, i, result => if i < n then .error .fuelExhausted else .ok result
  | fuel + 1, i, result =>
    if i < n then
      match readTime result (i : Int) tType with
      | .error e => .error e
      | .ok t =>
        if t = 0 then
          match gap result i with
          | .error e => .error e
          | .ok (result', endIdx) => scanLoop gap n tType fuel endIdx result'
        else scanLoop gap n tType fuel (i + 1) result
    else .ok result

/-- Source `interpolateStopTimes`: the copy of the input, then the scan for
`tType = 0` (arrival) and the scan for `tType = 1` (departure); the empty input gives
the nil slice. Each scan is given `n` units of fuel. -/
def interpolateStopTimes (times : List (ScheduledStopTime F)) :
    Except Fault (List (ScheduledStopTime F)) :=
  let result := times
  let n := result.length
  if n = 0 then .ok []
  else
    match scanLoop (uniformGap n 0) n 0 n 0 result with
    | .error e => .error e
    | .ok result => scanLoop (uniformGap n 1) n 1 n 0 result

/-- Source `interpolateStopTimesByShapeDist`: the copy of the input, then the scan for
`tType = 0` (arrival) and the scan for `tType = 1` (departure); the empty input gives
the nil slice. Each scan is given `n` units of fuel. -/
def interpolateStopTimesByShapeDist (A : Float64Ops F) (times : List (ScheduledStopTime F)) :
    Except Fault (List (ScheduledStopTime F)) :=
  let result := times
  let n := result.length
  if n = 0 then .ok []
  else
    match scanLoop (shapeDistGap A n 0) n 0 n 0 result with
    | .error e => .error e
    | .ok result => scanLoop (shapeDistGap A n 1) n 1 n 0 result

/-! ## Test data -/

/-- The duration, in nanoseconds, of `h:m:s` after the start of the service day. -/
def hms (h m s : Int) : Int := ((h * 60 + m) * 60 + s) * 1000000000

/-- A record with the given sequence number, times and distance, not a timepoint. -/
def stop (F : Type) (seq arr dep : Int) (d : Option F) : ScheduledStopTime F :=
  { StopSequence := seq, ArrivalTime := arr, DepartureTime := dep, ExactTimes := false,
    ShapeDistanceTraveled := d }

/-- The trip of `TestInterpolateStopTimes_Normal`: known times at the first and the last of
four stops, no distances. -/
def normalTrip : List (ScheduledStopTime ℚ) :=
  [{ StopSequence := 1, ArrivalTime := hms 8 0 0, DepartureTime := hms 8 5 0,
     ExactTimes := true, ShapeDistanceTraveled := none },
   { StopSequence := 2, ArrivalTime := 0, DepartureTime := 0,
     ExactTimes := false, ShapeDistanceTraveled := none },
   { StopSequence := 3, ArrivalTime := 0, DepartureTime := 0,
     ExactTimes := false, ShapeDistanceTraveled := none },
   { StopSequence := 4, ArrivalTime := hms 8 30 0, DepartureTime := hms 8 35 0,
     ExactTimes := true, ShapeDistanceTraveled := none }]

/-- The trip of `TestInterpolateStopTimesByShapeDist_Normal`: the same times, with the
distances 0, 3.5, 7.0 and 10.5. -/
def normalTripDist : List (ScheduledStopTime ℚ) :=
  [{ StopSequence := 1, ArrivalTime := hms 8 0 0, DepartureTime := hms 8 5 0,
     ExactTimes := true, ShapeDistanceTraveled := some 0 },
   { StopSequence := 2, ArrivalTime := 0, DepartureTime := 0,
     ExactTimes := false, ShapeDistanceTraveled := some (7 / 2) },
   { StopSequence := 3, ArrivalTime := 0, DepartureTime := 0,
     ExactTimes := false, ShapeDistanceTraveled := some 7 },
   { StopSequence := 4, ArrivalTime := hms 8 30 0, DepartureTime := hms 8 35 0,
     ExactTimes := true, ShapeDistanceTraveled := some (21 / 2) }]

/-- Three stops with known times and distances at both ends and a middle stop that has
neither a time nor a distance. -/
def missingInteriorDistTrip : List (ScheduledStopTime ℚ) :=
  [stop ℚ 1 (hms 8 0 0) (hms 8 5 0) (some 0),
   stop ℚ 2 0 0 none,
   stop ℚ 3 (hms 8 30 0) (hms 8 35 0) (some (21 / 2))]

/-- Three stops with known times at both ends, where the first stop has no distance and
the middle stop has no time. -/
def missingStartDistTrip : List (ScheduledStopTime ℚ) :=
  [stop ℚ 1 (hms 8 0 0) (hms 8 5 0) none,
   stop ℚ 2 0 0 (some 5),
   stop ℚ 3 (hms 8 30 0) (hms 8 35 0) (some 10)]

/-- Three stops with known times at both ends, where the last stop has no distance and
the middle stop has no time. -/
def missingEndDistTrip : List (ScheduledStopTime ℚ) :=
  [stop ℚ 1 (hms 8 0 0) (hms 8 5 0) (some 0),
   stop ℚ 2 0 0 (some 5),
   stop ℚ 3 (hms 8 30 0) (hms 8 35 0) none]

/-- The trip of `TestInterpolateStopTimesByShapeDist_MissingFirst`: no times at the first
two stops. -/
def missingFirstTrip : List (ScheduledStopTime ℚ) :=
  [stop ℚ 1 0 0 (some 0),
   stop ℚ 2 0 0 (some (7 / 2)),
   stop ℚ 3 (hms 8 30 0) (hms 8 35 0) (some (21 / 2))]

/-- The trip of `TestInterpolateStopTimesByShapeDist_MissingLast`: no times at the last
two stops. -/
def missingLastTrip : List (ScheduledStopTime ℚ) :=
  [stop ℚ 1 (hms 8 0 0) (hms 8 5 0) (some 0),
   stop ℚ 2 0 0 (some (7 / 2)),
   stop ℚ 3 0 0 (some (21 / 2))]

/-- Three stops whose known times decrease across the gap: 09:00:00 before it and
08:30:00 after it. -/
def decreasingTimeTrip : List (ScheduledStopTime ℚ) :=
  [stop ℚ 1 (hms 9 0 0) (hms 9 5 0) (some 0),
   stop ℚ 2 0 0 (some 5),
   stop ℚ 3 (hms 8 30 0) (hms 8 35 0) (some 10)]

/-- Three stops whose boundary distances do not increase across the gap: 10.5 on both
sides. -/
def flatDistTrip : List (ScheduledStopTime ℚ) :=
  [stop ℚ 1 (hms 8 0 0) (hms 8 5 0) (some (21 / 2)),
   stop ℚ 2 0 0 (some (7 / 2)),
   stop ℚ 3 (hms 8 30 0) (hms 8 35 0) (some (21 / 2))]

/-- Three stops with every arrival and departure time known; the middle stop has no
distance. -/
def resolvedTrip : List (ScheduledStopTime ℚ) :=
  [stop ℚ 1 (hms 8 0 0) (hms 8 5 0) (some 0),
   stop ℚ 2 (hms 8 10 0) (hms 8 15 0) none,
   stop ℚ 3 (hms 8 30 0) (hms 8 35 0) (some 10)]

/-- The arrivals of `normalTrip` (08:00:00, 0, 0, 08:30:00) with other departures: only
the first stop has one. -/
def arrivalOnlyTrip : List (ScheduledStopTime ℚ) :=
  [stop ℚ 1 (hms 8 0 0) (hms 8 5 0) none,
   stop ℚ 2 0 0 none,
   stop ℚ 3 0 0 none,
   stop ℚ 4 (hms 8 30 0) 0 none]

/-- Three stops whose known times are 5·10^18 ns before and after the start of the
service day: both are `int64` values, their difference is not. -/
def overflowTrip : List (ScheduledStopTime ℚ) :=
  [stop ℚ 1 (-5000000000000000000) (-5000000000000000000) none,
   stop ℚ 2 0 0 none,
   stop ℚ 3 5000000000000000000 5000000000000000000 none]

/-- A gap of three intervals whose time difference, 5 ns, is not a multiple of 3. -/
def truncationTrip : List (ScheduledStopTime ℚ) :=
  [stop ℚ 1 7 7 none, stop ℚ 2 0 0 none, stop ℚ 3 0 0 none, stop ℚ 4 12 12 none]

/-- The trip of the non-even distance scenario: the arrivals 08:00:00, 0, 0, 08:30:00 of
`normalTripDist` with the distances 0, 2.0, 9.0 and 10.5. -/
def nonEvenTrip : List (ScheduledStopTime ℚ) :=
  [{ StopSequence := 1, ArrivalTime := hms 8 0 0, DepartureTime := hms 8 5 0,
     ExactTimes := true, ShapeDistanceTraveled := some 0 },
   { StopSequence := 2, ArrivalTime := 0, DepartureTime := 0,
     ExactTimes := false, ShapeDistanceTraveled := some 2 },
   { StopSequence := 3, ArrivalTime := 0, DepartureTime := 0,
     ExactTimes := false, ShapeDistanceTraveled := some 9 },
   { StopSequence := 4, ArrivalTime := hms 8 30 0, DepartureTime := hms 8 35 0,
     ExactTimes := true, ShapeDistanceTraveled := some (21 / 2) }]

/-- Five stops with two gaps: the first (index 1) is bounded by records with distances and
its record carries a distance; the record inside the second (index 3) has none. -/
def secondGapNilTrip : List (ScheduledStopTime ℚ) :=
  [stop ℚ 1 (hms 8 0 0) (hms 8 0 0) (some 0),
   stop ℚ 2 0 0 (some 1),
   stop ℚ 3 (hms 8 10 0) (hms 8 10 0) (some 2),
   stop ℚ 4 0 0 none,
   stop ℚ 5 (hms 8 20 0) (hms 8 20 0) (some 4)]

/-! ## Views of a sequence used in the statements -/

/-- The time held in channel `tType` at index `k` (`none` outside the sequence). -/
def timeAt (ts : List (ScheduledStopTime F)) (tType k : Nat) : Option Int :=
  (ts[k]?).map (fun st => getTime st tType)

/-- The distance pointer held at index `k` (`none` outside the sequence). -/
def distAt (ts : List (ScheduledStopTime F)) (k : Nat) : Option (Option F) :=
  (ts[k]?).map (fun st => st.ShapeDistanceTraveled)

/-- The record at index `k` with its time in channel `tType` blanked: what a scan of
channel `tType` must leave untouched. -/
def restAt (ts : List (ScheduledStopTime F)) (tType k : Nat) : Option (ScheduledStopTime F) :=
  (ts[k]?).map (fun st => setTime st tType 0)

/-- The pair (time, distance) that the guarded read of a gap boundary yields for a record
in range with time `t` and distance pointer `d`: the record's own values when the pointer
is set, the zero values when it is nil. -/
def boundaryOf (A : Float64Ops F) (t : Int) (d : Option F) : Int × F :=
  match d with
  | some x => (t, x)
  | none => (0, A.zero)

/-- What the scan loop relies on in its gap branch: the branch resumes the scan at the
end of the run of sentinels that starts at `i`, keeps the length of the slice, writes
only inside that run, and writes only the time of channel `tType`. -/
def GapSound (n tType : Nat)
    (gap : List (ScheduledStopTime F) → Nat → Except Fault (List (ScheduledStopTime F) × Nat)) :
    Prop :=
  ∀ (result : List (ScheduledStopTime F)) (i : Nat) (r' : List (ScheduledStopTime F))
    (e : Nat), result.length = n → i < n → gap result i = .ok (r', e) →
    e = scanEnd tType (result.drop i) i ∧ r'.length = n ∧
    ∀ m, ((m < i ∨ e ≤ m) → r'[m]? = result[m]?) ∧ restAt r' tType m = restAt result tType m

/-! ## Rounded arithmetic -/

/-- The standard model of rounded arithmetic, for an arithmetic `A` whose values are
rationals: every operation returns the exact result up to the relative error `eps`
(for IEEE binary64 with rounding to nearest, `eps = 2^-53` as long as no result
overflows or underflows), the comparison `>` and the zero value are exact, and the
conversion to a duration truncates toward zero whenever the truncated value is an `int64`
(Go leaves the result of the conversion open otherwise). -/
structure RelativeError (A : Float64Ops ℚ) (eps : ℚ) : Prop where
  zero_exact : A.zero = 0
  gt_exact : ∀ a b, A.gt a b = decide (b < a)
  sub_err : ∀ a b, |A.sub a b - (a - b)| ≤ eps * |a - b|
  mul_err : ∀ a b, |A.mul a b - a * b| ≤ eps * |a * b|
  div_err : ∀ a b, b ≠ 0 → |A.div a b - a / b| ≤ eps * |a / b|
  ofDuration_err : ∀ d : Int, |A.ofDuration d - (d : ℚ)| ≤ eps * |(d : ℚ)|
  toDuration_trunc : ∀ q : ℚ, -9223372036854775808 ≤ Int.tdiv q.num (q.den : Int) →
    Int.tdiv q.num (q.den : Int) < 9223372036854775808 →
    A.toDuration q = Int.tdiv q.num (q.den : Int)

/-! ## Helpers: records and slice accesses -/

theorem getTime_setTime_same (st : ScheduledStopTime F) (tType : Nat) (t : Int) :
    getTime (setTime st tType t) tType = t := by
  unfold getTime setTime
  by_cases h : tType = 0 <;> simp [h]

theorem getTime_setTime_other (st : ScheduledStopTime F) (c tType : Nat) (t : Int)
    (hc : c < 2) (ht : tType < 2) (hne : c ≠ tType) :
    getTime (setTime st tType t) c = getTime st c := by
  unfold getTime setTime
  by_cases h : tType = 0
  · have hc0 : c ≠ 0 := by omega
    simp [h, hc0]
  · have hc0 : c = 0 := by omega
    simp [h, hc0]

theorem setTime_setTime (st : ScheduledStopTime F) (tType : Nat) (t u : Int) :
    setTime (setTime st tType t) tType u = setTime st tType u := by
  unfold setTime
  by_cases h : tType = 0 <;> simp [h]

theorem setTime_dist (st : ScheduledStopTime F) (tType : Nat) (t : Int) :
    (setTime st tType t).ShapeDistanceTraveled = st.ShapeDistanceTraveled := by
  unfold setTime
  by_cases h : tType = 0 <;> simp [h]

theorem setTime_seq (st : ScheduledStopTime F) (tType : Nat) (t : Int) :
    (setTime st tType t).StopSequence = st.StopSequence := by
  unfold setTime
  by_cases h : tType = 0 <;> simp [h]

theorem setTime_exact (st : ScheduledStopTime F) (tType : Nat) (t : Int) :
    (setTime st tType t).ExactTimes = st.ExactTimes := by
  unfold setTime
  by_cases h : tType = 0 <;> simp [h]

theorem setTime_getTime (st : ScheduledStopTime F) (tType : Nat) :
    setTime st tType (getTime st tType) = st := by
  unfold getTime setTime
  by_cases h : tType = 0 <;> simp [h]

theorem readAt_ok_iff (result : List (ScheduledStopTime F)) (idx : Int)
    (st : ScheduledStopTime F) :
    readAt result idx = .ok st ↔ 0 ≤ idx ∧ result[idx.toNat]? = some st := by
  unfold readAt
  by_cases h : idx < 0
  · simp [h]
  · have h0 : 0 ≤ idx := by omega
    simp only [h, if_false, h0, true_and]
    cases hg : result[idx.toNat]? with
    | none => simp
    | some a => simp

theorem readAt_nat (result : List (ScheduledStopTime F)) (k : Nat)
    (st : ScheduledStopTime F) (h : result[k]? = some st) :
    readAt result (k : Int) = .ok st := by
  rw [readAt_ok_iff]
  exact ⟨by omega, by simpa using h⟩

theorem readAt_error (result : List (ScheduledStopTime F)) (idx : Int) (e : Fault)
    (h : readAt result idx = .error e) : idx < 0 ∨ result.length ≤ idx.toNat := by
  unfold readAt at h
  by_cases h0 : idx < 0
  · exact Or.inl h0
  · right
    simp only [h0, if_false] at h
    cases hg : result[idx.toNat]? with
    | none => exact List.getElem?_eq_none_iff.mp hg
    | some a => simp [hg] at h

theorem readTime_nat (result : List (ScheduledStopTime F)) (k tType : Nat) (t : Int)
    (h : timeAt result tType k = some t) : readTime result (k : Int) tType = .ok t := by
  unfold timeAt at h
  cases hg : result[k]? with
  | none => simp [hg] at h
  | some st =>
    simp only [hg, Option.map_some', Option.some.injEq] at h
    unfold readTime
    rw [readAt_nat result k st hg]
    simp [h]

theorem readTime_ok_nat (result : List (ScheduledStopTime F)) (k tType : Nat) (t : Int)
    (h : readTime result (k : Int) tType = .ok t) : timeAt result tType k = some t := by
  unfold readTime at h
  cases hr : readAt result (k : Int) with
  | error e => simp [hr] at h
  | ok st =>
    simp only [hr, Except.ok.injEq] at h
    have := (readAt_ok_iff result (k : Int) st).mp hr
    unfold timeAt
    simp only [Int.toNat_ofNat] at this
    simp [this.2, h]

theorem writeTime_nat (result : List (ScheduledStopTime F)) (k tType : Nat) (t : Int)
    (st : ScheduledStopTime F) (h : result[k]? = some st) :
    writeTime result (k : Int) tType t = .ok (result.set k (setTime st tType t)) := by
  unfold writeTime
  rw [readAt_nat result k st h]
  simp

/-! ## Helpers: the scan for the end of a gap -/

theorem scanEnd_list (tType : Nat) : ∀ (l : List (ScheduledStopTime F)) (b : Nat),
    b ≤ scanEnd tType l b ∧ scanEnd tType l b ≤ b + l.length ∧
    (∀ k, k < scanEnd tType l b - b → ∃ st, l[k]? = some st ∧ getTime st tType = 0) ∧
    (∀ st, l[scanEnd tType l b - b]? = some st → getTime st tType ≠ 0) := by
  intro l
  induction l with
  | nil =>
    intro b
    simp [scanEnd]
  | cons a rest ih =>
    intro b
    unfold scanEnd
    by_cases h : getTime a tType = 0
    · simp only [h, if_true]
      obtain ⟨h1, h2, h3, h4⟩ := ih (b + 1)
      refine ⟨by omega, by simp only [List.length_cons]; omega, ?_, ?_⟩
      · intro k hk
        cases k with
        | zero => exact ⟨a, by simp, h⟩
        | succ k =>
          obtain ⟨st, hst, hz⟩ := h3 k (by omega)
          exact ⟨st, by simpa using hst, hz⟩
      · intro st hst
        have hsub : scanEnd tType rest (b + 1) - b = (scanEnd tType rest (b + 1) - (b + 1)) + 1 := by
          omega
        rw [hsub] at hst
        simp only [List.getElem?_cons_succ] at hst
        exact h4 st hst
    · simp only [h, if_false]
      refine ⟨le_refl b, by omega, ?_, ?_⟩
      · intro k hk
        omega
      · intro st hst
        simp only [Nat.sub_self, List.getElem?_cons_zero, Option.some.injEq] at hst
        rw [← hst]
        exact h

theorem scanEnd_drop (result : List (ScheduledStopTime F)) (tType i : Nat)
    (hi : i ≤ result.length) :
    i ≤ scanEnd tType (result.drop i) i ∧ scanEnd tType (result.drop i) i ≤ result.length ∧
    (∀ k, i ≤ k → k < scanEnd tType (result.drop i) i → timeAt result tType k = some 0) ∧
    (∀ t, timeAt result tType (scanEnd tType (result.drop i) i) = some t → t ≠ 0) := by
  obtain ⟨h1, h2, h3, h4⟩ := scanEnd_list tType (result.drop i) i
  have hlen : (result.drop i).length = result.length - i := List.length_drop i result
  refine ⟨h1, by omega, ?_, ?_⟩
  · intro k hk1 hk2
    obtain ⟨st, hst, hz⟩ := h3 (k - i) (by omega)
    rw [List.getElem?_drop] at hst
    have hik : i + (k - i) = k := by omega
    rw [hik] at hst
    simp [timeAt, hst, hz]
  · intro t ht
    unfold timeAt at ht
    cases hg : result[scanEnd tType (result.drop i) i]? with
    | none => simp [hg] at ht
    | some st =>
      simp only [hg, Option.map_some', Option.some.injEq] at ht
      have := h4 st (by
        rw [List.getElem?_drop]
        have hik : i + (scanEnd tType (result.drop i) i - i) = scanEnd tType (result.drop i) i := by
          omega
        rw [hik]
        exact hg)
      rw [← ht]
      exact this

theorem timeAt_isSome (result : List (ScheduledStopTime F)) (tType k : Nat)
    (hk : k < result.length) : ∃ t, timeAt result tType k = some t := by
  unfold timeAt
  rw [List.getElem?_eq_getElem hk]
  exact ⟨_, rfl⟩

theorem timeAt_lt (result : List (ScheduledStopTime F)) (tType k : Nat) (t : Int)
    (h : timeAt result tType k = some t) : k < result.length := by
  unfold timeAt at h
  by_contra hk
  have : result[k]? = none := List.getElem?_eq_none_iff.mpr (by omega)
  simp [this] at h

theorem scanEnd_unique (result : List (ScheduledStopTime F)) (tType i h : Nat)
    (hi : i ≤ h) (hh : h ≤ result.length)
    (hz : ∀ k, i ≤ k → k < h → timeAt result tType k = some 0)
    (hend : ∀ t, timeAt result tType h = some t → t ≠ 0) :
    scanEnd tType (result.drop i) i = h := by
  obtain ⟨h1, h2, h3, h4⟩ := scanEnd_drop result tType i (by omega)
  rcases Nat.lt_trichotomy (scanEnd tType (result.drop i) i) h with hlt | heq | hgt
  · exact absurd rfl (h4 0 (hz _ h1 hlt))
  · exact heq
  · exact absurd rfl (hend 0 (h3 h hi hgt))

/-! ## Helpers: the filling loops -/

theorem fillUniform_range (tType s : Nat) (startTime delta : Int) :
    ∀ (k a : Nat) (result : List (ScheduledStopTime F)), s + a + k ≤ result.length →
    ∃ r', fillUniform tType (s : Int) startTime delta (List.range' a k) result = .ok r' ∧
      r'.length = result.length ∧
      ∀ m, r'[m]? =
        if s + a ≤ m ∧ m < s + a + k then
          (result[m]?).map
            (fun st => setTime st tType (dAdd startTime (dMul ((m : Int) - (s : Int)) delta)))
        else result[m]? := by
  intro k
  induction k with
  | zero =>
    intro a result _
    refine ⟨result, by simp [fillUniform], rfl, ?_⟩
    intro m
    have hc : ¬ (s + a ≤ m ∧ m < s + a + 0) := by omega
    rw [if_neg hc]
  | succ k ih =>
    intro a result hlen
    have hlt : s + a < result.length := by omega
    have hst : result[s + a]? = some result[s + a] := List.getElem?_eq_getElem hlt
    have hw := writeTime_nat result (s + a) tType (dAdd startTime (dMul (a : Int) delta))
      result[s + a] hst
    have hcast : ((s + a : Nat) : Int) = (s : Int) + (a : Int) := by push_cast; rfl
    rw [hcast] at hw
    obtain ⟨r', hr, hl, hm⟩ := ih (a + 1)
      (result.set (s + a) (setTime result[s + a] tType (dAdd startTime (dMul (a : Int) delta))))
      (by rw [List.length_set]; omega)
    refine ⟨r', ?_, ?_, ?_⟩
    · rw [List.range'_succ]
      simp only [fillUniform, hw]
      exact hr
    · rw [hl, List.length_set]
    · intro m
      rw [hm m]
      by_cases hma : m = s + a
      · have c1 : ¬ (s + (a + 1) ≤ m ∧ m < s + (a + 1) + k) := by omega
        have c2 : s + a ≤ m ∧ m < s + a + (k + 1) := by omega
        have hsub : (m : Int) - (s : Int) = (a : Int) := by omega
        rw [if_neg c1, if_pos c2, hsub, hma, List.getElem?_set_self hlt, hst]
        rfl
      · have hne : s + a ≠ m := fun h => hma h.symm
        rw [List.getElem?_set_ne hne]
        by_cases c2 : s + a ≤ m ∧ m < s + a + (k + 1)
        · have c1 : s + (a + 1) ≤ m ∧ m < s + (a + 1) + k := by omega
          rw [if_pos c1, if_pos c2]
        · have c1 : ¬ (s + (a + 1) ≤ m ∧ m < s + (a + 1) + k) := by omega
          rw [if_neg c1, if_neg c2]

theorem fillByShapeDist_range (A : Float64Ops F) (tType s : Nat) (startTime endTime : Int)
    (startDist endDist : F) :
    ∀ (k a : Nat) (result r' : List (ScheduledStopTime F)),
    fillByShapeDist A tType (s : Int) startTime endTime startDist endDist
      (List.range' a k) result = .ok r' →
    r'.length = result.length ∧
    ∀ m, (¬ (s + a ≤ m ∧ m < s + a + k) → r'[m]? = result[m]?) ∧
      (s + a ≤ m → m < s + a + k → ∃ st d, result[m]? = some st ∧
        st.ShapeDistanceTraveled = some d ∧
        r'[m]? = some (setTime st tType
          (interpolated A startTime endTime startDist endDist d))) := by
  intro k
  induction k with
  | zero =>
    intro a result r' h
    simp only [List.range'_zero, fillByShapeDist, Except.ok.injEq] at h
    subst h
    refine ⟨rfl, ?_⟩
    intro m
    exact ⟨fun _ => rfl, fun h1 h2 => by omega⟩
  | succ k ih =>
    intro a result r' h
    rw [List.range'_succ] at h
    simp only [fillByShapeDist] at h
    have hcast : (s : Int) + (a : Int) = ((s + a : Nat) : Int) := by push_cast; rfl
    rw [hcast] at h
    cases hr : readAt result ((s + a : Nat) : Int) with
    | error e => simp only [hr, reduceCtorEq] at h
    | ok st =>
      simp only [hr] at h
      have hst : result[s + a]? = some st := by
        have := ((readAt_ok_iff result _ st).mp hr).2
        simpa using this
      have hlt : s + a < result.length := by
        by_contra hc
        have : result[s + a]? = none := List.getElem?_eq_none_iff.mpr (by omega)
        rw [this] at hst
        exact Option.noConfusion hst
      cases hd : st.ShapeDistanceTraveled with
      | none => simp only [hd, reduceCtorEq] at h
      | some d =>
        simp only [hd] at h
        rw [writeTime_nat result (s + a) tType _ st hst] at h
        simp only at h
        obtain ⟨hl, hm⟩ := ih (a + 1) _ r' h
        refine ⟨by rw [hl, List.length_set], ?_⟩
        intro m
        obtain ⟨hm1, hm2⟩ := hm m
        by_cases hma : m = s + a
        · refine ⟨fun hc => absurd (show s + a ≤ m ∧ m < s + a + (k + 1) by omega) hc, ?_⟩
          intro _ _
          refine ⟨st, d, by rw [hma]; exact hst, hd, ?_⟩
          rw [hm1 (by omega), hma, List.getElem?_set_self hlt]
        · have hne : s + a ≠ m := fun h => hma h.symm
          refine ⟨fun hc => ?_, fun h1 h2 => ?_⟩
          · rw [hm1 (by omega), List.getElem?_set_ne hne]
          · obtain ⟨st', d', h1', h2', h3'⟩ := hm2 (by omega) (by omega)
            rw [List.getElem?_set_ne hne] at h1'
            exact ⟨st', d', h1', h2', h3'⟩

theorem fillByShapeDist_total (A : Float64Ops F) (tType s : Nat) (startTime endTime : Int)
    (startDist endDist : F) :
    ∀ (k a : Nat) (result : List (ScheduledStopTime F)), s + a + k ≤ result.length →
    (∀ m st, s + a ≤ m → m < s + a + k → result[m]? = some st →
      st.ShapeDistanceTraveled ≠ none) →
    ∃ r', fillByShapeDist A tType (s : Int) startTime endTime startDist endDist
      (List.range' a k) result = .ok r' := by
  intro k
  induction k with
  | zero =>
    intro a result _ _
    exact ⟨result, by simp [fillByShapeDist]⟩
  | succ k ih =>
    intro a result hlen hd
    have hlt : s + a < result.length := by omega
    have hst : result[s + a]? = some result[s + a] := List.getElem?_eq_getElem hlt
    have hcast : (s : Int) + (a : Int) = ((s + a : Nat) : Int) := by push_cast; rfl
    rw [List.range'_succ]
    simp only [fillByShapeDist]
    rw [hcast, readAt_nat result (s + a) _ hst]
    simp only
    cases hdd : (result[s + a]).ShapeDistanceTraveled with
    | none => exact absurd hdd (hd (s + a) _ (by omega) (by omega) hst)
    | some d =>
      simp only
      rw [writeTime_nat result (s + a) tType _ _ hst]
      simp only
      apply ih (a + 1) _ (by rw [List.length_set]; omega)
      intro m st h1 h2 hm
      have hne : s + a ≠ m := by omega
      rw [List.getElem?_set_ne hne] at hm
      exact hd m st (by omega) (by omega) hm

theorem uniformGap_fill (n tType : Nat) (result : List (ScheduledStopTime F)) (s e : Nat)
    (ts te : Int) (hn : result.length = n)
    (he : scanEnd tType (result.drop (s + 1)) (s + 1) = e) (hen : e < n)
    (hts : timeAt result tType s = some ts) (hte : timeAt result tType e = some te)
    (hlt : ts < te) :
    ∃ r', uniformGap n tType result (s + 1) = .ok (r', e) ∧ r'.length = n ∧
      ∀ m, r'[m]? =
        if s + 1 ≤ m ∧ m < e then
          (result[m]?).map (fun st => setTime st tType
            (dAdd ts (dMul ((m : Int) - (s : Int)) (dDiv (dSub te ts) ((e : Int) - (s : Int))))))
        else result[m]? := by
  have hsn : s < result.length := timeAt_lt result tType s ts hts
  have hse : s + 1 ≤ e := by
    have := (scanEnd_drop result tType (s + 1) (by omega)).1
    rw [he] at this
    exact this
  obtain ⟨r', hr, hl, hm⟩ := fillUniform_range tType s ts
    (dDiv (dSub te ts) ((e : Int) - (s : Int))) (e - s - 1) 1 result (by omega)
  have hs : ((s + 1 : Nat) : Int) - 1 = (s : Int) := by omega
  have hk : ((e : Int) - (s : Int)).toNat - 1 = e - s - 1 := by omega
  refine ⟨r', ?_, by omega, ?_⟩
  · unfold uniformGap
    simp only [hs, he, hen, if_true, readTime_nat result s tType ts hts,
      readTime_nat result e tType te hte, hk, hr]
    have hs0 : (s : Int) ≥ 0 := by omega
    have hg : (s : Int) ≥ 0 ∧ True ∧ te > ts ∧ (e : Int) - (s : Int) > 0 :=
      ⟨hs0, trivial, hlt, by omega⟩
    rw [if_pos hs0]
    simp only []
    rw [if_pos hg, hr]
  · intro m
    rw [hm m]
    have : s + 1 + (e - s - 1) = e := by omega
    rw [this]

theorem uniformGap_skip (n tType : Nat) (result : List (ScheduledStopTime F)) (i : Nat)
    (hn : result.length = n) (hi : i < n)
    (h : i = 0 ∨ n ≤ scanEnd tType (result.drop i) i ∨
      ∃ ts te, timeAt result tType (i - 1) = some ts ∧
        timeAt result tType (scanEnd tType (result.drop i) i) = some te ∧ te ≤ ts) :
    uniformGap n tType result i = .ok (result, scanEnd tType (result.drop i) i) := by
  cases i with
  | zero =>
    unfold uniformGap
    have hneg : ¬ (((0 : Nat) : Int) - 1 ≥ 0) := by omega
    simp only [if_neg hneg]
    by_cases hen : scanEnd tType (result.drop 0) 0 < n
    · obtain ⟨te, hte⟩ := timeAt_isSome result tType _ (by rw [hn]; exact hen)
      simp only [hen, if_true, readTime_nat result _ tType te hte]
      rw [if_neg (fun hc => hneg hc.1)]
    · simp only [hen, if_false]
      rw [if_neg (fun hc => hneg hc.1)]
  | succ s =>
    unfold uniformGap
    have hs : ((s + 1 : Nat) : Int) - 1 = (s : Int) := by omega
    have hs0 : (s : Int) ≥ 0 := by omega
    obtain ⟨ts, hts⟩ := timeAt_isSome result tType s (by omega)
    simp only [hs, if_pos hs0, readTime_nat result s tType ts hts]
    by_cases hen : scanEnd tType (result.drop (s + 1)) (s + 1) < n
    · obtain ⟨te, hte⟩ := timeAt_isSome result tType _ (by rw [hn]; exact hen)
      simp only [hen, if_true, readTime_nat result _ tType te hte]
      have hle : te ≤ ts := by
        rcases h with h | h | ⟨ts', te', h1, h2, h3⟩
        · omega
        · omega
        · simp only [Nat.add_sub_cancel] at h1
          rw [hts] at h1
          rw [hte] at h2
          simp only [Option.some.injEq] at h1 h2
          omega
      rw [if_neg (fun hc => by have := hc.2.2.1; omega)]
    · simp only [hen, if_false]
      rw [if_neg (fun hc => by have := hc.2.1; exact this)]

theorem uniformGap_cases (n tType : Nat) (result : List (ScheduledStopTime F)) (i : Nat)
    (hn : result.length = n) (hi : i < n) :
    uniformGap n tType result i = .ok (result, scanEnd tType (result.drop i) i) ∨
    ∃ s ts te r', i = s + 1 ∧ scanEnd tType (result.drop i) i < n ∧
      timeAt result tType s = some ts ∧
      timeAt result tType (scanEnd tType (result.drop i) i) = some te ∧ ts < te ∧
      uniformGap n tType result i = .ok (r', scanEnd tType (result.drop i) i) ∧
      r'.length = n ∧
      ∀ m, r'[m]? =
        if s + 1 ≤ m ∧ m < scanEnd tType (result.drop i) i then
          (result[m]?).map (fun st => setTime st tType
            (dAdd ts (dMul ((m : Int) - (s : Int))
              (dDiv (dSub te ts) ((scanEnd tType (result.drop i) i : Int) - (s : Int))))))
        else result[m]? := by
  cases i with
  | zero => exact Or.inl (uniformGap_skip n tType result 0 hn hi (Or.inl rfl))
  | succ s =>
    by_cases hen : scanEnd tType (result.drop (s + 1)) (s + 1) < n
    · obtain ⟨ts, hts⟩ := timeAt_isSome result tType s (by omega)
      obtain ⟨te, hte⟩ := timeAt_isSome result tType _ (by rw [hn]; exact hen)
      by_cases hlt : ts < te
      · right
        obtain ⟨r', h1, h2, h3⟩ :=
          uniformGap_fill n tType result s _ ts te hn rfl hen hts hte hlt
        exact ⟨s, ts, te, r', rfl, hen, hts, hte, hlt, h1, h2, h3⟩
      · left
        exact uniformGap_skip n tType result (s + 1) hn hi
          (Or.inr (Or.inr ⟨ts, te, by simpa using hts, hte, by omega⟩))
    · left
      exact uniformGap_skip n tType result (s + 1) hn hi (Or.inr (Or.inl (by omega)))

theorem restAt_eq_of_getElem (r r' : List (ScheduledStopTime F)) (tType m : Nat)
    (h : r'[m]? = r[m]?) : restAt r' tType m = restAt r tType m := by
  unfold restAt
  rw [h]

theorem restAt_of_set (r r' : List (ScheduledStopTime F)) (tType m : Nat) (v : Int)
    (h : r'[m]? = (r[m]?).map (fun st => setTime st tType v)) :
    restAt r' tType m = restAt r tType m := by
  unfold restAt
  rw [h]
  cases r[m]? with
  | none => rfl
  | some st => simp [setTime_setTime]

theorem uniformGap_total (n tType : Nat) (result : List (ScheduledStopTime F)) (i : Nat)
    (hn : result.length = n) (hi : i < n) :
    ∃ p, uniformGap n tType result i = .ok p := by
  rcases uniformGap_cases n tType result i hn hi with h | ⟨s, ts, te, r', _, _, _, _, _, h, _⟩
  · exact ⟨_, h⟩
  · exact ⟨_, h⟩

theorem uniformGap_sound (n tType : Nat) :
    GapSound n tType (uniformGap (F := F) n tType) := by
  intro result i r' e hn hi hgap
  rcases uniformGap_cases n tType result i hn hi with
    h | ⟨s, ts, te, r'', hs, hen, hts, hte, hlt, h, hl, hm⟩
  · rw [h] at hgap
    simp only [Except.ok.injEq, Prod.mk.injEq] at hgap
    obtain ⟨h1, h2⟩ := hgap
    subst h1
    exact ⟨h2.symm, hn, fun m => ⟨fun _ => rfl, rfl⟩⟩
  · rw [h] at hgap
    simp only [Except.ok.injEq, Prod.mk.injEq] at hgap
    obtain ⟨h1, h2⟩ := hgap
    subst h1
    refine ⟨h2.symm, hl, ?_⟩
    intro m
    by_cases hc : s + 1 ≤ m ∧ m < scanEnd tType (result.drop i) i
    · refine ⟨fun hout => by omega, ?_⟩
      have := hm m
      rw [if_pos hc] at this
      exact restAt_of_set result r'' tType m _ this
    · have := hm m
      rw [if_neg hc] at this
      exact ⟨fun _ => this, restAt_eq_of_getElem result r'' tType m this⟩

theorem boundary_false (A : Float64Ops F) (result : List (ScheduledStopTime F)) (idx : Int)
    (tType : Nat) : boundary A result false idx tType = .ok (0, A.zero) := by
  simp [boundary]

theorem boundary_true (A : Float64Ops F) (result : List (ScheduledStopTime F)) (k tType : Nat)
    (st : ScheduledStopTime F) (h : result[k]? = some st) :
    boundary A result true (k : Int) tType =
      .ok (match st.ShapeDistanceTraveled with
        | some d => (getTime st tType, d)
        | none => (0, A.zero)) := by
  unfold boundary
  rw [readAt_nat result k st h]
  cases hd : st.ShapeDistanceTraveled <;> simp [hd]

theorem boundary_some (A : Float64Ops F) (result : List (ScheduledStopTime F)) (k tType : Nat)
    (st : ScheduledStopTime F) (d : F) (h : result[k]? = some st)
    (hd : st.ShapeDistanceTraveled = some d) :
    boundary A result true (k : Int) tType = .ok (getTime st tType, d) := by
  rw [boundary_true A result k tType st h, hd]

theorem boundary_none (A : Float64Ops F) (result : List (ScheduledStopTime F)) (k tType : Nat)
    (st : ScheduledStopTime F) (h : result[k]? = some st)
    (hd : st.ShapeDistanceTraveled = none) :
    boundary A result true (k : Int) tType = .ok (0, A.zero) := by
  rw [boundary_true A result k tType st h, hd]

theorem boundary_total (A : Float64Ops F) (result : List (ScheduledStopTime F)) (k tType : Nat)
    (hk : k < result.length) : ∃ t d, boundary A result true (k : Int) tType = .ok (t, d) := by
  rw [boundary_true A result k tType _ (List.getElem?_eq_getElem hk)]
  exact ⟨_, _, rfl⟩

theorem shapeDistGap_skip (A : Float64Ops F) (n tType : Nat)
    (result : List (ScheduledStopTime F)) (i : Nat) (hn : result.length = n) (hi : i < n)
    (h : i = 0 ∨ n ≤ scanEnd tType (result.drop i) i ∨
      ∃ ts ds te de, boundary A result true ((i - 1 : Nat) : Int) tType = .ok (ts, ds) ∧
        boundary A result true ((scanEnd tType (result.drop i) i : Nat) : Int) tType
          = .ok (te, de) ∧
        (A.gt de ds = false ∨ te ≤ ts)) :
    shapeDistGap A n tType result i = .ok (result, scanEnd tType (result.drop i) i) := by
  cases i with
  | zero =>
    unfold shapeDistGap
    have hneg : ¬ (((0 : Nat) : Int) - 1 ≥ 0) := by omega
    simp only [decide_eq_false hneg, boundary_false]
    by_cases hen : scanEnd tType (result.drop 0) 0 < n
    · obtain ⟨te, de, hb⟩ := boundary_total A result _ tType (by rw [hn]; exact hen)
      simp only [decide_eq_true hen, hb]
      rw [if_neg (fun hc => hneg hc.1)]
    · simp only [decide_eq_false hen, boundary_false]
      rw [if_neg (fun hc => hneg hc.1)]
  | succ s =>
    unfold shapeDistGap
    have hs : ((s + 1 : Nat) : Int) - 1 = (s : Int) := by omega
    have hs0 : (s : Int) ≥ 0 := by omega
    obtain ⟨ts, ds, hbs⟩ := boundary_total A result s tType (by omega)
    simp only [hs, decide_eq_true hs0, hbs]
    by_cases hen : scanEnd tType (result.drop (s + 1)) (s + 1) < n
    · obtain ⟨te, de, hbe⟩ := boundary_total A result _ tType (by rw [hn]; exact hen)
      simp only [decide_eq_true hen, hbe]
      have hno : A.gt de ds = false ∨ te ≤ ts := by
        rcases h with h | h | ⟨ts', ds', te', de', h1, h2, h3⟩
        · omega
        · omega
        · simp only [Nat.add_sub_cancel] at h1
          rw [hbs] at h1
          rw [hbe] at h2
          simp only [Except.ok.injEq, Prod.mk.injEq] at h1 h2
          rw [h1.1, h1.2, h2.1, h2.2]
          exact h3
      rw [if_neg]
      intro hc
      rcases hno with h1 | h1
      · have := hc.2.2.1
        rw [h1] at this
        exact Bool.noConfusion this
      · have := hc.2.2.2.1
        omega
    · simp only [decide_eq_false hen, boundary_false]
      rw [if_neg (fun hc => hen hc.2.1)]

theorem shapeDistGap_fill (A : Float64Ops F) (n tType : Nat)
    (result : List (ScheduledStopTime F)) (s e : Nat) (ts te : Int) (ds de : F)
    (he : scanEnd tType (result.drop (s + 1)) (s + 1) = e) (hen : e < n)
    (hbs : boundary A result true (s : Int) tType = .ok (ts, ds))
    (hbe : boundary A result true (e : Int) tType = .ok (te, de))
    (hgt : A.gt de ds = true) (hlt : ts < te) :
    shapeDistGap A n tType result (s + 1) =
      match fillByShapeDist A tType (s : Int) ts te ds de (List.range' 1 (e - s - 1)) result with
      | .ok r' => .ok (r', e)
      | .error err => .error err := by
  have hse : s + 1 ≤ e := by
    have := (scanEnd_list tType (result.drop (s + 1)) (s + 1)).1
    rw [he] at this
    exact this
  have hs : ((s + 1 : Nat) : Int) - 1 = (s : Int) := by omega
  have hs0 : (s : Int) ≥ 0 := by omega
  have hk : ((e : Int) - (s : Int)).toNat - 1 = e - s - 1 := by omega
  have hg : (s : Int) ≥ 0 ∧ e < n ∧ A.gt de ds = true ∧ te > ts ∧ (e : Int) - (s : Int) > 0 :=
    ⟨hs0, hen, hgt, hlt, by omega⟩
  unfold shapeDistGap
  simp only [hs, decide_eq_true hs0, hbs, he, decide_eq_true hen, hbe, hk]
  rw [if_pos hg]

theorem shapeDistGap_cases (A : Float64Ops F) (n tType : Nat)
    (result : List (ScheduledStopTime F)) (i : Nat) (hn : result.length = n) (hi : i < n) :
    shapeDistGap A n tType result i = .ok (result, scanEnd tType (result.drop i) i) ∨
    ∃ s ts ds te de, i = s + 1 ∧ s + 1 ≤ scanEnd tType (result.drop i) i ∧
      scanEnd tType (result.drop i) i < n ∧
      boundary A result true (s : Int) tType = .ok (ts, ds) ∧
      boundary A result true ((scanEnd tType (result.drop i) i : Nat) : Int) tType
        = .ok (te, de) ∧
      A.gt de ds = true ∧ ts < te ∧
      shapeDistGap A n tType result i =
        match fillByShapeDist A tType (s : Int) ts te ds de
          (List.range' 1 (scanEnd tType (result.drop i) i - s - 1)) result with
        | .ok r' => .ok (r', scanEnd tType (result.drop i) i)
        | .error err => .error err := by
  cases i with
  | zero => exact Or.inl (shapeDistGap_skip A n tType result 0 hn hi (Or.inl rfl))
  | succ s =>
    by_cases hen : scanEnd tType (result.drop (s + 1)) (s + 1) < n
    · obtain ⟨ts, ds, hbs⟩ := boundary_total A result s tType (by omega)
      obtain ⟨te, de, hbe⟩ := boundary_total A result _ tType (by rw [hn]; exact hen)
      by_cases hg : A.gt de ds = true ∧ ts < te
      · right
        exact ⟨s, ts, ds, te, de, rfl, (scanEnd_list tType _ _).1, hen, hbs, hbe, hg.1, hg.2,
          shapeDistGap_fill A n tType result s _ ts te ds de rfl hen hbs hbe hg.1 hg.2⟩
      · left
        apply shapeDistGap_skip A n tType result (s + 1) hn hi
        refine Or.inr (Or.inr ⟨ts, ds, te, de, by simpa using hbs, hbe, ?_⟩)
        by_cases hgt : A.gt de ds = true
        · right
          have : ¬ ts < te := fun h => hg ⟨hgt, h⟩
          omega
        · left
          simpa using hgt
    · left
      exact shapeDistGap_skip A n tType result (s + 1) hn hi (Or.inr (Or.inl (by omega)))

theorem shapeDistGap_sound (A : Float64Ops F) (n tType : Nat) :
    GapSound n tType (shapeDistGap A n tType) := by
  intro result i r' e hn hi hgap
  rcases shapeDistGap_cases A n tType result i hn hi with
    h | ⟨s, ts, ds, te, de, hs, hse, hen, hbs, hbe, hgt, hlt, h⟩
  · rw [h] at hgap
    simp only [Except.ok.injEq, Prod.mk.injEq] at hgap
    obtain ⟨h1, h2⟩ := hgap
    subst h1
    exact ⟨h2.symm, hn, fun m => ⟨fun _ => rfl, rfl⟩⟩
  · rw [h] at hgap
    cases hf : fillByShapeDist A tType (s : Int) ts te ds de
        (List.range' 1 (scanEnd tType (result.drop i) i - s - 1)) result with
    | error err => simp only [hf, reduceCtorEq] at hgap
    | ok r'' =>
      simp only [hf, Except.ok.injEq, Prod.mk.injEq] at hgap
      obtain ⟨h1, h2⟩ := hgap
      subst h1
      obtain ⟨hl, hm⟩ := fillByShapeDist_range A tType s ts te ds de _ 1 result r'' hf
      have hsum : s + 1 + (scanEnd tType (result.drop i) i - s - 1)
          = scanEnd tType (result.drop i) i := by omega
      rw [hsum] at hm
      refine ⟨h2.symm, by rw [hl, hn], ?_⟩
      intro m
      obtain ⟨hm1, hm2⟩ := hm m
      by_cases hc : s + 1 ≤ m ∧ m < scanEnd tType (result.drop i) i
      · refine ⟨fun hout => by omega, ?_⟩
        obtain ⟨st, d, h3, _, h5⟩ := hm2 hc.1 hc.2
        apply restAt_of_set result r'' tType m
          (interpolated A ts te ds de d)
        rw [h5, h3]
        rfl
      · exact ⟨fun _ => hm1 hc, restAt_eq_of_getElem result r'' tType m (hm1 hc)⟩

theorem shapeDistGap_total (A : Float64Ops F) (n tType : Nat)
    (result : List (ScheduledStopTime F)) (i : Nat) (hn : result.length = n) (hi : i < n)
    (hd : ∀ (m : Nat) (st : ScheduledStopTime F), result[m]? = some st →
      st.ShapeDistanceTraveled ≠ none) :
    ∃ p, shapeDistGap A n tType result i = .ok p := by
  rcases shapeDistGap_cases A n tType result i hn hi with
    h | ⟨s, ts, ds, te, de, hs, hse, hen, hbs, hbe, hgt, hlt, h⟩
  · exact ⟨_, h⟩
  · obtain ⟨r', hr⟩ := fillByShapeDist_total A tType s ts te ds de
      (scanEnd tType (result.drop i) i - s - 1) 1 result (by omega)
      (fun m st _ _ hm => hd m st hm)
    rw [h, hr]
    exact ⟨_, rfl⟩

/-! ## Helpers: the scan loop -/

theorem timeAt_congr (r r' : List (ScheduledStopTime F)) (tType m : Nat)
    (h : r'[m]? = r[m]?) : timeAt r' tType m = timeAt r tType m := by
  unfold timeAt
  rw [h]

theorem scanLoop_step (gap : List (ScheduledStopTime F) → Nat →
      Except Fault (List (ScheduledStopTime F) × Nat)) (n tType fuel i : Nat)
    (result out : List (ScheduledStopTime F)) (hn : result.length = n) (hi : i < n)
    (h : scanLoop gap n tType (fuel + 1) i result = .ok out) :
    (∃ t, timeAt result tType i = some t ∧ t ≠ 0 ∧
      scanLoop gap n tType fuel (i + 1) result = .ok out) ∨
    (timeAt result tType i = some 0 ∧ ∃ r' e, gap result i = .ok (r', e) ∧
      scanLoop gap n tType fuel e r' = .ok out) := by
  obtain ⟨t, ht⟩ := timeAt_isSome result tType i (by omega)
  simp only [scanLoop, hi, if_true, readTime_nat result i tType t ht] at h
  by_cases h0 : t = 0
  · right
    subst h0
    simp only [if_true] at h
    cases hg : gap result i with
    | error err => simp only [hg, reduceCtorEq] at h
    | ok p =>
      obtain ⟨r', e⟩ := p
      simp only [hg] at h
      exact ⟨ht, r', e, rfl, h⟩
  · left
    simp only [h0, if_false] at h
    exact ⟨t, ht, h0, h⟩

theorem scanLoop_done (gap : List (ScheduledStopTime F) → Nat →
      Except Fault (List (ScheduledStopTime F) × Nat)) (n tType fuel i : Nat)
    (result : List (ScheduledStopTime F)) (hi : ¬ i < n) :
    scanLoop gap n tType fuel i result = .ok result := by
  cases fuel <;> simp [scanLoop, hi]

theorem scanLoop_frame (gap : List (ScheduledStopTime F) → Nat →
      Except Fault (List (ScheduledStopTime F) × Nat)) (n tType : Nat)
    (hs : GapSound n tType gap) :
    ∀ (fuel i : Nat) (result out : List (ScheduledStopTime F)), result.length = n →
    scanLoop gap n tType fuel i result = .ok out →
    out.length = n ∧ ∀ m, restAt out tType m = restAt result tType m ∧
      ((m < i ∨ timeAt result tType m ≠ some 0) → out[m]? = result[m]?) := by
  intro fuel
  induction fuel with
  | zero =>
    intro i result out hn h
    by_cases hi : i < n
    · simp only [scanLoop, hi, if_true, reduceCtorEq] at h
    · simp only [scanLoop, hi, if_false, Except.ok.injEq] at h
      subst h
      exact ⟨hn, fun m => ⟨rfl, fun _ => rfl⟩⟩
  | succ fuel ih =>
    intro i result out hn h
    by_cases hi : i < n
    · rcases scanLoop_step gap n tType fuel i result out hn hi h with
        ⟨t, _, _, hrest⟩ | ⟨hz, r', e, hg, hrest⟩
      · obtain ⟨h1, h2⟩ := ih (i + 1) result out hn hrest
        refine ⟨h1, fun m => ⟨(h2 m).1, fun hm => (h2 m).2 ?_⟩⟩
        rcases hm with hm | hm
        · exact Or.inl (by omega)
        · exact Or.inr hm
      · obtain ⟨he, hl, hfr⟩ := hs result i r' e hn hi hg
        obtain ⟨h1, h2⟩ := ih e r' out hl hrest
        obtain ⟨hie, _, hzero, _⟩ := scanEnd_drop result tType i (by omega)
        rw [← he] at hie hzero
        refine ⟨h1, fun m => ⟨by rw [(h2 m).1, (hfr m).2], fun hm => ?_⟩⟩
        have hout : m < i ∨ e ≤ m := by
          rcases hm with hm | hm
          · exact Or.inl hm
          · by_contra hc
            exact hm (hzero m (by omega) (by omega))
        have hrm : r'[m]? = result[m]? := (hfr m).1 hout
        rw [← hrm]
        apply (h2 m).2
        by_cases hme : m < e
        · exact Or.inl hme
        · right
          rw [timeAt_congr result r' tType m hrm]
          rcases hm with hm | hm
          · omega
          · exact hm
    · rw [scanLoop_done gap n tType (fuel + 1) i result hi] at h
      simp only [Except.ok.injEq] at h
      subst h
      exact ⟨hn, fun m => ⟨rfl, fun _ => rfl⟩⟩

theorem scanLoop_total (gap : List (ScheduledStopTime F) → Nat →
      Except Fault (List (ScheduledStopTime F) × Nat)) (n tType : Nat)
    (hs : GapSound n tType gap) (Inv : List (ScheduledStopTime F) → Prop)
    (hgap : ∀ (result : List (ScheduledStopTime F)) (i : Nat), Inv result →
      result.length = n → i < n → ∃ r' e, gap result i = .ok (r', e) ∧ Inv r') :
    ∀ (fuel i : Nat) (result : List (ScheduledStopTime F)), Inv result → result.length = n →
    n ≤ fuel + i → ∃ out, scanLoop gap n tType fuel i result = .ok out := by
  intro fuel
  induction fuel with
  | zero =>
    intro i result _ _ hf
    exact ⟨result, scanLoop_done gap n tType 0 i result (by omega)⟩
  | succ fuel ih =>
    intro i result hinv hn hf
    by_cases hi : i < n
    · obtain ⟨t, ht⟩ := timeAt_isSome result tType i (by omega)
      simp only [scanLoop, hi, if_true, readTime_nat result i tType t ht]
      by_cases h0 : t = 0
      · subst h0
        obtain ⟨r', e, hg, hinv'⟩ := hgap result i hinv hn hi
        obtain ⟨he, hl, _⟩ := hs result i r' e hn hi hg
        obtain ⟨hie, _, _, hend⟩ := scanEnd_drop result tType i (by omega)
        rw [← he] at hie hend
        have hne : e ≠ i := by
          intro hc
          rw [hc] at hend
          exact hend 0 ht rfl
        simp only [if_true, hg]
        exact ih e r' hinv' hl (by omega)
      · simp only [h0, if_false]
        exact ih (i + 1) result hinv hn (by omega)
    · exact ⟨result, scanLoop_done gap n tType (fuel + 1) i result hi⟩

theorem scanLoop_gap (gap : List (ScheduledStopTime F) → Nat →
      Except Fault (List (ScheduledStopTime F) × Nat)) (n tType g : Nat)
    (hs : GapSound n tType gap) (hgn : g < n) :
    ∀ (fuel i : Nat) (result out : List (ScheduledStopTime F)), result.length = n →
    scanLoop gap n tType fuel i result = .ok out → i ≤ g →
    timeAt result tType g = some 0 →
    (i = g ∨ ∃ t, timeAt result tType (g - 1) = some t ∧ t ≠ 0 ∧ 1 ≤ g) →
    ∃ r1 r2 e, r1.length = n ∧ (∀ m, g ≤ m + 1 → r1[m]? = result[m]?) ∧
      gap r1 g = .ok (r2, e) ∧ ∀ m, m < e → out[m]? = r2[m]? := by
  intro fuel
  induction fuel with
  | zero =>
    intro i result out hn h hig _ _
    have hi : i < n := by omega
    simp only [scanLoop, hi, if_true, reduceCtorEq] at h
  | succ fuel ih =>
    intro i result out hn h hig hzg hprev
    have hi : i < n := by omega
    rcases scanLoop_step gap n tType fuel i result out hn hi h with
      ⟨t, ht, ht0, hrest⟩ | ⟨hz, r', e, hg, hrest⟩
    · have hne : i ≠ g := by
        intro hc
        rw [hc, hzg] at ht
        simp only [Option.some.injEq] at ht
        exact ht0 ht.symm
      apply ih (i + 1) result out hn hrest (by omega) hzg
      rcases hprev with hp | hp
      · exact absurd hp hne
      · exact Or.inr hp
    · obtain ⟨he, hl, hfr⟩ := hs result i r' e hn hi hg
      by_cases hig' : i = g
      · subst hig'
        refine ⟨result, r', e, hn, fun m _ => rfl, hg, ?_⟩
        intro m hm
        exact ((scanLoop_frame gap n tType hs fuel e r' out hl hrest).2 m).2 (Or.inl hm)
      · rcases hprev with hp | ⟨t, ht, ht0, hg1⟩
        · exact absurd hp hig'
        · obtain ⟨_, _, hzero, _⟩ := scanEnd_drop result tType i (by omega)
          rw [← he] at hzero
          have heg : e ≤ g - 1 := by
            by_contra hc
            have := hzero (g - 1) (by omega) (by omega)
            rw [ht] at this
            simp only [Option.some.injEq] at this
            exact ht0 this
          have hrg : r'[g]? = result[g]? := (hfr g).1 (Or.inr (by omega))
          have hrg1 : r'[g - 1]? = result[g - 1]? := (hfr (g - 1)).1 (Or.inr heg)
          obtain ⟨r1, r2, e2, h1, h2, h3, h4⟩ := ih e r' out hl hrest (by omega)
            (by rw [timeAt_congr result r' tType g hrg]; exact hzg)
            (Or.inr ⟨t, by rw [timeAt_congr result r' tType (g - 1) hrg1]; exact ht, ht0, hg1⟩)
          refine ⟨r1, r2, e2, h1, fun m hm => ?_, h3, h4⟩
          rw [h2 m hm]
          exact (hfr m).1 (Or.inr (by omega))

/-! ## Helpers: the two scans of a call -/

theorem restAt_proj {β : Type} (f : ScheduledStopTime F → β) (tType : Nat)
    (hf : ∀ st, f (setTime st tType 0) = f st) (r r' : List (ScheduledStopTime F)) (m : Nat)
    (h : restAt r' tType m = restAt r tType m) : (r'[m]?).map f = (r[m]?).map f := by
  unfold restAt at h
  cases h1 : r'[m]? with
  | none =>
    cases h2 : r[m]? with
    | none => rfl
    | some b => simp [h1, h2] at h
  | some a =>
    cases h2 : r[m]? with
    | none => simp [h1, h2] at h
    | some b =>
      simp only [h1, h2, Option.map_some', Option.some.injEq] at h
      simp only [Option.map_some', Option.some.injEq]
      rw [← hf a, ← hf b, h]

theorem restAt_timeAt (c tType : Nat) (hc : c < 2) (ht : tType < 2) (hne : c ≠ tType)
    (r r' : List (ScheduledStopTime F)) (m : Nat)
    (h : restAt r' tType m = restAt r tType m) : timeAt r' c m = timeAt r c m :=
  restAt_proj (fun st => getTime st c) tType
    (fun st => getTime_setTime_other st c tType 0 hc ht hne) r r' m h

theorem restAt_distAt (tType : Nat) (r r' : List (ScheduledStopTime F)) (m : Nat)
    (h : restAt r' tType m = restAt r tType m) : distAt r' m = distAt r m :=
  restAt_proj (fun st => st.ShapeDistanceTraveled) tType
    (fun st => setTime_dist st tType 0) r r' m h

theorem distAt_congr (r r' : List (ScheduledStopTime F)) (m : Nat)
    (h : r'[m]? = r[m]?) : distAt r' m = distAt r m := by
  unfold distAt
  rw [h]

theorem two_pass_gap (n : Nat) (gap : Nat → List (ScheduledStopTime F) → Nat →
      Except Fault (List (ScheduledStopTime F) × Nat))
    (hs : ∀ t, GapSound n t (gap t)) (ts mid out : List (ScheduledStopTime F))
    (hn : ts.length = n)
    (h0 : scanLoop (gap 0) n 0 n 0 ts = .ok mid)
    (h1 : scanLoop (gap 1) n 1 n 0 mid = .ok out)
    (tType : Nat) (ht : tType < 2) (g : Nat) (hgn : g < n)
    (hz : timeAt ts tType g = some 0)
    (hprev : g = 0 ∨ ∃ t, timeAt ts tType (g - 1) = some t ∧ t ≠ 0 ∧ 1 ≤ g) :
    ∃ r1 r2 e, r1.length = n ∧
      (∀ m, g ≤ m + 1 → timeAt r1 tType m = timeAt ts tType m ∧ distAt r1 m = distAt ts m) ∧
      gap tType r1 g = .ok (r2, e) ∧ ∀ m, m < e → timeAt out tType m = timeAt r2 tType m := by
  obtain ⟨hl0, hf0⟩ := scanLoop_frame (gap 0) n 0 (hs 0) n 0 ts mid hn h0
  obtain ⟨hl1, hf1⟩ := scanLoop_frame (gap 1) n 1 (hs 1) n 0 mid out hl0 h1
  have h01 : tType = 0 ∨ tType = 1 := by omega
  rcases h01 with h | h
  · subst h
    obtain ⟨r1, r2, e, g1, g2, g3, g4⟩ := scanLoop_gap (gap 0) n 0 g (hs 0) hgn n 0 ts mid hn h0
      (Nat.zero_le g) hz (by
        rcases hprev with hp | hp
        · exact Or.inl hp.symm
        · exact Or.inr hp)
    refine ⟨r1, r2, e, g1, ?_, g3, ?_⟩
    · intro m hm
      exact ⟨timeAt_congr ts r1 0 m (g2 m hm), distAt_congr ts r1 m (g2 m hm)⟩
    · intro m hm
      rw [restAt_timeAt 0 1 (by omega) (by omega) (by omega) mid out m (hf1 m).1]
      exact timeAt_congr r2 mid 0 m (g4 m hm)
  · subst h
    have htm : ∀ m, timeAt mid 1 m = timeAt ts 1 m := fun m =>
      restAt_timeAt 1 0 (by omega) (by omega) (by omega) ts mid m (hf0 m).1
    have hdm : ∀ m, distAt mid m = distAt ts m := fun m =>
      restAt_distAt 0 ts mid m (hf0 m).1
    obtain ⟨r1, r2, e, g1, g2, g3, g4⟩ := scanLoop_gap (gap 1) n 1 g (hs 1) hgn n 0 mid out hl0
      h1 (Nat.zero_le g) (by rw [htm]; exact hz) (by
        rcases hprev with hp | ⟨t, hp1, hp2, hp3⟩
        · exact Or.inl hp.symm
        · exact Or.inr ⟨t, by rw [htm]; exact hp1, hp2, hp3⟩)
    refine ⟨r1, r2, e, g1, ?_, g3, ?_⟩
    · intro m hm
      exact ⟨by rw [timeAt_congr mid r1 1 m (g2 m hm), htm],
        by rw [distAt_congr mid r1 m (g2 m hm), hdm]⟩
    · intro m hm
      exact timeAt_congr r2 out 1 m (g4 m hm)

theorem two_pass_frame (n : Nat) (gap : Nat → List (ScheduledStopTime F) → Nat →
      Except Fault (List (ScheduledStopTime F) × Nat))
    (hs : ∀ t, GapSound n t (gap t)) (ts mid out : List (ScheduledStopTime F))
    (hn : ts.length = n)
    (h0 : scanLoop (gap 0) n 0 n 0 ts = .ok mid)
    (h1 : scanLoop (gap 1) n 1 n 0 mid = .ok out) :
    out.length = n ∧ ∀ m,
      distAt out m = distAt ts m ∧
      (out[m]?).map (fun st => st.StopSequence) = (ts[m]?).map (fun st => st.StopSequence) ∧
      (out[m]?).map (fun st => st.ExactTimes) = (ts[m]?).map (fun st => st.ExactTimes) ∧
      ∀ tType, tType < 2 → timeAt ts tType m ≠ some 0 →
        timeAt out tType m = timeAt ts tType m := by
  obtain ⟨hl0, hf0⟩ := scanLoop_frame (gap 0) n 0 (hs 0) n 0 ts mid hn h0
  obtain ⟨hl1, hf1⟩ := scanLoop_frame (gap 1) n 1 (hs 1) n 0 mid out hl0 h1
  refine ⟨hl1, fun m => ⟨?_, ?_, ?_, ?_⟩⟩
  · rw [restAt_distAt 1 mid out m (hf1 m).1, restAt_distAt 0 ts mid m (hf0 m).1]
  · rw [restAt_proj (fun st => st.StopSequence) 1 (fun st => setTime_seq st 1 0) mid out m
        (hf1 m).1,
      restAt_proj (fun st => st.StopSequence) 0 (fun st => setTime_seq st 0 0) ts mid m
        (hf0 m).1]
  · rw [restAt_proj (fun st => st.ExactTimes) 1 (fun st => setTime_exact st 1 0) mid out m
        (hf1 m).1,
      restAt_proj (fun st => st.ExactTimes) 0 (fun st => setTime_exact st 0 0) ts mid m
        (hf0 m).1]
  · intro tType ht hnz
    have h01 : tType = 0 ∨ tType = 1 := by omega
    rcases h01 with h | h
    · subst h
      rw [restAt_timeAt 0 1 (by omega) (by omega) (by omega) mid out m (hf1 m).1]
      exact timeAt_congr ts mid 0 m ((hf0 m).2 (Or.inr hnz))
    · subst h
      have htm : timeAt mid 1 m = timeAt ts 1 m :=
        restAt_timeAt 1 0 (by omega) (by omega) (by omega) ts mid m (hf0 m).1
      rw [timeAt_congr mid out 1 m ((hf1 m).2 (Or.inr (by rw [htm]; exact hnz))), htm]

/-! ## Helpers: the two entry points -/

theorem interpolateStopTimes_passes (ts out : List (ScheduledStopTime F))
    (h : interpolateStopTimes ts = .ok out) (hne : ts.length ≠ 0) :
    ∃ mid, scanLoop (uniformGap ts.length 0) ts.length 0 ts.length 0 ts = .ok mid ∧
      scanLoop (uniformGap ts.length 1) ts.length 1 ts.length 0 mid = .ok out := by
  simp only [interpolateStopTimes, hne, if_false] at h
  cases h0 : scanLoop (uniformGap ts.length 0) ts.length 0 ts.length 0 ts with
  | error err => simp only [h0, reduceCtorEq] at h
  | ok mid =>
    simp only [h0] at h
    exact ⟨mid, rfl, h⟩

theorem interpolateStopTimes_total (ts : List (ScheduledStopTime F)) :
    ∃ out, interpolateStopTimes ts = .ok out := by
  by_cases hne : ts.length = 0
  · exact ⟨[], by simp [interpolateStopTimes, hne]⟩
  · have tot : ∀ (t : Nat) (r : List (ScheduledStopTime F)), r.length = ts.length →
        ∃ out, scanLoop (uniformGap ts.length t) ts.length t ts.length 0 r = .ok out := by
      intro t r hr
      apply scanLoop_total (uniformGap ts.length t) ts.length t (uniformGap_sound _ t)
        (fun _ => True) _ ts.length 0 r trivial hr (by omega)
      intro result i _ hl hi
      obtain ⟨p, hp⟩ := uniformGap_total ts.length t result i hl hi
      exact ⟨p.1, p.2, hp, trivial⟩
    obtain ⟨mid, h0⟩ := tot 0 ts rfl
    have hl0 := (scanLoop_frame _ ts.length 0 (uniformGap_sound _ 0) _ 0 ts mid rfl h0).1
    obtain ⟨out, h1⟩ := tot 1 mid hl0
    exact ⟨out, by simp only [interpolateStopTimes, hne, if_false, h0, h1]⟩

theorem byShapeDist_passes (A : Float64Ops F) (ts out : List (ScheduledStopTime F))
    (h : interpolateStopTimesByShapeDist A ts = .ok out) (hne : ts.length ≠ 0) :
    ∃ mid, scanLoop (shapeDistGap A ts.length 0) ts.length 0 ts.length 0 ts = .ok mid ∧
      scanLoop (shapeDistGap A ts.length 1) ts.length 1 ts.length 0 mid = .ok out := by
  simp only [interpolateStopTimesByShapeDist, hne, if_false] at h
  cases h0 : scanLoop (shapeDistGap A ts.length 0) ts.length 0 ts.length 0 ts with
  | error err => simp only [h0, reduceCtorEq] at h
  | ok mid =>
    simp only [h0] at h
    exact ⟨mid, rfl, h⟩

theorem byShapeDist_total (A : Float64Ops F) (ts : List (ScheduledStopTime F))
    (hd : ∀ m, distAt ts m ≠ some none) :
    ∃ out, interpolateStopTimesByShapeDist A ts = .ok out := by
  by_cases hne : ts.length = 0
  · exact ⟨[], by simp [interpolateStopTimesByShapeDist, hne]⟩
  · have tot : ∀ (t : Nat) (r : List (ScheduledStopTime F)), r.length = ts.length →
        (∀ m, distAt r m ≠ some none) →
        ∃ out, scanLoop (shapeDistGap A ts.length t) ts.length t ts.length 0 r = .ok out := by
      intro t r hr hdr
      apply scanLoop_total (shapeDistGap A ts.length t) ts.length t (shapeDistGap_sound A _ t)
        (fun r => ∀ m, distAt r m ≠ some none) _ ts.length 0 r hdr hr (by omega)
      intro result i hinv hl hi
      obtain ⟨p, hp⟩ := shapeDistGap_total A ts.length t result i hl hi (by
        intro m st hm hc
        apply hinv m
        simp [distAt, hm, hc])
      refine ⟨p.1, p.2, hp, ?_⟩
      intro m
      rw [restAt_distAt t result p.1 m
        ((shapeDistGap_sound A ts.length t result i p.1 p.2 hl hi hp).2.2 m).2]
      exact hinv m
    obtain ⟨mid, h0⟩ := tot 0 ts rfl hd
    obtain ⟨hl0, hf0⟩ := scanLoop_frame _ ts.length 0 (shapeDistGap_sound A _ 0) _ 0 ts mid rfl h0
    obtain ⟨out, h1⟩ := tot 1 mid hl0 (by
      intro m
      rw [restAt_distAt 0 ts mid m (hf0 m).1]
      exact hd m)
    exact ⟨out, by simp only [interpolateStopTimesByShapeDist, hne, if_false, h0, h1]⟩

theorem uniform_gap_view (ts out : List (ScheduledStopTime F))
    (h : interpolateStopTimes ts = .ok out) (tType : Nat) (ht : tType < 2) (g : Nat)
    (hz : timeAt ts tType g = some 0)
    (hprev : g = 0 ∨ ∃ t, timeAt ts tType (g - 1) = some t ∧ t ≠ 0 ∧ 1 ≤ g) :
    ∃ r1 r2 e, r1.length = ts.length ∧
      (∀ m, g ≤ m + 1 → timeAt r1 tType m = timeAt ts tType m ∧ distAt r1 m = distAt ts m) ∧
      uniformGap ts.length tType r1 g = .ok (r2, e) ∧
      ∀ m, m < e → timeAt out tType m = timeAt r2 tType m := by
  have hgn : g < ts.length := timeAt_lt ts tType g 0 hz
  obtain ⟨mid, h0, h1⟩ := interpolateStopTimes_passes ts out h (by omega)
  exact two_pass_gap ts.length (fun t => uniformGap ts.length t)
    (fun t => uniformGap_sound ts.length t) ts mid out rfl h0 h1 tType ht g hgn hz hprev

theorem byShapeDist_gap_view (A : Float64Ops F) (ts out : List (ScheduledStopTime F))
    (h : interpolateStopTimesByShapeDist A ts = .ok out) (tType : Nat) (ht : tType < 2)
    (g : Nat) (hz : timeAt ts tType g = some 0)
    (hprev : g = 0 ∨ ∃ t, timeAt ts tType (g - 1) = some t ∧ t ≠ 0 ∧ 1 ≤ g) :
    ∃ r1 r2 e, r1.length = ts.length ∧
      (∀ m, g ≤ m + 1 → timeAt r1 tType m = timeAt ts tType m ∧ distAt r1 m = distAt ts m) ∧
      shapeDistGap A ts.length tType r1 g = .ok (r2, e) ∧
      ∀ m, m < e → timeAt out tType m = timeAt r2 tType m := by
  have hgn : g < ts.length := timeAt_lt ts tType g 0 hz
  obtain ⟨mid, h0, h1⟩ := byShapeDist_passes A ts out h (by omega)
  exact two_pass_gap ts.length (fun t => shapeDistGap A ts.length t)
    (fun t => shapeDistGap_sound A ts.length t) ts mid out rfl h0 h1 tType ht g hgn hz hprev

theorem frame_nil (out : List (ScheduledStopTime F)) (ts : List (ScheduledStopTime F))
    (hne : ts.length = 0) (ho : out = []) :
    out.length = ts.length ∧ ∀ m,
      distAt out m = distAt ts m ∧
      (out[m]?).map (fun st => st.StopSequence) = (ts[m]?).map (fun st => st.StopSequence) ∧
      (out[m]?).map (fun st => st.ExactTimes) = (ts[m]?).map (fun st => st.ExactTimes) ∧
      ∀ tType, tType < 2 → timeAt ts tType m ≠ some 0 →
        timeAt out tType m = timeAt ts tType m := by
  have hts : ts = [] := List.length_eq_zero.mp hne
  subst ho
  subst hts
  exact ⟨rfl, fun m => ⟨rfl, rfl, rfl, fun _ _ _ => rfl⟩⟩

theorem uniform_frame (ts out : List (ScheduledStopTime F))
    (h : interpolateStopTimes ts = .ok out) :
    out.length = ts.length ∧ ∀ m,
      distAt out m = distAt ts m ∧
      (out[m]?).map (fun st => st.StopSequence) = (ts[m]?).map (fun st => st.StopSequence) ∧
      (out[m]?).map (fun st => st.ExactTimes) = (ts[m]?).map (fun st => st.ExactTimes) ∧
      ∀ tType, tType < 2 → timeAt ts tType m ≠ some 0 →
        timeAt out tType m = timeAt ts tType m := by
  by_cases hne : ts.length = 0
  · apply frame_nil out ts hne
    simp only [interpolateStopTimes, hne, if_true, Except.ok.injEq] at h
    exact h.symm
  · obtain ⟨mid, h0, h1⟩ := interpolateStopTimes_passes ts out h hne
    exact two_pass_frame ts.length (fun t => uniformGap ts.length t)
      (fun t => uniformGap_sound ts.length t) ts mid out rfl h0 h1

theorem byShapeDist_frame (A : Float64Ops F) (ts out : List (ScheduledStopTime F))
    (h : interpolateStopTimesByShapeDist A ts = .ok out) :
    out.length = ts.length ∧ ∀ m,
      distAt out m = distAt ts m ∧
      (out[m]?).map (fun st => st.StopSequence) = (ts[m]?).map (fun st => st.StopSequence) ∧
      (out[m]?).map (fun st => st.ExactTimes) = (ts[m]?).map (fun st => st.ExactTimes) ∧
      ∀ tType, tType < 2 → timeAt ts tType m ≠ some 0 →
        timeAt out tType m = timeAt ts tType m := by
  by_cases hne : ts.length = 0
  · apply frame_nil out ts hne
    simp only [interpolateStopTimesByShapeDist, hne, if_true, Except.ok.injEq] at h
    exact h.symm
  · obtain ⟨mid, h0, h1⟩ := byShapeDist_passes A ts out h hne
    exact two_pass_frame ts.length (fun t => shapeDistGap A ts.length t)
      (fun t => shapeDistGap_sound A ts.length t) ts mid out rfl h0 h1

/-! ## Helpers: the only fault of the distance-weighted function -/

theorem fillByShapeDist_fault (A : Float64Ops F) (tType s : Nat) (startTime endTime : Int)
    (startDist endDist : F) :
    ∀ (k a : Nat) (result : List (ScheduledStopTime F)) (err : Fault),
    s + a + k ≤ result.length →
    fillByShapeDist A tType (s : Int) startTime endTime startDist endDist
      (List.range' a k) result = .error err → err = .nilDereference := by
  intro k
  induction k with
  | zero =>
    intro a result err _ h
    simp only [List.range'_zero, fillByShapeDist, reduceCtorEq] at h
  | succ k ih =>
    intro a result err hlen h
    have hlt : s + a < result.length := by omega
    have hst : result[s + a]? = some result[s + a] := List.getElem?_eq_getElem hlt
    have hcast : (s : Int) + (a : Int) = ((s + a : Nat) : Int) := by push_cast; rfl
    rw [List.range'_succ] at h
    simp only [fillByShapeDist] at h
    rw [hcast, readAt_nat result (s + a) _ hst] at h
    simp only at h
    cases hdd : (result[s + a]).ShapeDistanceTraveled with
    | none =>
      simp only [hdd, Except.error.injEq] at h
      exact h.symm
    | some d =>
      simp only [hdd] at h
      rw [writeTime_nat result (s + a) tType _ _ hst] at h
      simp only at h
      exact ih (a + 1) _ err (by rw [List.length_set]; omega) h

theorem shapeDistGap_fault (A : Float64Ops F) (n tType : Nat)
    (result : List (ScheduledStopTime F)) (i : Nat) (err : Fault)
    (hn : result.length = n) (hi : i < n)
    (h : shapeDistGap A n tType result i = .error err) : err = .nilDereference := by
  rcases shapeDistGap_cases A n tType result i hn hi with
    hc | ⟨s, ts, ds, te, de, _, hse, hen, _, _, _, _, hc⟩
  · rw [hc] at h
    exact Except.noConfusion h
  · rw [hc] at h
    cases hf : fillByShapeDist A tType (s : Int) ts te ds de
        (List.range' 1 (scanEnd tType (result.drop i) i - s - 1)) result with
    | ok r' => simp only [hf, reduceCtorEq] at h
    | error err' =>
      simp only [hf, Except.error.injEq] at h
      rw [← h]
      exact fillByShapeDist_fault A tType s ts te ds de _ 1 result err' (by omega) hf

theorem scanLoop_fault (gap : List (ScheduledStopTime F) → Nat →
      Except Fault (List (ScheduledStopTime F) × Nat)) (n tType : Nat)
    (hs : GapSound n tType gap)
    (hfault : ∀ (result : List (ScheduledStopTime F)) (i : Nat) (err : Fault),
      result.length = n → i < n → gap result i = .error err → err = .nilDereference) :
    ∀ (fuel i : Nat) (result : List (ScheduledStopTime F)) (err : Fault),
    result.length = n → n ≤ fuel + i →
    scanLoop gap n tType fuel i result = .error err → err = .nilDereference := by
  intro fuel
  induction fuel with
  | zero =>
    intro i result err _ hf h
    rw [scanLoop_done gap n tType 0 i result (by omega)] at h
    exact Except.noConfusion h
  | succ fuel ih =>
    intro i result err hn hf h
    by_cases hi : i < n
    · obtain ⟨t, ht⟩ := timeAt_isSome result tType i (by omega)
      simp only [scanLoop, hi, if_true, readTime_nat result i tType t ht] at h
      by_cases h0 : t = 0
      · subst h0
        simp only [if_true] at h
        cases hg : gap result i with
        | error err' =>
          simp only [hg, Except.error.injEq] at h
          rw [← h]
          exact hfault result i err' hn hi hg
        | ok p =>
          obtain ⟨r', e⟩ := p
          simp only [hg] at h
          obtain ⟨he, hl, _⟩ := hs result i r' e hn hi hg
          obtain ⟨hie, _, _, hend⟩ := scanEnd_drop result tType i (by omega)
          rw [← he] at hie hend
          have hne : e ≠ i := by
            intro hc
            rw [hc] at hend
            exact hend 0 ht rfl
          exact ih e r' err hl (by omega) h
      · simp only [h0, if_false] at h
        exact ih (i + 1) result err hn (by omega) h
    · rw [scanLoop_done gap n tType (fuel + 1) i result hi] at h
      exact Except.noConfusion h

theorem byShapeDist_fault (A : Float64Ops F) (ts : List (ScheduledStopTime F)) (err : Fault)
    (h : interpolateStopTimesByShapeDist A ts = .error err) : err = .nilDereference := by
  by_cases hne : ts.length = 0
  · simp only [interpolateStopTimesByShapeDist, hne, if_true, reduceCtorEq] at h
  · simp only [interpolateStopTimesByShapeDist, hne, if_false] at h
    have fault : ∀ (t : Nat) (r : List (ScheduledStopTime F)) (err : Fault),
        r.length = ts.length →
        scanLoop (shapeDistGap A ts.length t) ts.length t ts.length 0 r = .error err →
        err = .nilDereference := fun t r err hr =>
      scanLoop_fault (shapeDistGap A ts.length t) ts.length t (shapeDistGap_sound A _ t)
        (fun result i err hl hi => shapeDistGap_fault A ts.length t result i err hl hi)
        ts.length 0 r err hr (by omega)
    cases h0 : scanLoop (shapeDistGap A ts.length 0) ts.length 0 ts.length 0 ts with
    | error err' =>
      simp only [h0, Except.error.injEq] at h
      rw [← h]
      exact fault 0 ts err' rfl h0
    | ok mid =>
      simp only [h0] at h
      exact fault 1 mid err
        (scanLoop_frame _ ts.length 0 (shapeDistGap_sound A _ 0) _ 0 ts mid rfl h0).1 h

/-! ## Helpers: what a call does to a gap bounded on both sides -/

theorem timeAt_of_set (r r' : List (ScheduledStopTime F)) (tType m : Nat) (v : Int)
    (h : r'[m]? = (r[m]?).map (fun st => setTime st tType v)) (hm : m < r.length) :
    timeAt r' tType m = some v := by
  unfold timeAt
  rw [h, List.getElem?_eq_getElem hm]
  simp [getTime_setTime_same]

theorem view_at (r : List (ScheduledStopTime F)) (tType m : Nat) (t : Int) (d : Option F)
    (ht : timeAt r tType m = some t) (hd : distAt r m = some d) :
    ∃ st, r[m]? = some st ∧ getTime st tType = t ∧ st.ShapeDistanceTraveled = d := by
  unfold timeAt at ht
  unfold distAt at hd
  cases hg : r[m]? with
  | none => simp [hg] at ht
  | some st =>
    simp only [hg, Option.map_some', Option.some.injEq] at ht hd
    exact ⟨st, rfl, ht, hd⟩

theorem boundary_view (A : Float64Ops F) (r : List (ScheduledStopTime F)) (tType m : Nat)
    (t : Int) (d : Option F) (ht : timeAt r tType m = some t) (hd : distAt r m = some d) :
    boundary A r true (m : Int) tType = .ok (boundaryOf A t d) := by
  obtain ⟨st, h1, h2, h3⟩ := view_at r tType m t d ht hd
  rw [boundary_true A r m tType st h1, h2, h3]
  cases d <;> rfl

theorem uniform_bounded_gap (ts out : List (ScheduledStopTime F))
    (h : interpolateStopTimes ts = .ok out) (tType : Nat) (ht : tType < 2)
    (start end_ : Nat) (s e : Int)
    (hs : timeAt ts tType start = some s) (he : timeAt ts tType end_ = some e)
    (hs0 : s ≠ 0) (he0 : e ≠ 0)
    (hz : ∀ k, start < k → k < end_ → timeAt ts tType k = some 0) :
    ∀ k, start < k → k < end_ → timeAt out tType k = some
      (if s < e then
        dAdd s (dMul ((k : Int) - (start : Int))
          (dDiv (dSub e s) ((end_ : Int) - (start : Int))))
      else 0) := by
  intro k hk1 hk2
  have hen : end_ < ts.length := timeAt_lt ts tType end_ e he
  obtain ⟨r1, r2, e', hl, hv, hgap, hout⟩ := uniform_gap_view ts out h tType ht (start + 1)
    (hz (start + 1) (by omega) (by omega)) (Or.inr ⟨s, by simpa using hs, hs0, by omega⟩)
  have hts1 : timeAt r1 tType start = some s := by rw [(hv start (by omega)).1]; exact hs
  have hte1 : timeAt r1 tType end_ = some e := by rw [(hv end_ (by omega)).1]; exact he
  have hend : scanEnd tType (r1.drop (start + 1)) (start + 1) = end_ := by
    apply scanEnd_unique r1 tType (start + 1) end_ (by omega) (by omega)
    · intro m hm1 hm2
      rw [(hv m (by omega)).1]
      exact hz m (by omega) hm2
    · intro t htt
      rw [hte1] at htt
      simp only [Option.some.injEq] at htt
      rw [← htt]
      exact he0
  by_cases hlt : s < e
  · obtain ⟨r', g1, g2, g3⟩ := uniformGap_fill ts.length tType r1 start end_ s e hl hend hen
      hts1 hte1 hlt
    rw [g1] at hgap
    simp only [Except.ok.injEq, Prod.mk.injEq] at hgap
    obtain ⟨e1, e2⟩ := hgap
    subst e1
    subst e2
    rw [hout k hk2, if_pos hlt]
    apply timeAt_of_set r1 r' tType k _ _ (by omega)
    have := g3 k
    rw [if_pos ⟨by omega, hk2⟩] at this
    exact this
  · have hskip := uniformGap_skip ts.length tType r1 (start + 1) hl (by omega)
      (Or.inr (Or.inr ⟨s, e, by simpa using hts1, by rw [hend]; exact hte1, by omega⟩))
    rw [hskip, hend] at hgap
    simp only [Except.ok.injEq, Prod.mk.injEq] at hgap
    obtain ⟨e1, e2⟩ := hgap
    subst e1
    subst e2
    rw [hout k hk2, if_neg hlt, (hv k (by omega)).1]
    exact hz k hk1 hk2

theorem byShapeDist_bounded_gap (A : Float64Ops F) (ts out : List (ScheduledStopTime F))
    (h : interpolateStopTimesByShapeDist A ts = .ok out) (tType : Nat) (ht : tType < 2)
    (start end_ : Nat) (s e : Int) (dS dE : Option F)
    (hs : timeAt ts tType start = some s) (he : timeAt ts tType end_ = some e)
    (hs0 : s ≠ 0) (he0 : e ≠ 0)
    (hdS : distAt ts start = some dS) (hdE : distAt ts end_ = some dE)
    (hz : ∀ k, start < k → k < end_ → timeAt ts tType k = some 0) :
    ∀ k, start < k → k < end_ →
      (A.gt (boundaryOf A e dE).2 (boundaryOf A s dS).2 = true →
        (boundaryOf A s dS).1 < (boundaryOf A e dE).1 →
        ∃ d, distAt ts k = some (some d) ∧ timeAt out tType k = some
          (interpolated A (boundaryOf A s dS).1 (boundaryOf A e dE).1
            (boundaryOf A s dS).2 (boundaryOf A e dE).2 d)) ∧
      ((A.gt (boundaryOf A e dE).2 (boundaryOf A s dS).2 = false ∨
          (boundaryOf A e dE).1 ≤ (boundaryOf A s dS).1) →
        timeAt out tType k = some 0) := by
  intro k hk1 hk2
  have hen : end_ < ts.length := timeAt_lt ts tType end_ e he
  obtain ⟨r1, r2, e', hl, hv, hgap, hout⟩ := byShapeDist_gap_view A ts out h tType ht
    (start + 1) (hz (start + 1) (by omega) (by omega))
    (Or.inr ⟨s, by simpa using hs, hs0, by omega⟩)
  have hts1 : timeAt r1 tType start = some s := by rw [(hv start (by omega)).1]; exact hs
  have hte1 : timeAt r1 tType end_ = some e := by rw [(hv end_ (by omega)).1]; exact he
  have hds1 : distAt r1 start = some dS := by rw [(hv start (by omega)).2]; exact hdS
  have hde1 : distAt r1 end_ = some dE := by rw [(hv end_ (by omega)).2]; exact hdE
  have hbs : boundary A r1 true (start : Int) tType
      = .ok ((boundaryOf A s dS).1, (boundaryOf A s dS).2) :=
    boundary_view A r1 tType start s dS hts1 hds1
  have hbe : boundary A r1 true (end_ : Int) tType
      = .ok ((boundaryOf A e dE).1, (boundaryOf A e dE).2) :=
    boundary_view A r1 tType end_ e dE hte1 hde1
  have hend : scanEnd tType (r1.drop (start + 1)) (start + 1) = end_ := by
    apply scanEnd_unique r1 tType (start + 1) end_ (by omega) (by omega)
    · intro m hm1 hm2
      rw [(hv m (by omega)).1]
      exact hz m (by omega) hm2
    · intro t htt
      rw [hte1] at htt
      simp only [Option.some.injEq] at htt
      rw [← htt]
      exact he0
  constructor
  · intro hgt hlt
    have hfill := shapeDistGap_fill A ts.length tType r1 start end_ (boundaryOf A s dS).1
      (boundaryOf A e dE).1 (boundaryOf A s dS).2 (boundaryOf A e dE).2 hend hen hbs hbe
      hgt hlt
    rw [hfill] at hgap
    cases hf : fillByShapeDist A tType (start : Int) (boundaryOf A s dS).1 (boundaryOf A e dE).1
        (boundaryOf A s dS).2 (boundaryOf A e dE).2 (List.range' 1 (end_ - start - 1)) r1 with
    | error err => simp only [hf, reduceCtorEq] at hgap
    | ok r' =>
      simp only [hf, Except.ok.injEq, Prod.mk.injEq] at hgap
      obtain ⟨e1, e2⟩ := hgap
      subst e1
      subst e2
      obtain ⟨_, hm⟩ := fillByShapeDist_range A tType start _ _ _ _ _ 1 r1 r' hf
      obtain ⟨st, d, h1, h2, h3⟩ := (hm k).2 (by omega) (by omega)
      refine ⟨d, ?_, ?_⟩
      · rw [← (hv k (by omega)).2]
        simp [distAt, h1, h2]
      · rw [hout k hk2]
        simp [timeAt, h3, getTime_setTime_same]
  · intro hno
    have hskip := shapeDistGap_skip A ts.length tType r1 (start + 1) hl (by omega)
      (Or.inr (Or.inr ⟨(boundaryOf A s dS).1, (boundaryOf A s dS).2, (boundaryOf A e dE).1,
        (boundaryOf A e dE).2, by simpa using hbs, by rw [hend]; exact hbe, hno⟩))
    rw [hskip, hend] at hgap
    simp only [Except.ok.injEq, Prod.mk.injEq] at hgap
    obtain ⟨e1, e2⟩ := hgap
    subst e1
    subst e2
    rw [hout k hk2, (hv k (by omega)).1]
    exact hz k hk1 hk2

/-! ## Helpers: gaps that touch an end of the sequence -/

theorem gap_start_exists (ts : List (ScheduledStopTime F)) (tType : Nat) :
    ∀ m, m ≤ ts.length → (∀ i, m ≤ i → i < ts.length → timeAt ts tType i = some 0) →
    ∃ g, g ≤ m ∧ (∀ i, g ≤ i → i < ts.length → timeAt ts tType i = some 0) ∧
      (g = 0 ∨ ∃ t, timeAt ts tType (g - 1) = some t ∧ t ≠ 0 ∧ 1 ≤ g) := by
  intro m
  induction m with
  | zero =>
    intro _ hz
    exact ⟨0, le_refl 0, hz, Or.inl rfl⟩
  | succ m ih =>
    intro hm hz
    obtain ⟨t, ht⟩ := timeAt_isSome ts tType m (by omega)
    by_cases h0 : t = 0
    · subst h0
      obtain ⟨g, h1, h2, h3⟩ := ih (by omega) (by
        intro i hi1 hi2
        by_cases him : i = m
        · rw [him]; exact ht
        · exact hz i (by omega) hi2)
      exact ⟨g, by omega, h2, h3⟩
    · exact ⟨m + 1, le_refl _, hz, Or.inr ⟨t, by simpa using ht, h0, by omega⟩⟩

theorem open_gap_unfilled (n : Nat) (gap : Nat → List (ScheduledStopTime F) → Nat →
      Except Fault (List (ScheduledStopTime F) × Nat))
    (hs : ∀ t, GapSound n t (gap t))
    (hskip : ∀ (t : Nat) (r : List (ScheduledStopTime F)) (i : Nat), r.length = n → i < n →
      (i = 0 ∨ n ≤ scanEnd t (r.drop i) i) → gap t r i = .ok (r, scanEnd t (r.drop i) i))
    (ts mid out : List (ScheduledStopTime F)) (hn : ts.length = n)
    (h0 : scanLoop (gap 0) n 0 n 0 ts = .ok mid)
    (h1 : scanLoop (gap 1) n 1 n 0 mid = .ok out)
    (tType : Nat) (ht : tType < 2) (g h : Nat) (hgh : g < h) (hh : h ≤ n)
    (hz : ∀ i, g ≤ i → i < h → timeAt ts tType i = some 0)
    (hprev : g = 0 ∨ ∃ t, timeAt ts tType (g - 1) = some t ∧ t ≠ 0 ∧ 1 ≤ g)
    (hopen : g = 0 ∨ h = n) :
    ∀ i, g ≤ i → i < h → timeAt out tType i = some 0 := by
  intro i hi1 hi2
  obtain ⟨r1, r2, e, hl, hv, hgap, hout⟩ := two_pass_gap n gap hs ts mid out hn h0 h1 tType ht g
    (by omega) (hz g (le_refl g) hgh) hprev
  obtain ⟨s1, s2, s3, s4⟩ := scanEnd_drop r1 tType g (by omega)
  have hhe : h ≤ scanEnd tType (r1.drop g) g := by
    by_contra hc
    have hzz := hz (scanEnd tType (r1.drop g) g) s1 (by omega)
    rw [← (hv _ (by omega)).1] at hzz
    exact s4 0 hzz rfl
  have hcond : g = 0 ∨ n ≤ scanEnd tType (r1.drop g) g := by
    rcases hopen with hg | hg
    · exact Or.inl hg
    · exact Or.inr (by omega)
  rw [hskip tType r1 g hl (by omega) hcond] at hgap
  simp only [Except.ok.injEq, Prod.mk.injEq] at hgap
  obtain ⟨e1, e2⟩ := hgap
  subst e1
  subst e2
  rw [hout i (by omega), (hv i (by omega)).1]
  exact hz i hi1 hi2

theorem uniform_open_gap (ts out : List (ScheduledStopTime F))
    (h : interpolateStopTimes ts = .ok out) (tType : Nat) (ht : tType < 2) (g h' : Nat)
    (hgh : g < h') (hh : h' ≤ ts.length)
    (hz : ∀ i, g ≤ i → i < h' → timeAt ts tType i = some 0)
    (hprev : g = 0 ∨ ∃ t, timeAt ts tType (g - 1) = some t ∧ t ≠ 0 ∧ 1 ≤ g)
    (hopen : g = 0 ∨ h' = ts.length) :
    ∀ i, g ≤ i → i < h' → timeAt out tType i = some 0 := by
  obtain ⟨mid, h0, h1⟩ := interpolateStopTimes_passes ts out h (by omega)
  exact open_gap_unfilled ts.length (fun t => uniformGap ts.length t)
    (fun t => uniformGap_sound ts.length t)
    (fun t r i hr hi hc => uniformGap_skip ts.length t r i hr hi (by
      rcases hc with hc | hc
      · exact Or.inl hc
      · exact Or.inr (Or.inl hc)))
    ts mid out rfl h0 h1 tType ht g h' hgh hh hz hprev hopen

theorem byShapeDist_open_gap (A : Float64Ops F) (ts out : List (ScheduledStopTime F))
    (h : interpolateStopTimesByShapeDist A ts = .ok out) (tType : Nat) (ht : tType < 2)
    (g h' : Nat) (hgh : g < h') (hh : h' ≤ ts.length)
    (hz : ∀ i, g ≤ i → i < h' → timeAt ts tType i = some 0)
    (hprev : g = 0 ∨ ∃ t, timeAt ts tType (g - 1) = some t ∧ t ≠ 0 ∧ 1 ≤ g)
    (hopen : g = 0 ∨ h' = ts.length) :
    ∀ i, g ≤ i → i < h' → timeAt out tType i = some 0 := by
  obtain ⟨mid, h0, h1⟩ := byShapeDist_passes A ts out h (by omega)
  exact open_gap_unfilled ts.length (fun t => shapeDistGap A ts.length t)
    (fun t => shapeDistGap_sound A ts.length t)
    (fun t r i hr hi hc => shapeDistGap_skip A ts.length t r i hr hi (by
      rcases hc with hc | hc
      · exact Or.inl hc
      · exact Or.inr (Or.inl hc)))
    ts mid out rfl h0 h1 tType ht g h' hgh hh hz hprev hopen

/-! ## Helpers: durations that do not overflow -/

theorem wrap64_id (x : Int) (h1 : -9223372036854775808 ≤ x) (h2 : x < 9223372036854775808) :
    wrap64 x = x := by
  unfold wrap64
  omega

theorem uniform_value_exact (s e j k : Int) (hs : 0 ≤ s) (hlt : s < e)
    (he : e < 9223372036854775808) (hj0 : 0 ≤ j) (hjk : j < k) :
    dAdd s (dMul j (dDiv (dSub e s) k)) = s + j * ((e - s) / k) := by
  have h1 : dSub e s = e - s := wrap64_id _ (by omega) (by omega)
  have hq0 : 0 ≤ (e - s) / k := Int.ediv_nonneg (by omega) (by omega)
  have hqle : (e - s) / k ≤ e - s := Int.ediv_le_self _ (by omega)
  have h2 : dDiv (e - s) k = (e - s) / k := by
    unfold dDiv
    rw [Int.tdiv_eq_ediv (by omega) (by omega)]
    exact wrap64_id _ (by omega) (by omega)
  have hkq : k * ((e - s) / k) ≤ e - s := Int.mul_ediv_self_le (by omega)
  have hjq : j * ((e - s) / k) ≤ k * ((e - s) / k) :=
    Int.mul_le_mul_of_nonneg_right (by omega) hq0
  have hjq0 : 0 ≤ j * ((e - s) / k) := Int.mul_nonneg hj0 hq0
  have h3 : dMul j ((e - s) / k) = j * ((e - s) / k) := wrap64_id _ (by omega) (by omega)
  rw [h1, h2, h3]
  exact wrap64_id _ (by omega) (by omega)

/-! ## Helpers: the frame, record by record -/

theorem frame_records (ts out : List (ScheduledStopTime F))
    (hf : out.length = ts.length ∧ ∀ m,
      distAt out m = distAt ts m ∧
      (out[m]?).map (fun st => st.StopSequence) = (ts[m]?).map (fun st => st.StopSequence) ∧
      (out[m]?).map (fun st => st.ExactTimes) = (ts[m]?).map (fun st => st.ExactTimes) ∧
      ∀ tType, tType < 2 → timeAt ts tType m ≠ some 0 →
        timeAt out tType m = timeAt ts tType m) :
    ∀ (i : Nat) (a : ScheduledStopTime F), ts[i]? = some a →
      ∃ b, out[i]? = some b ∧ b.StopSequence = a.StopSequence ∧
        b.ExactTimes = a.ExactTimes ∧ b.ShapeDistanceTraveled = a.ShapeDistanceTraveled ∧
        (a.ArrivalTime ≠ 0 → b.ArrivalTime = a.ArrivalTime) ∧
        (a.DepartureTime ≠ 0 → b.DepartureTime = a.DepartureTime) := by
  intro i a ha
  obtain ⟨hl, hm⟩ := hf
  obtain ⟨h1, h2, h3, h4⟩ := hm i
  have hi : i < out.length := by
    rw [hl]
    by_contra hc
    have : ts[i]? = none := List.getElem?_eq_none_iff.mpr (by omega)
    rw [this] at ha
    exact Option.noConfusion ha
  have hb : out[i]? = some out[i] := List.getElem?_eq_getElem hi
  refine ⟨out[i], hb, ?_, ?_, ?_, ?_, ?_⟩
  · simpa [hb, ha] using h2
  · simpa [hb, ha] using h3
  · simpa [distAt, hb, ha] using h1
  · intro hne
    have := h4 0 (by omega) (by simpa [timeAt, ha, getTime] using hne)
    simpa [timeAt, hb, ha, getTime] using this
  · intro hne
    have := h4 1 (by omega) (by simpa [timeAt, ha, getTime] using hne)
    simpa [timeAt, hb, ha, getTime] using this

/-! ## Helpers: when the distance-weighted function panics -/

theorem byShapeDist_nil_interior_panics (A : Float64Ops F) (ts : List (ScheduledStopTime F))
    (tType start end_ k : Nat) (s e : Int) (ds de : F) (ht : tType < 2)
    (hs : timeAt ts tType start = some s) (he : timeAt ts tType end_ = some e)
    (hs0 : s ≠ 0) (he0 : e ≠ 0) (hlt : s < e)
    (hds : distAt ts start = some (some ds)) (hde : distAt ts end_ = some (some de))
    (hgt : A.gt de ds = true)
    (hz : ∀ k, start < k → k < end_ → timeAt ts tType k = some 0)
    (hk1 : start < k) (hk2 : k < end_) (hnil : distAt ts k = some none) :
    interpolateStopTimesByShapeDist A ts = .error .nilDereference := by
  cases h : interpolateStopTimesByShapeDist A ts with
  | ok out =>
    obtain ⟨d, h1, _⟩ := (byShapeDist_bounded_gap A ts out h tType ht start end_ s e
      (some ds) (some de) hs he hs0 he0 hds hde hz k hk1 hk2).1 hgt hlt
    rw [hnil] at h1
    simp only [Option.some.injEq, reduceCtorEq] at h1
  | error err => rw [byShapeDist_fault A ts err h]

/-! ## Helpers: sequences without a sentinel -/

theorem scanLoop_no_gap (gap : List (ScheduledStopTime F) → Nat →
      Except Fault (List (ScheduledStopTime F) × Nat)) (n tType : Nat) :
    ∀ (fuel i : Nat) (result : List (ScheduledStopTime F)), result.length = n →
    n ≤ fuel + i → (∀ m, timeAt result tType m ≠ some 0) →
    scanLoop gap n tType fuel i result = .ok result := by
  intro fuel
  induction fuel with
  | zero =>
    intro i result _ hf _
    exact scanLoop_done gap n tType 0 i result (by omega)
  | succ fuel ih =>
    intro i result hn hf hnz
    by_cases hi : i < n
    · obtain ⟨t, ht⟩ := timeAt_isSome result tType i (by omega)
      have h0 : t ≠ 0 := by
        intro hc
        rw [hc] at ht
        exact hnz i ht
      simp only [scanLoop, hi, if_true, readTime_nat result i tType t ht, h0, if_false]
      exact ih (i + 1) result hn (by omega) hnz
    · exact scanLoop_done gap n tType (fuel + 1) i result hi

/-! ## Helpers: a scan reads and writes one channel only -/

theorem scanEnd_congr (r1 r2 : List (ScheduledStopTime F)) (tType i : Nat)
    (hl : r1.length = r2.length) (hi : i ≤ r1.length)
    (hv : ∀ m, timeAt r1 tType m = timeAt r2 tType m) :
    scanEnd tType (r2.drop i) i = scanEnd tType (r1.drop i) i := by
  obtain ⟨h1, h2, h3, h4⟩ := scanEnd_drop r1 tType i hi
  apply scanEnd_unique r2 tType i _ h1 (by omega)
  · intro k hk1 hk2
    rw [← hv k]
    exact h3 k hk1 hk2
  · intro t ht
    rw [← hv] at ht
    exact h4 t ht

theorem uniformGap_congr (n tType : Nat) (r1 r2 r1' r2' : List (ScheduledStopTime F))
    (i e1 e2 : Nat) (h1 : r1.length = n) (h2 : r2.length = n) (hi : i < n)
    (hv : ∀ m, timeAt r1 tType m = timeAt r2 tType m)
    (g1 : uniformGap n tType r1 i = .ok (r1', e1))
    (g2 : uniformGap n tType r2 i = .ok (r2', e2)) :
    e1 = e2 ∧ ∀ m, timeAt r1' tType m = timeAt r2' tType m := by
  have hend := scanEnd_congr r1 r2 tType i (by omega) (by omega) hv
  have skip : (i = 0 ∨ n ≤ scanEnd tType (r1.drop i) i ∨
      ∃ ts te, timeAt r1 tType (i - 1) = some ts ∧
        timeAt r1 tType (scanEnd tType (r1.drop i) i) = some te ∧ te ≤ ts) →
      e1 = e2 ∧ ∀ m, timeAt r1' tType m = timeAt r2' tType m := by
    intro hc
    have s1 := uniformGap_skip n tType r1 i h1 hi hc
    have s2 := uniformGap_skip n tType r2 i h2 hi (by
      rw [hend]
      rcases hc with hc | hc | ⟨ts, te, c1, c2, c3⟩
      · exact Or.inl hc
      · exact Or.inr (Or.inl hc)
      · exact Or.inr (Or.inr ⟨ts, te, by rw [← hv]; exact c1, by rw [← hv]; exact c2, c3⟩))
    rw [s1] at g1
    rw [s2, hend] at g2
    simp only [Except.ok.injEq, Prod.mk.injEq] at g1 g2
    rw [← g1.1, ← g1.2, ← g2.1, ← g2.2]
    exact ⟨rfl, hv⟩
  cases i with
  | zero => exact skip (Or.inl rfl)
  | succ s =>
    by_cases hen : scanEnd tType (r1.drop (s + 1)) (s + 1) < n
    · obtain ⟨ts, hts⟩ := timeAt_isSome r1 tType s (by omega)
      obtain ⟨te, hte⟩ := timeAt_isSome r1 tType _ (by rw [h1]; exact hen)
      by_cases hlt : ts < te
      · obtain ⟨q1, a1, _, c1⟩ := uniformGap_fill n tType r1 s _ ts te h1 rfl hen hts hte hlt
        obtain ⟨q2, a2, _, c2⟩ := uniformGap_fill n tType r2 s _ ts te h2 hend hen
          (by rw [← hv]; exact hts) (by rw [← hv]; exact hte) hlt
        rw [a1] at g1
        rw [a2] at g2
        simp only [Except.ok.injEq, Prod.mk.injEq] at g1 g2
        rw [← g1.1, ← g1.2, ← g2.1, ← g2.2]
        refine ⟨rfl, ?_⟩
        intro m
        by_cases hm : s + 1 ≤ m ∧ m < scanEnd tType (r1.drop (s + 1)) (s + 1)
        · have d1 := c1 m
          have d2 := c2 m
          rw [if_pos hm] at d1 d2
          rw [timeAt_of_set r1 q1 tType m _ d1 (by omega),
            timeAt_of_set r2 q2 tType m _ d2 (by omega)]
        · have d1 := c1 m
          have d2 := c2 m
          rw [if_neg hm] at d1 d2
          rw [timeAt_congr r1 q1 tType m d1, timeAt_congr r2 q2 tType m d2]
          exact hv m
      · exact skip (Or.inr (Or.inr ⟨ts, te, by simpa using hts, hte, by omega⟩))
    · exact skip (Or.inr (Or.inl (by omega)))

theorem scanLoop_congr (n tType : Nat) :
    ∀ (fuel i : Nat) (r1 r2 o1 o2 : List (ScheduledStopTime F)), r1.length = n →
    r2.length = n → (∀ m, timeAt r1 tType m = timeAt r2 tType m) →
    scanLoop (uniformGap n tType) n tType fuel i r1 = .ok o1 →
    scanLoop (uniformGap n tType) n tType fuel i r2 = .ok o2 →
    ∀ m, timeAt o1 tType m = timeAt o2 tType m := by
  intro fuel
  induction fuel with
  | zero =>
    intro i r1 r2 o1 o2 _ _ hv g1 g2
    by_cases hi : i < n
    · simp only [scanLoop, hi, if_true, reduceCtorEq] at g1
    · simp only [scanLoop, hi, if_false, Except.ok.injEq] at g1 g2
      rw [← g1, ← g2]
      exact hv
  | succ fuel ih =>
    intro i r1 r2 o1 o2 h1 h2 hv g1 g2
    by_cases hi : i < n
    · rcases scanLoop_step _ n tType fuel i r1 o1 h1 hi g1 with
        ⟨t1, a1, b1, c1⟩ | ⟨a1, q1, e1, b1, c1⟩
      · rcases scanLoop_step _ n tType fuel i r2 o2 h2 hi g2 with
          ⟨t2, a2, b2, c2⟩ | ⟨a2, q2, e2, b2, c2⟩
        · exact ih (i + 1) r1 r2 o1 o2 h1 h2 hv c1 c2
        · rw [hv, a2] at a1
          simp only [Option.some.injEq] at a1
          exact absurd a1.symm b1
      · rcases scanLoop_step _ n tType fuel i r2 o2 h2 hi g2 with
          ⟨t2, a2, b2, c2⟩ | ⟨a2, q2, e2, b2, c2⟩
        · rw [hv, a2] at a1
          simp only [Option.some.injEq] at a1
          exact absurd a1 b2
        · obtain ⟨he, hq⟩ := uniformGap_congr n tType r1 r2 q1 q2 i e1 e2 h1 h2 hi hv b1 b2
          subst he
          exact ih e1 q1 q2 o1 o2
            (uniformGap_sound n tType r1 i q1 e1 h1 hi b1).2.1
            (uniformGap_sound n tType r2 i q2 e1 h2 hi b2).2.1 hq c1 c2
    · rw [scanLoop_done _ n tType (fuel + 1) i r1 hi] at g1
      rw [scanLoop_done _ n tType (fuel + 1) i r2 hi] at g2
      simp only [Except.ok.injEq] at g1 g2
      rw [← g1, ← g2]
      exact hv

theorem uniform_channel_congr (ts1 ts2 o1 o2 : List (ScheduledStopTime F)) (tType : Nat)
    (ht : tType < 2) (hl : ts1.length = ts2.length)
    (hv : ∀ m, timeAt ts1 tType m = timeAt ts2 tType m)
    (g1 : interpolateStopTimes ts1 = .ok o1) (g2 : interpolateStopTimes ts2 = .ok o2) :
    ∀ m, timeAt o1 tType m = timeAt o2 tType m := by
  by_cases hne : ts1.length = 0
  · have e1 := (uniform_frame ts1 o1 g1).1
    have e2 := (uniform_frame ts2 o2 g2).1
    have n1 : o1 = [] := List.length_eq_zero.mp (by omega)
    have n2 : o2 = [] := List.length_eq_zero.mp (by omega)
    rw [n1, n2]
    exact fun _ => rfl
  · obtain ⟨m1, a1, b1⟩ := interpolateStopTimes_passes ts1 o1 g1 hne
    obtain ⟨m2, a2, b2⟩ := interpolateStopTimes_passes ts2 o2 g2 (by omega)
    rw [← hl] at a2 b2
    obtain ⟨l1, f1⟩ := scanLoop_frame _ ts1.length 0 (uniformGap_sound _ 0) _ 0 ts1 m1 rfl a1
    obtain ⟨l2, f2⟩ := scanLoop_frame _ ts1.length 0 (uniformGap_sound _ 0) _ 0 ts2 m2
      hl.symm a2
    obtain ⟨_, k1⟩ := scanLoop_frame _ ts1.length 1 (uniformGap_sound _ 1) _ 0 m1 o1 l1 b1
    obtain ⟨_, k2⟩ := scanLoop_frame _ ts1.length 1 (uniformGap_sound _ 1) _ 0 m2 o2 l2 b2
    have h01 : tType = 0 ∨ tType = 1 := by omega
    rcases h01 with h | h
    · subst h
      intro m
      rw [restAt_timeAt 0 1 (by omega) (by omega) (by omega) m1 o1 m (k1 m).1,
        restAt_timeAt 0 1 (by omega) (by omega) (by omega) m2 o2 m (k2 m).1]
      exact scanLoop_congr ts1.length 0 _ 0 ts1 ts2 m1 m2 rfl hl.symm hv a1 a2 m
    · subst h
      have hmid : ∀ m, timeAt m1 1 m = timeAt m2 1 m := by
        intro m
        rw [restAt_timeAt 1 0 (by omega) (by omega) (by omega) ts1 m1 m (f1 m).1,
          restAt_timeAt 1 0 (by omega) (by omega) (by omega) ts2 m2 m (f2 m).1]
        exact hv m
      exact scanLoop_congr ts1.length 1 _ 0 m1 m2 o1 o2 l1 l2 hmid b1 b2

/-! ## Helpers: one iteration of the scan loop -/

theorem scanLoop_iteration (gap : List (ScheduledStopTime F) → Nat →
      Except Fault (List (ScheduledStopTime F) × Nat)) (n tType : Nat)
    (hs : GapSound n tType gap) (fuel i : Nat) (r : List (ScheduledStopTime F))
    (hn : r.length = n) (hi : i < n) :
    (∃ t, timeAt r tType i = some t ∧ t ≠ 0 ∧
      scanLoop gap n tType (fuel + 1) i r = scanLoop gap n tType fuel (i + 1) r) ∨
    (timeAt r tType i = some 0 ∧
      ((∃ err, gap r i = .error err ∧ scanLoop gap n tType (fuel + 1) i r = .error err) ∨
       (∃ r' e, gap r i = .ok (r', e) ∧ i < e ∧ e ≤ n ∧ r'.length = n ∧
        (∀ k, i ≤ k → k < e → timeAt r tType k = some 0) ∧
        (∀ t, timeAt r tType e = some t → t ≠ 0) ∧
        scanLoop gap n tType (fuel + 1) i r = scanLoop gap n tType fuel e r'))) := by
  obtain ⟨t, ht⟩ := timeAt_isSome r tType i (by omega)
  by_cases h0 : t = 0
  · right
    subst h0
    refine ⟨ht, ?_⟩
    cases hg : gap r i with
    | error err =>
      left
      exact ⟨err, rfl, by
        simp only [scanLoop, hi, if_true, readTime_nat r i tType 0 ht, hg]⟩
    | ok p =>
      right
      obtain ⟨r', e⟩ := p
      obtain ⟨he, hl, _⟩ := hs r i r' e hn hi hg
      obtain ⟨h1, h2, h3, h4⟩ := scanEnd_drop r tType i (by omega)
      rw [← he] at h1 h2 h3 h4
      have hne : e ≠ i := by
        intro hc
        rw [hc] at h4
        exact h4 0 ht rfl
      exact ⟨r', e, rfl, by omega, by omega, hl, h3, h4, by
        simp only [scanLoop, hi, if_true, readTime_nat r i tType 0 ht, hg]⟩
  · left
    exact ⟨t, ht, h0, by
      simp only [scanLoop, hi, if_true, readTime_nat r i tType t ht, h0, if_false]⟩

/-! ## Helpers: the arithmetic of the uniform step -/

theorem uniform_value_no_overflow (s e j k : Int) (hs : -9223372036854775808 ≤ s)
    (he : e < 9223372036854775808) (hlt : s < e) (hd : e - s < 9223372036854775808)
    (hj0 : 0 ≤ j) (hjk : j < k) :
    dAdd s (dMul j (dDiv (dSub e s) k)) = s + j * ((e - s) / k) ∧
    0 ≤ (e - s) / k ∧ k * ((e - s) / k) ≤ e - s := by
  have h1 : dSub e s = e - s := wrap64_id _ (by omega) (by omega)
  have hq0 : 0 ≤ (e - s) / k := Int.ediv_nonneg (by omega) (by omega)
  have hqle : (e - s) / k ≤ e - s := Int.ediv_le_self _ (by omega)
  have h2 : dDiv (e - s) k = (e - s) / k := by
    unfold dDiv
    rw [Int.tdiv_eq_ediv (by omega) (by omega)]
    exact wrap64_id _ (by omega) (by omega)
  have hkq : k * ((e - s) / k) ≤ e - s := Int.mul_ediv_self_le (by omega)
  have hjq : j * ((e - s) / k) ≤ k * ((e - s) / k) :=
    Int.mul_le_mul_of_nonneg_right (by omega) hq0
  have hjq0 : 0 ≤ j * ((e - s) / k) := Int.mul_nonneg hj0 hq0
  have h3 : dMul j ((e - s) / k) = j * ((e - s) / k) := wrap64_id _ (by omega) (by omega)
  refine ⟨?_, hq0, hkq⟩
  rw [h1, h2, h3]
  exact wrap64_id _ (by omega) (by omega)

theorem step_lt_end (D q j k : Int) (hD : 0 < D) (hq0 : 0 ≤ q) (hkq : k * q ≤ D)
    (hjk : j < k) : j * q < D := by
  by_cases hq : q = 0
  · rw [hq, Int.mul_zero]
    exact hD
  · have hq1 : 1 ≤ q := by omega
    have h1 : j * q ≤ (k - 1) * q := Int.mul_le_mul_of_nonneg_right (by omega) hq0
    have h2 : (k - 1) * q = k * q - q := by ring
    omega

theorem truncation_split (D j k : Int) (hk : 0 < k) :
    (j * D) / k = j * (D / k) + (j * (D % k)) / k := by
  have h1 : j * D = j * (D % k) + k * (j * (D / k)) := by
    have := Int.emod_add_ediv D k
    calc j * D = j * (D % k + k * (D / k)) := by rw [this]
      _ = j * (D % k) + k * (j * (D / k)) := by ring
  rw [h1, Int.add_mul_ediv_left _ _ (by omega : k ≠ 0)]
  ring

theorem truncation_remainder_lt (D j k : Int) (hk : 0 < k) (hj : 1 ≤ j) :
    0 ≤ (j * (D % k)) / k ∧ (j * (D % k)) / k < j := by
  have hr0 : 0 ≤ D % k := Int.emod_nonneg D (by omega)
  have hrk : D % k < k := Int.emod_lt_of_pos D hk
  constructor
  · exact Int.ediv_nonneg (Int.mul_nonneg (by omega) hr0) (by omega)
  · apply Int.ediv_lt_of_lt_mul hk
    exact Int.mul_lt_mul_of_pos_left hrk (by omega)

/-! ## Helpers: the gap around a sentinel, and equality of sequences by their views -/

theorem run_start_exists (ts : List (ScheduledStopTime F)) (tType h : Nat)
    (hh : h ≤ ts.length) :
    ∀ m, m ≤ h → (∀ i, m ≤ i → i < h → timeAt ts tType i = some 0) →
    ∃ g, g ≤ m ∧ (∀ i, g ≤ i → i < h → timeAt ts tType i = some 0) ∧
      (g = 0 ∨ ∃ t, timeAt ts tType (g - 1) = some t ∧ t ≠ 0 ∧ 1 ≤ g) := by
  intro m
  induction m with
  | zero =>
    intro _ hz
    exact ⟨0, le_refl 0, hz, Or.inl rfl⟩
  | succ m ih =>
    intro hm hz
    obtain ⟨t, ht⟩ := timeAt_isSome ts tType m (by omega)
    by_cases h0 : t = 0
    · subst h0
      obtain ⟨g, h1, h2, h3⟩ := ih (by omega) (by
        intro i hi1 hi2
        by_cases him : i = m
        · rw [him]; exact ht
        · exact hz i (by omega) hi2)
      exact ⟨g, by omega, h2, h3⟩
    · exact ⟨m + 1, le_refl _, hz, Or.inr ⟨t, by simpa using ht, h0, by omega⟩⟩

theorem gap_around (ts : List (ScheduledStopTime F)) (tType m : Nat)
    (hz : timeAt ts tType m = some 0) :
    ∃ g h, g ≤ m ∧ m < h ∧ h ≤ ts.length ∧
      (∀ i, g ≤ i → i < h → timeAt ts tType i = some 0) ∧
      (g = 0 ∨ ∃ t, timeAt ts tType (g - 1) = some t ∧ t ≠ 0 ∧ 1 ≤ g) ∧
      (h = ts.length ∨ ∃ t, timeAt ts tType h = some t ∧ t ≠ 0) := by
  have hm : m < ts.length := timeAt_lt ts tType m 0 hz
  obtain ⟨h1, h2, h3, h4⟩ := scanEnd_drop ts tType m (by omega)
  have hne : scanEnd tType (ts.drop m) m ≠ m := by
    intro hc
    rw [hc] at h4
    exact h4 0 hz rfl
  obtain ⟨g, g1, g2, g3⟩ := run_start_exists ts tType _ h2 m h1 h3
  refine ⟨g, scanEnd tType (ts.drop m) m, g1, by omega, h2, g2, g3, ?_⟩
  by_cases hlt : scanEnd tType (ts.drop m) m < ts.length
  · obtain ⟨t, ht⟩ := timeAt_isSome ts tType _ hlt
    exact Or.inr ⟨t, ht, h4 t ht⟩
  · exact Or.inl (by omega)

theorem list_eq_of_views (a b : List (ScheduledStopTime F))
    (h : ∀ m, distAt a m = distAt b m ∧
      (a[m]?).map (fun st => st.StopSequence) = (b[m]?).map (fun st => st.StopSequence) ∧
      (a[m]?).map (fun st => st.ExactTimes) = (b[m]?).map (fun st => st.ExactTimes) ∧
      timeAt a 0 m = timeAt b 0 m ∧ timeAt a 1 m = timeAt b 1 m) : a = b := by
  apply List.ext_getElem?
  intro m
  obtain ⟨h1, h2, h3, h4, h5⟩ := h m
  unfold distAt at h1
  unfold timeAt at h4 h5
  cases ha : a[m]? with
  | none =>
    cases hb : b[m]? with
    | none => rfl
    | some y => simp [ha, hb] at h2
  | some x =>
    cases hb : b[m]? with
    | none => simp [ha, hb] at h2
    | some y =>
      simp only [ha, hb, Option.map_some', Option.some.injEq] at h1 h2 h3 h4 h5
      simp only [getTime, if_true] at h4
      simp only [getTime, Nat.succ_ne_zero, if_false] at h5
      cases x
      cases y
      simp only at h1 h2 h3 h4 h5
      simp only [Option.some.injEq, ScheduledStopTime.mk.injEq]
      exact ⟨h2, h4, h5, h3, h1⟩

/-! ## Helpers: a finer condition under which the distance-weighted function returns -/

theorem shapeDistGap_total_run (A : Float64Ops F) (n tType : Nat)
    (result : List (ScheduledStopTime F)) (i : Nat) (hn : result.length = n) (hi : i < n)
    (hd : ∀ m, i ≤ m → m < scanEnd tType (result.drop i) i → distAt result m ≠ some none) :
    ∃ p, shapeDistGap A n tType result i = .ok p := by
  rcases shapeDistGap_cases A n tType result i hn hi with
    h | ⟨s, ts, ds, te, de, hs, hse, hen, hbs, hbe, hgt, hlt, h⟩
  · exact ⟨_, h⟩
  · obtain ⟨r', hr⟩ := fillByShapeDist_total A tType s ts te ds de
      (scanEnd tType (result.drop i) i - s - 1) 1 result (by omega)
      (by
        intro m st h1 h2 hm hc
        apply hd m (by omega) (by omega)
        simp [distAt, hm, hc])
    rw [h, hr]
    exact ⟨_, rfl⟩

theorem byShapeDist_total_of_sentinels (A : Float64Ops F) (ts : List (ScheduledStopTime F))
    (hd : ∀ tType m, tType < 2 → timeAt ts tType m = some 0 → distAt ts m ≠ some none) :
    ∃ out, interpolateStopTimesByShapeDist A ts = .ok out := by
  by_cases hne : ts.length = 0
  · exact ⟨[], by simp [interpolateStopTimesByShapeDist, hne]⟩
  · have tot : ∀ (t : Nat) (r : List (ScheduledStopTime F)), r.length = ts.length →
        (∀ m, timeAt r t m = some 0 → distAt r m ≠ some none) →
        ∃ out, scanLoop (shapeDistGap A ts.length t) ts.length t ts.length 0 r = .ok out := by
      intro t r hr hdr
      apply scanLoop_total (shapeDistGap A ts.length t) ts.length t (shapeDistGap_sound A _ t)
        (fun r => ∀ m, timeAt r t m = some 0 → distAt r m ≠ some none) _ ts.length 0 r hdr hr
        (by omega)
      intro result i hinv hl hi
      obtain ⟨h1, h2, h3, h4⟩ := scanEnd_drop result t i (by omega)
      obtain ⟨p, hp⟩ := shapeDistGap_total_run A ts.length t result i hl hi
        (fun m m1 m2 => hinv m (h3 m m1 m2))
      obtain ⟨he, _, hfr⟩ := shapeDistGap_sound A ts.length t result i p.1 p.2 hl hi hp
      refine ⟨p.1, p.2, hp, ?_⟩
      intro m hm
      rw [restAt_distAt t result p.1 m (hfr m).2]
      by_cases hin : i ≤ m ∧ m < p.2
      · exact hinv m (h3 m hin.1 (by rw [← he]; exact hin.2))
      · apply hinv m
        rw [← timeAt_congr result p.1 t m ((hfr m).1 (by omega))]
        exact hm
    obtain ⟨mid, h0⟩ := tot 0 ts rfl (fun m => hd 0 m (by omega))
    obtain ⟨hl0, hf0⟩ := scanLoop_frame _ ts.length 0 (shapeDistGap_sound A _ 0) _ 0 ts mid rfl h0
    obtain ⟨out, h1⟩ := tot 1 mid hl0 (by
      intro m hm
      rw [restAt_distAt 0 ts mid m (hf0 m).1]
      apply hd 1 m (by omega)
      rw [← restAt_timeAt 1 0 (by omega) (by omega) (by omega) ts mid m (hf0 m).1]
      exact hm)
    exact ⟨out, by simp only [interpolateStopTimesByShapeDist, hne, if_false, h0, h1]⟩

/-! ## Helpers: rounding error in the non-even distance scenario -/

theorem relativeError_exactOps (eps : ℚ) (h0 : 0 ≤ eps) : RelativeError exactOps eps where
  zero_exact := rfl
  gt_exact := fun _ _ => rfl
  sub_err := fun a b => by
    show |a - b - (a - b)| ≤ eps * |a - b|
    rw [sub_self, abs_zero]
    exact mul_nonneg h0 (abs_nonneg _)
  mul_err := fun a b => by
    show |a * b - a * b| ≤ eps * |a * b|
    rw [sub_self, abs_zero]
    exact mul_nonneg h0 (abs_nonneg _)
  div_err := fun a b _ => by
    show |a / b - a / b| ≤ eps * |a / b|
    rw [sub_self, abs_zero]
    exact mul_nonneg h0 (abs_nonneg _)
  ofDuration_err := fun d => by
    show |(d : ℚ) - (d : ℚ)| ≤ eps * |(d : ℚ)|
    rw [sub_self, abs_zero]
    exact mul_nonneg h0 (abs_nonneg _)
  toDuration_trunc := fun q h1 h2 => by
    show (if -9223372036854775808 ≤ Int.tdiv q.num (q.den : Int) ∧
        Int.tdiv q.num (q.den : Int) < 9223372036854775808
      then Int.tdiv q.num (q.den : Int) else -9223372036854775808) = _
    rw [if_pos ⟨h1, h2⟩]

theorem near_of_relative (x v eps : ℚ) (hv : 0 ≤ v)
    (he : eps ≤ 1 / 1000000) (h : |x - v| ≤ eps * |v|) :
    (999999 / 1000000) * v ≤ x ∧ x ≤ (1000001 / 1000000) * v := by
  rw [abs_of_nonneg hv] at h
  obtain ⟨h1, h2⟩ := abs_le.mp h
  have h3 : eps * v ≤ (1 / 1000000) * v := mul_le_mul_of_nonneg_right he hv
  constructor <;> linarith

theorem trunc_bounds (q : ℚ) (hq : 0 ≤ q) :
    ((Int.tdiv q.num (q.den : Int) : Int) : ℚ) ≤ q ∧
    q < ((Int.tdiv q.num (q.den : Int) : Int) : ℚ) + 1 := by
  have hnum : 0 ≤ q.num := Rat.num_nonneg.mpr hq
  rw [Int.tdiv_eq_ediv hnum (by positivity), ← Rat.floor_def]
  exact ⟨Int.floor_le q, Int.lt_floor_add_one q⟩

theorem interpolated_rounded_bounds (A : Float64Ops ℚ) (eps : ℚ) (hA : RelativeError A eps)
    (he : eps ≤ 1 / 1000000) (d : ℚ) (hd : 0 ≤ d) :
    171427000000 * d ≤
      A.mul (A.ofDuration 1800000000000) (A.div (A.sub d 0) (A.sub (21 / 2) 0)) ∧
    A.mul (A.ofDuration 1800000000000) (A.div (A.sub d 0) (A.sub (21 / 2) 0))
      ≤ 171430000000 * d := by
  obtain ⟨a1, b1⟩ := near_of_relative (A.sub d 0) (d - 0) eps (by linarith) he
    (hA.sub_err d 0)
  obtain ⟨a2, b2⟩ := near_of_relative (A.sub (21 / 2) 0) (21 / 2 - 0) eps (by norm_num) he
    (hA.sub_err (21 / 2) 0)
  have hx1 : 0 ≤ A.sub d 0 := by linarith
  have hx2 : 0 < A.sub (21 / 2) 0 := by linarith
  have hq0 : 0 ≤ A.sub d 0 / A.sub (21 / 2) 0 := div_nonneg hx1 hx2.le
  have hqhi : A.sub d 0 / A.sub (21 / 2) 0 ≤ (952383 / 10000000) * d := by
    rw [div_le_iff₀ hx2]
    nlinarith [mul_le_mul_of_nonneg_left a2 hd]
  have hqlo : (952379 / 10000000) * d ≤ A.sub d 0 / A.sub (21 / 2) 0 := by
    rw [le_div_iff₀ hx2]
    nlinarith [mul_le_mul_of_nonneg_left b2 hd]
  obtain ⟨a3, b3⟩ := near_of_relative _ _ eps hq0 he
    (hA.div_err (A.sub d 0) (A.sub (21 / 2) 0) (ne_of_gt hx2))
  have hwlo : (952378 / 10000000) * d ≤ A.div (A.sub d 0) (A.sub (21 / 2) 0) := by
    nlinarith
  have hwhi : A.div (A.sub d 0) (A.sub (21 / 2) 0) ≤ (952384 / 10000000) * d := by
    nlinarith
  have hw0 : 0 ≤ A.div (A.sub d 0) (A.sub (21 / 2) 0) := by nlinarith
  obtain ⟨a4, b4⟩ := near_of_relative (A.ofDuration 1800000000000)
    ((1800000000000 : Int) : ℚ) eps (by norm_num) he (hA.ofDuration_err 1800000000000)
  have hT : ((1800000000000 : Int) : ℚ) = 1800000000000 := by norm_num
  rw [hT] at a4 b4
  have hT0 : 0 ≤ A.ofDuration 1800000000000 := by linarith
  have hplo : 1799998200000 * ((952378 / 10000000) * d)
      ≤ A.ofDuration 1800000000000 * A.div (A.sub d 0) (A.sub (21 / 2) 0) :=
    mul_le_mul (by linarith) hwlo (by positivity) hT0
  have hphi : A.ofDuration 1800000000000 * A.div (A.sub d 0) (A.sub (21 / 2) 0)
      ≤ 1800001800000 * ((952384 / 10000000) * d) :=
    mul_le_mul (by linarith) hwhi hw0 (by norm_num)
  obtain ⟨a5, b5⟩ := near_of_relative _ _ eps (mul_nonneg hT0 hw0) he
    (hA.mul_err (A.ofDuration 1800000000000) (A.div (A.sub d 0) (A.sub (21 / 2) 0)))
  constructor <;> nlinarith

theorem interpolated_rounded_value (A : Float64Ops ℚ) (eps : ℚ) (hA : RelativeError A eps)
    (he : eps ≤ 1 / 1000000) (d : ℚ) (hd0 : 0 ≤ d) (hd1 : d ≤ 21 / 2) :
    ∃ t : Int, interpolated A (hms 8 0 0) (hms 8 30 0) 0 (21 / 2) d = hms 8 0 0 + t ∧
      171427000000 * d - 1 < (t : ℚ) ∧ (t : ℚ) ≤ 171430000000 * d := by
  obtain ⟨hlo, hhi⟩ := interpolated_rounded_bounds A eps hA he d hd0
  have hP0 : 0 ≤ A.mul (A.ofDuration 1800000000000) (A.div (A.sub d 0) (A.sub (21 / 2) 0)) := by
    nlinarith
  obtain ⟨t1, t2⟩ := trunc_bounds _ hP0
  have hD : dSub (hms 8 30 0) (hms 8 0 0) = 1800000000000 := by decide
  have hs : hms 8 0 0 = 28800000000000 := by decide
  refine ⟨Int.tdiv
      (A.mul (A.ofDuration 1800000000000) (A.div (A.sub d 0) (A.sub (21 / 2) 0))).num
      ((A.mul (A.ofDuration 1800000000000) (A.div (A.sub d 0) (A.sub (21 / 2) 0))).den : Int),
    ?_, by linarith, by linarith⟩
  have hnum : 0 ≤
      (A.mul (A.ofDuration 1800000000000) (A.div (A.sub d 0) (A.sub (21 / 2) 0))).num :=
    Rat.num_nonneg.mpr hP0
  have ht0 : 0 ≤ Int.tdiv
      (A.mul (A.ofDuration 1800000000000) (A.div (A.sub d 0) (A.sub (21 / 2) 0))).num
      ((A.mul (A.ofDuration 1800000000000) (A.div (A.sub d 0) (A.sub (21 / 2) 0))).den : Int) := by
    rw [Int.tdiv_eq_ediv hnum (by positivity)]
    exact Int.ediv_nonneg hnum (by positivity)
  have htq : ((Int.tdiv
      (A.mul (A.ofDuration 1800000000000) (A.div (A.sub d 0) (A.sub (21 / 2) 0))).num
      ((A.mul (A.ofDuration 1800000000000) (A.div (A.sub d 0) (A.sub (21 / 2) 0))).den : Int)
      : Int) : ℚ) ≤ ((1800015000000 : Int) : ℚ) := by
    push_cast
    linarith
  have ht1 : Int.tdiv
      (A.mul (A.ofDuration 1800000000000) (A.div (A.sub d 0) (A.sub (21 / 2) 0))).num
      ((A.mul (A.ofDuration 1800000000000) (A.div (A.sub d 0) (A.sub (21 / 2) 0))).den : Int)
      ≤ 1800015000000 := by
    exact_mod_cast htq
  simp only [interpolated]
  rw [hD, hA.toDuration_trunc _ (by omega) (by omega)]
  unfold dAdd
  rw [hs]
  exact wrap64_id _ (by omega) (by omega)

/-! ## Helpers: rounding error at evenly spaced distances -/

/-- C1. Uniform synthesis formula. For either channel (`tType = 0` arrival, `tType = 1`
departure): when indices `start < end_` hold the non-zero times `s < e` and every index
strictly between them holds the sentinel `0`, `interpolateStopTimes` returns, and the time
it returns at index `start + j` (`1 ≤ j < end_ - start`) is
`s + j * ((e - s) / (end_ - start))` computed with the wrapping operators of
`time.Duration`; when `0 ≤ s` and `e` is an `int64` value nothing wraps and the time is
`s + j * ((e - s) / (end_ - start))` in exact integer arithmetic. -/
theorem uniform_synthesis_formula (ts : List (ScheduledStopTime F)) (tType start end_ : Nat)
    (s e : Int) (ht : tType < 2) (hse : start < end_)
    (hs : timeAt ts tType start = some s) (he : timeAt ts tType end_ = some e)
    (hs0 : s ≠ 0) (he0 : e ≠ 0) (hlt : s < e)
    (hz : ∀ k, start < k → k < end_ → timeAt ts tType k = some 0) :
    ∃ out, interpolateStopTimes ts = .ok out ∧
      ∀ j : Nat, 1 ≤ j → j < end_ - start →
        timeAt out tType (start + j) =
          some (dAdd s (dMul (j : Int) (dDiv (dSub e s) ((end_ : Int) - (start : Int))))) ∧
        (0 ≤ s → e < 9223372036854775808 →
          timeAt out tType (start + j) =
            some (s + (j : Int) * ((e - s) / ((end_ : Int) - (start : Int))))) := by
  obtain ⟨out, hout⟩ := interpolateStopTimes_total ts
  refine ⟨out, hout, ?_⟩
  intro j hj1 hj2
  have hv := uniform_bounded_gap ts out hout tType ht start end_ s e hs he hs0 he0 hz
    (start + j) (by omega) (by omega)
  rw [if_pos hlt] at hv
  have hcast : ((start + j : Nat) : Int) - (start : Int) = (j : Int) := by omega
  rw [hcast] at hv
  refine ⟨hv, ?_⟩
  intro hs1 he1
  rw [hv, uniform_value_exact s e (j : Int) ((end_ : Int) - (start : Int)) hs1 hlt he1
    (by omega) (by omega)]

/-- Witness for C1: on the trip of `TestInterpolateStopTimes_Normal` the arrivals
08:00:00, 0, 0, 08:30:00 become 08:00:00, 08:10:00, 08:20:00, 08:30:00 and the departures
08:05:00, 0, 0, 08:35:00 become 08:05:00, 08:15:00, 08:25:00, 08:35:00. -/
theorem uniform_synthesis_formula_witness :
    ∃ out, interpolateStopTimes normalTrip = .ok out ∧
      out.map (fun st => st.ArrivalTime) = [hms 8 0 0, hms 8 10 0, hms 8 20 0, hms 8 30 0] ∧
      out.map (fun st => st.DepartureTime) = [hms 8 5 0, hms 8 15 0, hms 8 25 0, hms 8 35 0] ∧
      ∀ j : Nat, 1 ≤ j → j < 3 - 0 →
        timeAt out 0 (0 + j) = some (dAdd (hms 8 0 0) (dMul (j : Int)
          (dDiv (dSub (hms 8 30 0) (hms 8 0 0)) (((3 : Nat) : Int) - ((0 : Nat) : Int))))) ∧
        (0 ≤ hms 8 0 0 → hms 8 30 0 < 9223372036854775808 →
          timeAt out 0 (0 + j) = some (hms 8 0 0 + (j : Int) *
            ((hms 8 30 0 - hms 8 0 0) / (((3 : Nat) : Int) - ((0 : Nat) : Int))))) := by
  obtain ⟨out, h, hj⟩ := uniform_synthesis_formula normalTrip 0 0 3 (hms 8 0 0) (hms 8 30 0)
    (by decide) (by decide) (by decide) (by decide) (by decide) (by decide) (by decide)
    (by
      intro k h1 h2
      have hk : k = 1 ∨ k = 2 := by omega
      rcases hk with hk | hk <;> subst hk <;> decide)
  have hval : interpolateStopTimes normalTrip = .ok
      [{ StopSequence := 1, ArrivalTime := hms 8 0 0, DepartureTime := hms 8 5 0,
         ExactTimes := true, ShapeDistanceTraveled := none },
       { StopSequence := 2, ArrivalTime := hms 8 10 0, DepartureTime := hms 8 15 0,
         ExactTimes := false, ShapeDistanceTraveled := none },
       { StopSequence := 3, ArrivalTime := hms 8 20 0, DepartureTime := hms 8 25 0,
         ExactTimes := false, ShapeDistanceTraveled := none },
       { StopSequence := 4, ArrivalTime := hms 8 30 0, DepartureTime := hms 8 35 0,
         ExactTimes := true, ShapeDistanceTraveled := none }] := by decide
  rw [hval] at h
  simp only [Except.ok.injEq] at h
  subst h
  exact ⟨_, hval, by decide, by decide, hj⟩

/-- The distance-weighted formula, on the results that are returned. For either channel:
when indices `start < end_` hold the non-zero times `s < e`, both boundary records carry
distances `ds` and `de` with `de > ds`, and every index strictly between them holds the
sentinel `0`, every result returned by `interpolateStopTimesByShapeDist` holds at each
interior index that carries a distance `d` the time
`s + time.Duration(float64(e - s) * w)` with `w = (d - ds) / (de - ds)`, whatever the
floating-point arithmetic `A`; the only fault the call can end in is the nil-pointer
panic, and it returns when every record of the sequence carries a distance. -/
theorem distance_weighted_formula (A : Float64Ops F) (ts : List (ScheduledStopTime F))
    (tType start end_ : Nat) (s e : Int) (ds de : F) (ht : tType < 2)
    (hs : timeAt ts tType start = some s) (he : timeAt ts tType end_ = some e)
    (hs0 : s ≠ 0) (he0 : e ≠ 0) (hlt : s < e)
    (hds : distAt ts start = some (some ds)) (hde : distAt ts end_ = some (some de))
    (hgt : A.gt de ds = true)
    (hz : ∀ k, start < k → k < end_ → timeAt ts tType k = some 0) :
    (∀ out, interpolateStopTimesByShapeDist A ts = .ok out →
      ∀ k d, start < k → k < end_ → distAt ts k = some (some d) →
        timeAt out tType k = some (dAdd s (A.toDuration
          (A.mul (A.ofDuration (dSub e s)) (A.div (A.sub d ds) (A.sub de ds)))))) ∧
    (∀ err, interpolateStopTimesByShapeDist A ts = .error err →
      err = .nilDereference) ∧
    ((∀ m, distAt ts m ≠ some none) →
      ∃ out, interpolateStopTimesByShapeDist A ts = .ok out) := by
  refine ⟨?_, byShapeDist_fault A ts, byShapeDist_total A ts⟩
  intro out hout k d hk1 hk2 hd
  obtain ⟨d', h1, h2⟩ := (byShapeDist_bounded_gap A ts out hout tType ht start end_ s e
    (some ds) (some de) hs he hs0 he0 hds hde hz k hk1 hk2).1 hgt hlt
  rw [hd] at h1
  simp only [Option.some.injEq] at h1
  subst h1
  exact h2

/-- An instance: on the trip of `TestInterpolateStopTimesByShapeDist_Normal`, with the
distances 0, 3.5, 7.0, 10.5 and exact arithmetic, the arrivals 08:00:00, 0, 0, 08:30:00
become 08:00:00, 08:10:00, 08:20:00, 08:30:00. -/
theorem distance_weighted_formula_witness :
    interpolateStopTimesByShapeDist exactOps normalTripDist = .ok
      [{ StopSequence := 1, ArrivalTime := hms 8 0 0, DepartureTime := hms 8 5 0,
         ExactTimes := true, ShapeDistanceTraveled := some 0 },
       { StopSequence := 2, ArrivalTime := hms 8 10 0, DepartureTime := hms 8 15 0,
         ExactTimes := false, ShapeDistanceTraveled := some (7 / 2) },
       { StopSequence := 3, ArrivalTime := hms 8 20 0, DepartureTime := hms 8 25 0,
         ExactTimes := false, ShapeDistanceTraveled := some 7 },
       { StopSequence := 4, ArrivalTime := hms 8 30 0, DepartureTime := hms 8 35 0,
         ExactTimes := true, ShapeDistanceTraveled := some (21 / 2) }] ∧
    (∀ out, interpolateStopTimesByShapeDist exactOps normalTripDist = .ok out →
      ∀ k d, 0 < k → k < 3 → distAt normalTripDist k = some (some d) →
        timeAt out 0 k = some (dAdd (hms 8 0 0) (exactOps.toDuration
          (exactOps.mul (exactOps.ofDuration (dSub (hms 8 30 0) (hms 8 0 0)))
            (exactOps.div (exactOps.sub d 0) (exactOps.sub (21 / 2) 0)))))) ∧
    (∀ err, interpolateStopTimesByShapeDist exactOps normalTripDist = .error err →
      err = .nilDereference) ∧
    ((∀ m, distAt normalTripDist m ≠ some none) →
      ∃ out, interpolateStopTimesByShapeDist exactOps normalTripDist = .ok out) :=
  ⟨by decide!,
    distance_weighted_formula exactOps normalTripDist 0 0 3 (hms 8 0 0) (hms 8 30 0) 0 (21 / 2)
      (by decide) (by decide) (by decide) (by decide) (by decide) (by decide)
      (by decide!) (by decide!) (by decide!)
      (by
        intro k h1 h2
        have hk : k = 1 ∨ k = 2 := by omega
        rcases hk with hk | hk <;> subst hk <;> decide)⟩

/-- C2 (the code fails here). On five stops with the times 08:00:00, 0, 08:10:00, 0,
08:20:00 and the distances 0, 1, 2, nil, 4, the gap at index 1 meets every condition of
the claim: its boundaries hold the times 08:00:00 < 08:10:00 and the distances 0 < 2, and
its one interior record holds the sentinel and the distance 1. The call returns no time
for it: the record inside the second gap has no distance, and
`interpolateStopTimesByShapeDist` stops there in the nil-pointer panic, in `float64`
arithmetic and in any arithmetic whose comparison finds 4 greater than 2. -/
theorem distance_weighted_formula_lost_to_panic :
    timeAt secondGapNilTrip 0 0 = some (hms 8 0 0) ∧
    timeAt secondGapNilTrip 0 2 = some (hms 8 10 0) ∧
    hms 8 0 0 < hms 8 10 0 ∧
    distAt secondGapNilTrip 0 = some (some 0) ∧
    distAt secondGapNilTrip 2 = some (some 2) ∧
    timeAt secondGapNilTrip 0 1 = some 0 ∧
    distAt secondGapNilTrip 1 = some (some 1) ∧
    distAt secondGapNilTrip 3 = some none ∧
    interpolateStopTimesByShapeDist float64Ops secondGapNilTrip = .error .nilDereference ∧
    ∀ A : Float64Ops ℚ, A.gt 4 2 = true →
      interpolateStopTimesByShapeDist A secondGapNilTrip = .error .nilDereference :=
  ⟨by decide, by decide, by decide, by decide!, by decide!, by decide, by decide!, by decide,
    by decide!,
    fun A hgt => byShapeDist_nil_interior_panics A secondGapNilTrip 0 2 4 3 (hms 8 10 0)
      (hms 8 20 0) 2 4 (by decide) (by decide) (by decide) (by decide) (by decide)
      (by decide) (by decide!) (by decide!) hgt
      (by
        intro k h1 h2
        have hk : k = 3 := by omega
        subst hk
        decide)
      (by decide) (by decide) (by decide)⟩

/-- C3 (the code fails here). `interpolateStopTimes` returns a result on every input, but
`interpolateStopTimesByShapeDist` does not: on the three-stop trip whose boundary records
carry the times 08:00:00 and 08:30:00 and the distances 0 and 10.5, and whose middle
record has neither a time nor a distance, the dereference
`*result[startIdx+j].ShapeDistanceTraveled` is a nil-pointer panic. -/
theorem byShapeDist_panics_on_missing_interior_distance :
    (∀ ts : List (ScheduledStopTime F), ∃ out, interpolateStopTimes ts = .ok out) ∧
    timeAt missingInteriorDistTrip 0 1 = some 0 ∧
    distAt missingInteriorDistTrip 1 = some none ∧
    interpolateStopTimesByShapeDist exactOps missingInteriorDistTrip
      = .error .nilDereference :=
  ⟨fun ts => interpolateStopTimes_total ts, by decide, by decide, by decide!⟩

/-- C4 (the code fails here). A gap with known times on both sides whose start boundary
record has no distance is not left unresolved: the start boundary is read as time zero at
distance zero, and the interior stop at distance 5 of 10 gets the arrival 04:15:00 and
the departure 04:17:30, half of the end boundary's 08:30:00 and 08:35:00. The mirror
case, where it is the end boundary record that has no distance, does leave the gap
unresolved. -/
theorem byShapeDist_fills_gap_after_missing_start_distance :
    distAt missingStartDistTrip 0 = some none ∧
    timeAt missingStartDistTrip 0 1 = some 0 ∧
    interpolateStopTimesByShapeDist exactOps missingStartDistTrip = .ok
      [stop ℚ 1 (hms 8 0 0) (hms 8 5 0) none,
       stop ℚ 2 (hms 4 15 0) (hms 4 17 30) (some 5),
       stop ℚ 3 (hms 8 30 0) (hms 8 35 0) (some 10)] ∧
    distAt missingEndDistTrip 2 = some none ∧
    interpolateStopTimesByShapeDist exactOps missingEndDistTrip = .ok missingEndDistTrip :=
  ⟨by decide, by decide, by decide!, by decide, by decide!⟩

/-- C5. A leading gap is never synthesized. For either channel: when the entries at
indices `0 .. k-1` (`k ≥ 1`) all hold the sentinel `0`, `interpolateStopTimes` returns a
result that holds `0` at indices `0 .. k-1` and holds the first known value after the run
unchanged; every result returned by `interpolateStopTimesByShapeDist` does the same; the
only fault that call can end in is the nil-pointer panic, and it returns when every record
carries a distance. -/
theorem leading_gap_unresolved (A : Float64Ops F) (ts : List (ScheduledStopTime F))
    (tType k : Nat) (ht : tType < 2) (hk : 1 ≤ k)
    (hz : ∀ i, i < k → timeAt ts tType i = some 0) :
    (∃ out, interpolateStopTimes ts = .ok out ∧
      (∀ i, i < k → timeAt out tType i = some 0) ∧
      ∀ m t, k ≤ m → (∀ i, k ≤ i → i < m → timeAt ts tType i = some 0) →
        timeAt ts tType m = some t → t ≠ 0 → timeAt out tType m = some t) ∧
    (∀ out, interpolateStopTimesByShapeDist A ts = .ok out →
      (∀ i, i < k → timeAt out tType i = some 0) ∧
      ∀ m t, k ≤ m → (∀ i, k ≤ i → i < m → timeAt ts tType i = some 0) →
        timeAt ts tType m = some t → t ≠ 0 → timeAt out tType m = some t) ∧
    (∀ err, interpolateStopTimesByShapeDist A ts = .error err →
      err = .nilDereference) ∧
    ((∀ m, distAt ts m ≠ some none) →
      ∃ out, interpolateStopTimesByShapeDist A ts = .ok out) := by
  have hkn : k ≤ ts.length := by
    have := timeAt_lt ts tType (k - 1) 0 (hz (k - 1) (by omega))
    omega
  refine ⟨?_, ?_, byShapeDist_fault A ts, byShapeDist_total A ts⟩
  · obtain ⟨out, hout⟩ := interpolateStopTimes_total ts
    refine ⟨out, hout, ?_, ?_⟩
    · intro i hi
      exact uniform_open_gap ts out hout tType ht 0 k (by omega) hkn
        (fun i _ hi => hz i hi) (Or.inl rfl) (Or.inl rfl) i (Nat.zero_le i) hi
    · intro m t _ _ hm ht0
      rw [((uniform_frame ts out hout).2 m).2.2.2 tType ht (by
        rw [hm]
        intro hc
        simp only [Option.some.injEq] at hc
        exact ht0 hc)]
      exact hm
  · intro out hout
    refine ⟨?_, ?_⟩
    · intro i hi
      exact byShapeDist_open_gap A ts out hout tType ht 0 k (by omega) hkn
        (fun i _ hi => hz i hi) (Or.inl rfl) (Or.inl rfl) i (Nat.zero_le i) hi
    · intro m t _ _ hm ht0
      rw [((byShapeDist_frame A ts out hout).2 m).2.2.2 tType ht (by
        rw [hm]
        intro hc
        simp only [Option.some.injEq] at hc
        exact ht0 hc)]
      exact hm

/-- Witness for C5: the arrivals 0, 0, 08:30:00 are returned as 0, 0, 08:30:00 by both
functions. -/
theorem leading_gap_unresolved_witness :
    (interpolateStopTimes missingFirstTrip = .ok missingFirstTrip ∧
      interpolateStopTimesByShapeDist exactOps missingFirstTrip = .ok missingFirstTrip) ∧
    ((∃ out, interpolateStopTimes missingFirstTrip = .ok out ∧
      (∀ i, i < 2 → timeAt out 0 i = some 0) ∧
      ∀ m t, 2 ≤ m → (∀ i, 2 ≤ i → i < m → timeAt missingFirstTrip 0 i = some 0) →
        timeAt missingFirstTrip 0 m = some t → t ≠ 0 → timeAt out 0 m = some t) ∧
    (∀ out, interpolateStopTimesByShapeDist exactOps missingFirstTrip = .ok out →
      (∀ i, i < 2 → timeAt out 0 i = some 0) ∧
      ∀ m t, 2 ≤ m → (∀ i, 2 ≤ i → i < m → timeAt missingFirstTrip 0 i = some 0) →
        timeAt missingFirstTrip 0 m = some t → t ≠ 0 → timeAt out 0 m = some t) ∧
    (∀ err, interpolateStopTimesByShapeDist exactOps missingFirstTrip = .error err →
      err = .nilDereference) ∧
    ((∀ m, distAt missingFirstTrip m ≠ some none) →
      ∃ out, interpolateStopTimesByShapeDist exactOps missingFirstTrip = .ok out)) :=
  ⟨⟨by decide!, by decide!⟩,
    leading_gap_unresolved exactOps missingFirstTrip 0 2 (by decide) (by decide) (by decide)⟩

/-- C6. A trailing gap is never synthesized. For either channel: when the entries at
indices `m .. n-1` (`m < n`, `n` the length) all hold the sentinel `0`,
`interpolateStopTimes` returns a result that holds `0` at indices `m .. n-1`; every result
returned by `interpolateStopTimesByShapeDist` does the same; the only fault that call can
end in is the nil-pointer panic, and it returns when every record carries a distance. -/
theorem trailing_gap_unresolved (A : Float64Ops F) (ts : List (ScheduledStopTime F))
    (tType m : Nat) (ht : tType < 2) (hm : m < ts.length)
    (hz : ∀ i, m ≤ i → i < ts.length → timeAt ts tType i = some 0) :
    (∃ out, interpolateStopTimes ts = .ok out ∧
      ∀ i, m ≤ i → i < ts.length → timeAt out tType i = some 0) ∧
    (∀ out, interpolateStopTimesByShapeDist A ts = .ok out →
      ∀ i, m ≤ i → i < ts.length → timeAt out tType i = some 0) ∧
    (∀ err, interpolateStopTimesByShapeDist A ts = .error err →
      err = .nilDereference) ∧
    ((∀ m, distAt ts m ≠ some none) →
      ∃ out, interpolateStopTimesByShapeDist A ts = .ok out) := by
  obtain ⟨g, hgm, hgz, hprev⟩ := gap_start_exists ts tType m (by omega) hz
  refine ⟨?_, ?_, byShapeDist_fault A ts, byShapeDist_total A ts⟩
  · obtain ⟨out, hout⟩ := interpolateStopTimes_total ts
    refine ⟨out, hout, ?_⟩
    intro i hi1 hi2
    exact uniform_open_gap ts out hout tType ht g ts.length (by omega) (le_refl _)
      hgz hprev (Or.inr rfl) i (by omega) hi2
  · intro out hout i hi1 hi2
    exact byShapeDist_open_gap A ts out hout tType ht g ts.length (by omega) (le_refl _)
      hgz hprev (Or.inr rfl) i (by omega) hi2

/-- Witness for C6: the arrivals 08:00:00, 0, 0 are returned as 08:00:00, 0, 0 by both
functions. -/
theorem trailing_gap_unresolved_witness :
    (interpolateStopTimes missingLastTrip = .ok missingLastTrip ∧
      interpolateStopTimesByShapeDist exactOps missingLastTrip = .ok missingLastTrip) ∧
    ((∃ out, interpolateStopTimes missingLastTrip = .ok out ∧
      ∀ i, 1 ≤ i → i < missingLastTrip.length → timeAt out 0 i = some 0) ∧
    (∀ out, interpolateStopTimesByShapeDist exactOps missingLastTrip = .ok out →
      ∀ i, 1 ≤ i → i < missingLastTrip.length → timeAt out 0 i = some 0) ∧
    (∀ err, interpolateStopTimesByShapeDist exactOps missingLastTrip = .error err →
      err = .nilDereference) ∧
    ((∀ m, distAt missingLastTrip m ≠ some none) →
      ∃ out, interpolateStopTimesByShapeDist exactOps missingLastTrip = .ok out)) :=
  ⟨⟨by decide!, by decide!⟩,
    trailing_gap_unresolved exactOps missingLastTrip 0 1 (by decide) (by decide)
      (by
        intro i h1 h2
        have hl : missingLastTrip.length = 3 := rfl
        have hk : i = 1 ∨ i = 2 := by omega
        rcases hk with hk | hk <;> subst hk <;> decide)⟩

/-- C7. Non-increasing time guard. For either channel: when a gap is bounded by the known
times `s` before it and `e` after it with `e ≤ s`, `interpolateStopTimes` returns a result
in which every entry of the gap is still the sentinel `0`; when both boundary records
carry a distance, the same holds of every result returned by
`interpolateStopTimesByShapeDist`; the only fault that call can end in is the nil-pointer
panic, and it returns when every record carries a distance. -/
theorem nonincreasing_time_guard (A : Float64Ops F) (ts : List (ScheduledStopTime F))
    (tType start end_ : Nat) (s e : Int) (ht : tType < 2)
    (hs : timeAt ts tType start = some s) (he : timeAt ts tType end_ = some e)
    (hs0 : s ≠ 0) (he0 : e ≠ 0) (hle : e ≤ s)
    (hz : ∀ k, start < k → k < end_ → timeAt ts tType k = some 0) :
    (∃ out, interpolateStopTimes ts = .ok out ∧
      ∀ k, start < k → k < end_ → timeAt out tType k = some 0) ∧
    (∀ ds de, distAt ts start = some (some ds) → distAt ts end_ = some (some de) →
      ∀ out, interpolateStopTimesByShapeDist A ts = .ok out →
        ∀ k, start < k → k < end_ → timeAt out tType k = some 0) ∧
    (∀ err, interpolateStopTimesByShapeDist A ts = .error err →
      err = .nilDereference) ∧
    ((∀ m, distAt ts m ≠ some none) →
      ∃ out, interpolateStopTimesByShapeDist A ts = .ok out) := by
  refine ⟨?_, ?_, byShapeDist_fault A ts, byShapeDist_total A ts⟩
  · obtain ⟨out, hout⟩ := interpolateStopTimes_total ts
    refine ⟨out, hout, ?_⟩
    intro k hk1 hk2
    have hv := uniform_bounded_gap ts out hout tType ht start end_ s e hs he hs0 he0 hz
      k hk1 hk2
    rw [if_neg (by omega)] at hv
    exact hv
  · intro ds de hds hde out hout k hk1 hk2
    exact (byShapeDist_bounded_gap A ts out hout tType ht start end_ s e (some ds) (some de)
      hs he hs0 he0 hds hde hz k hk1 hk2).2 (Or.inr hle)

/-- Witness for C7: with 09:00:00 before the gap and 08:30:00 after it, both functions
return the trip unchanged. -/
theorem nonincreasing_time_guard_witness :
    (interpolateStopTimes decreasingTimeTrip = .ok decreasingTimeTrip ∧
      interpolateStopTimesByShapeDist exactOps decreasingTimeTrip = .ok decreasingTimeTrip) ∧
    ((∃ out, interpolateStopTimes decreasingTimeTrip = .ok out ∧
      ∀ k, 0 < k → k < 2 → timeAt out 0 k = some 0) ∧
    (∀ ds de, distAt decreasingTimeTrip 0 = some (some ds) →
      distAt decreasingTimeTrip 2 = some (some de) →
      ∀ out, interpolateStopTimesByShapeDist exactOps decreasingTimeTrip = .ok out →
        ∀ k, 0 < k → k < 2 → timeAt out 0 k = some 0) ∧
    (∀ err, interpolateStopTimesByShapeDist exactOps decreasingTimeTrip = .error err →
      err = .nilDereference) ∧
    ((∀ m, distAt decreasingTimeTrip m ≠ some none) →
      ∃ out, interpolateStopTimesByShapeDist exactOps decreasingTimeTrip = .ok out)) :=
  ⟨⟨by decide!, by decide!⟩,
    nonincreasing_time_guard exactOps decreasingTimeTrip 0 0 2 (hms 9 0 0) (hms 8 30 0)
      (by decide) (by decide) (by decide) (by decide) (by decide) (by decide)
      (by
        intro k h1 h2
        have hk : k = 1 := by omega
        subst hk
        decide)⟩

/-- C8. Non-increasing distance guard. For either channel: when a gap is bounded on both
sides by records with known times whose distances `ds` (before) and `de` (after) satisfy
`de ≤ ds`, every result returned by `interpolateStopTimesByShapeDist` still holds the
sentinel `0` at every entry of the gap; the only fault the call can end in is the
nil-pointer panic, and it returns when every record carries a distance. -/
theorem nonincreasing_distance_guard (A : Float64Ops F) (ts : List (ScheduledStopTime F))
    (tType start end_ : Nat) (s e : Int) (ds de : F) (ht : tType < 2)
    (hs : timeAt ts tType start = some s) (he : timeAt ts tType end_ = some e)
    (hs0 : s ≠ 0) (he0 : e ≠ 0)
    (hds : distAt ts start = some (some ds)) (hde : distAt ts end_ = some (some de))
    (hle : A.le de ds = true)
    (hz : ∀ k, start < k → k < end_ → timeAt ts tType k = some 0) :
    (∀ out, interpolateStopTimesByShapeDist A ts = .ok out →
      ∀ k, start < k → k < end_ → timeAt out tType k = some 0) ∧
    (∀ err, interpolateStopTimesByShapeDist A ts = .error err →
      err = .nilDereference) ∧
    ((∀ m, distAt ts m ≠ some none) →
      ∃ out, interpolateStopTimesByShapeDist A ts = .ok out) := by
  refine ⟨?_, byShapeDist_fault A ts, byShapeDist_total A ts⟩
  intro out hout k hk1 hk2
  exact (byShapeDist_bounded_gap A ts out hout tType ht start end_ s e (some ds) (some de)
    hs he hs0 he0 hds hde hz k hk1 hk2).2 (Or.inl (A.le_not_gt de ds hle))

/-- Witness for C8: with the distance 10.5 on both sides of the gap the trip is returned
unchanged. -/
theorem nonincreasing_distance_guard_witness :
    interpolateStopTimesByShapeDist exactOps flatDistTrip = .ok flatDistTrip ∧
    ((∀ out, interpolateStopTimesByShapeDist exactOps flatDistTrip = .ok out →
      ∀ k, 0 < k → k < 2 → timeAt out 0 k = some 0) ∧
    (∀ err, interpolateStopTimesByShapeDist exactOps flatDistTrip = .error err →
      err = .nilDereference) ∧
    ((∀ m, distAt flatDistTrip m ≠ some none) →
      ∃ out, interpolateStopTimesByShapeDist exactOps flatDistTrip = .ok out)) :=
  ⟨by decide!,
    nonincreasing_distance_guard exactOps flatDistTrip 0 0 2 (hms 8 0 0) (hms 8 30 0)
      (21 / 2) (21 / 2)
      (by decide) (by decide) (by decide) (by decide) (by decide) (by decide!) (by decide!)
      (by decide!)
      (by
        intro k h1 h2
        have hk : k = 1 := by omega
        subst hk
        decide)⟩

/-- C9. The output differs from the input only at time entries that held the sentinel.
`interpolateStopTimes` returns a result in which, at every index, the arrival time equals
the input's when the input's is non-zero, likewise the departure time, and the distance
pointer is the input's; every result returned by `interpolateStopTimesByShapeDist` has
the same property; the only fault that call can end in is the nil-pointer panic, and it
returns when every record carries a distance. -/
theorem output_differs_only_at_sentinels (A : Float64Ops F)
    (ts : List (ScheduledStopTime F)) :
    (∃ out, interpolateStopTimes ts = .ok out ∧
      ∀ (i : Nat) (a : ScheduledStopTime F), ts[i]? = some a →
        ∃ b, out[i]? = some b ∧
          (a.ArrivalTime ≠ 0 → b.ArrivalTime = a.ArrivalTime) ∧
          (a.DepartureTime ≠ 0 → b.DepartureTime = a.DepartureTime) ∧
          b.ShapeDistanceTraveled = a.ShapeDistanceTraveled) ∧
    (∀ out, interpolateStopTimesByShapeDist A ts = .ok out →
      ∀ (i : Nat) (a : ScheduledStopTime F), ts[i]? = some a →
        ∃ b, out[i]? = some b ∧
          (a.ArrivalTime ≠ 0 → b.ArrivalTime = a.ArrivalTime) ∧
          (a.DepartureTime ≠ 0 → b.DepartureTime = a.DepartureTime) ∧
          b.ShapeDistanceTraveled = a.ShapeDistanceTraveled) ∧
    (∀ err, interpolateStopTimesByShapeDist A ts = .error err →
      err = .nilDereference) ∧
    ((∀ m, distAt ts m ≠ some none) →
      ∃ out, interpolateStopTimesByShapeDist A ts = .ok out) := by
  refine ⟨?_, ?_, byShapeDist_fault A ts, byShapeDist_total A ts⟩
  · obtain ⟨out, hout⟩ := interpolateStopTimes_total ts
    refine ⟨out, hout, ?_⟩
    intro i a ha
    obtain ⟨b, h1, _, _, h4, h5, h6⟩ := frame_records ts out (uniform_frame ts out hout) i a ha
    exact ⟨b, h1, h5, h6, h4⟩
  · intro out hout i a ha
    obtain ⟨b, h1, _, _, h4, h5, h6⟩ :=
      frame_records ts out (byShapeDist_frame A ts out hout) i a ha
    exact ⟨b, h1, h5, h6, h4⟩

/-- Witness for C9: on the trip of `TestInterpolateStopTimesByShapeDist_Normal` both
functions return a result, and the property of C9 holds of it. -/
theorem output_differs_only_at_sentinels_witness :
    (∃ out, interpolateStopTimesByShapeDist exactOps normalTripDist = .ok out) ∧
    ((∃ out, interpolateStopTimes normalTripDist = .ok out ∧
      ∀ (i : Nat) (a : ScheduledStopTime ℚ), normalTripDist[i]? = some a →
        ∃ b, out[i]? = some b ∧
          (a.ArrivalTime ≠ 0 → b.ArrivalTime = a.ArrivalTime) ∧
          (a.DepartureTime ≠ 0 → b.DepartureTime = a.DepartureTime) ∧
          b.ShapeDistanceTraveled = a.ShapeDistanceTraveled) ∧
    (∀ out, interpolateStopTimesByShapeDist exactOps normalTripDist = .ok out →
      ∀ (i : Nat) (a : ScheduledStopTime ℚ), normalTripDist[i]? = some a →
        ∃ b, out[i]? = some b ∧
          (a.ArrivalTime ≠ 0 → b.ArrivalTime = a.ArrivalTime) ∧
          (a.DepartureTime ≠ 0 → b.DepartureTime = a.DepartureTime) ∧
          b.ShapeDistanceTraveled = a.ShapeDistanceTraveled) ∧
    (∀ err, interpolateStopTimesByShapeDist exactOps normalTripDist = .error err →
      err = .nilDereference) ∧
    ((∀ m, distAt normalTripDist m ≠ some none) →
      ∃ out, interpolateStopTimesByShapeDist exactOps normalTripDist = .ok out)) :=
  ⟨(output_differs_only_at_sentinels exactOps normalTripDist).2.2.2 (by
      intro m
      have hm : m = 0 ∨ m = 1 ∨ m = 2 ∨ m = 3 ∨ 4 ≤ m := by omega
      rcases hm with hm | hm | hm | hm | hm
      · subst hm; decide
      · subst hm; decide
      · subst hm; decide
      · subst hm; decide
      · have hnone : normalTripDist[m]? = none :=
          List.getElem?_eq_none_iff.mpr (by simpa [normalTripDist] using hm)
        simp [distAt, hnone]),
    output_differs_only_at_sentinels exactOps normalTripDist⟩

/-- C10. Length and order preservation. `interpolateStopTimes` returns a result of the
same length as the input, with `StopSequence` and `ExactTimes` unchanged at every index;
every result returned by `interpolateStopTimesByShapeDist` has the same property; the
empty input gives an empty result in both; the only fault `interpolateStopTimesByShapeDist`
can end in is the nil-pointer panic, and it returns when every record carries a
distance. -/
theorem length_and_order_preserved (A : Float64Ops F) (ts : List (ScheduledStopTime F)) :
    (∃ out, interpolateStopTimes ts = .ok out ∧ out.length = ts.length ∧
      ∀ (i : Nat) (a : ScheduledStopTime F), ts[i]? = some a →
        ∃ b, out[i]? = some b ∧ b.StopSequence = a.StopSequence ∧
          b.ExactTimes = a.ExactTimes) ∧
    (∀ out, interpolateStopTimesByShapeDist A ts = .ok out → out.length = ts.length ∧
      ∀ (i : Nat) (a : ScheduledStopTime F), ts[i]? = some a →
        ∃ b, out[i]? = some b ∧ b.StopSequence = a.StopSequence ∧
          b.ExactTimes = a.ExactTimes) ∧
    (interpolateStopTimes ([] : List (ScheduledStopTime F)) = .ok [] ∧
      interpolateStopTimesByShapeDist A [] = .ok []) ∧
    (∀ err, interpolateStopTimesByShapeDist A ts = .error err →
      err = .nilDereference) ∧
    ((∀ m, distAt ts m ≠ some none) →
      ∃ out, interpolateStopTimesByShapeDist A ts = .ok out) := by
  refine ⟨?_, ?_, ⟨rfl, rfl⟩, byShapeDist_fault A ts, byShapeDist_total A ts⟩
  · obtain ⟨out, hout⟩ := interpolateStopTimes_total ts
    refine ⟨out, hout, (uniform_frame ts out hout).1, ?_⟩
    intro i a ha
    obtain ⟨b, h1, h2, h3, _⟩ := frame_records ts out (uniform_frame ts out hout) i a ha
    exact ⟨b, h1, h2, h3⟩
  · intro out hout
    refine ⟨(byShapeDist_frame A ts out hout).1, ?_⟩
    intro i a ha
    obtain ⟨b, h1, h2, h3, _⟩ :=
      frame_records ts out (byShapeDist_frame A ts out hout) i a ha
    exact ⟨b, h1, h2, h3⟩

/-- Witness for C10: the `ExactTimes` flags true, false, false, true of the trip of
`TestInterpolateStopTimes_Normal` are returned as true, false, false, true, in four
records with the sequence numbers 1, 2, 3, 4. -/
theorem length_and_order_preserved_witness :
    (∃ out, interpolateStopTimes normalTrip = .ok out ∧
      out.map (fun st => st.ExactTimes) = [true, false, false, true] ∧
      out.map (fun st => st.StopSequence) = [1, 2, 3, 4]) ∧
    (∃ out, interpolateStopTimes normalTrip = .ok out ∧ out.length = normalTrip.length ∧
      ∀ (i : Nat) (a : ScheduledStopTime ℚ), normalTrip[i]? = some a →
        ∃ b, out[i]? = some b ∧ b.StopSequence = a.StopSequence ∧
          b.ExactTimes = a.ExactTimes) :=
  ⟨⟨[{ StopSequence := 1, ArrivalTime := hms 8 0 0, DepartureTime := hms 8 5 0,
        ExactTimes := true, ShapeDistanceTraveled := none },
      { StopSequence := 2, ArrivalTime := hms 8 10 0, DepartureTime := hms 8 15 0,
        ExactTimes := false, ShapeDistanceTraveled := none },
      { StopSequence := 3, ArrivalTime := hms 8 20 0, DepartureTime := hms 8 25 0,
        ExactTimes := false, ShapeDistanceTraveled := none },
      { StopSequence := 4, ArrivalTime := hms 8 30 0, DepartureTime := hms 8 35 0,
        ExactTimes := true, ShapeDistanceTraveled := none }], by decide, by decide, by decide⟩,
    (length_and_order_preserved exactOps normalTrip).1⟩

/-- C11. Fixed point on fully resolved input. When no arrival time and no departure time
of the sequence is the sentinel `0`, `interpolateStopTimes` and
`interpolateStopTimesByShapeDist` both return the input itself, whether or not the records
carry a distance. -/
theorem fixed_point_on_resolved_input (A : Float64Ops F) (ts : List (ScheduledStopTime F))
    (hnz : ∀ (m : Nat) (a : ScheduledStopTime F), ts[m]? = some a →
      a.ArrivalTime ≠ 0 ∧ a.DepartureTime ≠ 0) :
    interpolateStopTimes ts = .ok ts ∧ interpolateStopTimesByShapeDist A ts = .ok ts := by
  have hview : ∀ tType m, timeAt ts tType m ≠ some 0 := by
    intro tType m hc
    unfold timeAt at hc
    cases hg : ts[m]? with
    | none => simp [hg] at hc
    | some a =>
      simp only [hg, Option.map_some', Option.some.injEq] at hc
      unfold getTime at hc
      by_cases h0 : tType = 0
      · simp only [h0, if_true] at hc
        exact (hnz m a hg).1 hc
      · simp only [h0, if_false] at hc
        exact (hnz m a hg).2 hc
  by_cases hne : ts.length = 0
  · have hts : ts = [] := List.length_eq_zero.mp hne
    subst hts
    exact ⟨rfl, rfl⟩
  · constructor
    · simp only [interpolateStopTimes, hne, if_false,
        scanLoop_no_gap _ ts.length 0 ts.length 0 ts rfl (by omega) (hview 0),
        scanLoop_no_gap _ ts.length 1 ts.length 0 ts rfl (by omega) (hview 1)]
    · simp only [interpolateStopTimesByShapeDist, hne, if_false,
        scanLoop_no_gap _ ts.length 0 ts.length 0 ts rfl (by omega) (hview 0),
        scanLoop_no_gap _ ts.length 1 ts.length 0 ts rfl (by omega) (hview 1)]

/-- Witness for C11: a trip of three stops with all times known, one of them without a
distance, is returned as it is by both functions. -/
theorem fixed_point_on_resolved_input_witness :
    interpolateStopTimes resolvedTrip = .ok resolvedTrip ∧
    interpolateStopTimesByShapeDist exactOps resolvedTrip = .ok resolvedTrip :=
  fixed_point_on_resolved_input exactOps resolvedTrip (by
    intro m a h
    have hm : m = 0 ∨ m = 1 ∨ m = 2 ∨ 3 ≤ m := by omega
    rcases hm with hm | hm | hm | hm
    · subst hm
      simp only [resolvedTrip, List.getElem?_cons_zero, Option.some.injEq] at h
      subst h
      decide
    · subst hm
      simp only [resolvedTrip, List.getElem?_cons_succ, List.getElem?_cons_zero,
        Option.some.injEq] at h
      subst h
      decide
    · subst hm
      simp only [resolvedTrip, List.getElem?_cons_succ, List.getElem?_cons_zero,
        Option.some.injEq] at h
      subst h
      decide
    · have hnone : resolvedTrip[m]? = none :=
        List.getElem?_eq_none_iff.mpr (by simpa [resolvedTrip] using hm)
      rw [hnone] at h
      exact Option.noConfusion h)

/-- C12. Channel independence of the uniform synthesizer. For either channel: when two
sequences of equal length hold the same times in that channel at every index,
`interpolateStopTimes` returns on both, and the two results hold the same times in that
channel at every index, whatever the other channel holds. And there is an input on which
a record ends with its arrival time resolved and its departure time still the
sentinel. -/
theorem channel_independence (ts1 ts2 : List (ScheduledStopTime F)) (tType : Nat)
    (ht : tType < 2) (hl : ts1.length = ts2.length)
    (hv : ∀ m, timeAt ts1 tType m = timeAt ts2 tType m) :
    (∃ o1 o2, interpolateStopTimes ts1 = .ok o1 ∧ interpolateStopTimes ts2 = .ok o2 ∧
      ∀ m, timeAt o1 tType m = timeAt o2 tType m) ∧
    (∃ (ts out : List (ScheduledStopTime ℚ)) (m : Nat) (t : Int),
      interpolateStopTimes ts = .ok out ∧
      timeAt ts 0 m = some 0 ∧ timeAt ts 1 m = some 0 ∧
      timeAt out 0 m = some t ∧ t ≠ 0 ∧ timeAt out 1 m = some 0) := by
  constructor
  · obtain ⟨o1, g1⟩ := interpolateStopTimes_total ts1
    obtain ⟨o2, g2⟩ := interpolateStopTimes_total ts2
    exact ⟨o1, o2, g1, g2, uniform_channel_congr ts1 ts2 o1 o2 tType ht hl hv g1 g2⟩
  · exact ⟨arrivalOnlyTrip,
      [stop ℚ 1 (hms 8 0 0) (hms 8 5 0) none,
       stop ℚ 2 (hms 8 10 0) 0 none,
       stop ℚ 3 (hms 8 20 0) 0 none,
       stop ℚ 4 (hms 8 30 0) 0 none], 1, hms 8 10 0,
      by decide, by decide, by decide, by decide, by decide, by decide⟩

/-- Witness for C12: `normalTrip` and `arrivalOnlyTrip` hold the same arrivals and other
departures; both results hold the arrivals 08:00:00, 08:10:00, 08:20:00, 08:30:00. -/
theorem channel_independence_witness :
    (∃ o1 o2, interpolateStopTimes normalTrip = .ok o1 ∧
      interpolateStopTimes arrivalOnlyTrip = .ok o2 ∧
      o1.map (fun st => st.ArrivalTime) = [hms 8 0 0, hms 8 10 0, hms 8 20 0, hms 8 30 0] ∧
      o2.map (fun st => st.ArrivalTime) = [hms 8 0 0, hms 8 10 0, hms 8 20 0, hms 8 30 0] ∧
      o1.map (fun st => st.DepartureTime) ≠ o2.map (fun st => st.DepartureTime)) ∧
    ((∃ o1 o2, interpolateStopTimes normalTrip = .ok o1 ∧
      interpolateStopTimes arrivalOnlyTrip = .ok o2 ∧
      ∀ m, timeAt o1 0 m = timeAt o2 0 m) ∧
    (∃ (ts out : List (ScheduledStopTime ℚ)) (m : Nat) (t : Int),
      interpolateStopTimes ts = .ok out ∧
      timeAt ts 0 m = some 0 ∧ timeAt ts 1 m = some 0 ∧
      timeAt out 0 m = some t ∧ t ≠ 0 ∧ timeAt out 1 m = some 0)) :=
  ⟨⟨[{ StopSequence := 1, ArrivalTime := hms 8 0 0, DepartureTime := hms 8 5 0,
        ExactTimes := true, ShapeDistanceTraveled := none },
      { StopSequence := 2, ArrivalTime := hms 8 10 0, DepartureTime := hms 8 15 0,
        ExactTimes := false, ShapeDistanceTraveled := none },
      { StopSequence := 3, ArrivalTime := hms 8 20 0, DepartureTime := hms 8 25 0,
        ExactTimes := false, ShapeDistanceTraveled := none },
      { StopSequence := 4, ArrivalTime := hms 8 30 0, DepartureTime := hms 8 35 0,
        ExactTimes := true, ShapeDistanceTraveled := none }],
     [stop ℚ 1 (hms 8 0 0) (hms 8 5 0) none,
      stop ℚ 2 (hms 8 10 0) 0 none,
      stop ℚ 3 (hms 8 20 0) 0 none,
      stop ℚ 4 (hms 8 30 0) 0 none],
     by decide, by decide, by decide, by decide, by decide⟩,
    channel_independence normalTrip arrivalOnlyTrip 0 (by decide) (by decide) (by
      intro m
      have hm : m = 0 ∨ m = 1 ∨ m = 2 ∨ m = 3 ∨ 4 ≤ m := by omega
      rcases hm with hm | hm | hm | hm | hm
      · subst hm; decide
      · subst hm; decide
      · subst hm; decide
      · subst hm; decide
      · have h1 : normalTrip[m]? = none :=
          List.getElem?_eq_none_iff.mpr (by simpa [normalTrip] using hm)
        have h2 : arrivalOnlyTrip[m]? = none :=
          List.getElem?_eq_none_iff.mpr (by simpa [arrivalOnlyTrip] using hm)
        simp [timeAt, h1, h2])⟩

/-! C13 (non-mutation) has no theorem here: it is a statement about the caller's slice
and the slice made by `make` and `copy` not sharing a backing array. Sequences are passed
as values in this embedding, so the input of a call cannot be written by it. -/

/-- C14. Non-even distance scenario. On the four-stop trip with the arrivals 08:00:00, 0,
0, 08:30:00 and the distances 0, 2.0, 9.0, 10.5, for every arithmetic whose operations
are exact up to the relative error `2^-53` of IEEE binary64,
`interpolateStopTimesByShapeDist` returns, and the arrivals it holds at the two interior
stops are within one second of 08:05:43 and of 08:25:43; `interpolateStopTimes` holds
08:10:00 and 08:20:00 there, and the two results differ at both stops. -/
theorem non_even_distance_scenario (A : Float64Ops ℚ) (eps : ℚ) (hA : RelativeError A eps)
    (he : eps ≤ 1 / 9007199254740992) :
    ∃ out a1 a2, interpolateStopTimesByShapeDist A nonEvenTrip = .ok out ∧
      timeAt out 0 1 = some a1 ∧ timeAt out 0 2 = some a2 ∧
      |a1 - hms 8 5 43| < 1000000000 ∧ |a2 - hms 8 25 43| < 1000000000 ∧
      (∃ out', interpolateStopTimes nonEvenTrip = .ok out' ∧
        timeAt out' 0 1 = some (hms 8 10 0) ∧ timeAt out' 0 2 = some (hms 8 20 0)) ∧
      a1 ≠ hms 8 10 0 ∧ a2 ≠ hms 8 20 0 := by
  have he' : eps ≤ 1 / 1000000 := le_trans he (by norm_num)
  have hdist : ∀ m, distAt nonEvenTrip m ≠ some none := by
    intro m
    have hm : m = 0 ∨ m = 1 ∨ m = 2 ∨ m = 3 ∨ 4 ≤ m := by omega
    rcases hm with hm | hm | hm | hm | hm
    · subst hm; decide
    · subst hm; decide
    · subst hm; decide
    · subst hm; decide
    · have hnone : nonEvenTrip[m]? = none :=
        List.getElem?_eq_none_iff.mpr (by simpa [nonEvenTrip] using hm)
      simp [distAt, hnone]
  obtain ⟨out, hout⟩ := byShapeDist_total A nonEvenTrip hdist
  have hgap := byShapeDist_bounded_gap A nonEvenTrip out hout 0 (by decide) 0 3 (hms 8 0 0)
    (hms 8 30 0) (some 0) (some (21 / 2)) (by decide) (by decide) (by decide) (by decide)
    (by decide!) (by decide!)
    (by
      intro k h1 h2
      have hk : k = 1 ∨ k = 2 := by omega
      rcases hk with hk | hk <;> subst hk <;> decide)
  have hgt : A.gt (boundaryOf A (hms 8 30 0) (some (21 / 2))).2
      (boundaryOf A (hms 8 0 0) (some 0)).2 = true := by
    show A.gt (21 / 2) 0 = true
    rw [hA.gt_exact]
    simp only [decide_eq_true_eq]
    norm_num
  have hlt : (boundaryOf A (hms 8 0 0) (some (0 : ℚ))).1
      < (boundaryOf A (hms 8 30 0) (some (21 / 2 : ℚ))).1 := by
    show hms 8 0 0 < hms 8 30 0
    decide
  obtain ⟨d1, e1, v1⟩ := (hgap 1 (by omega) (by omega)).1 hgt hlt
  obtain ⟨d2, e2, v2⟩ := (hgap 2 (by omega) (by omega)).1 hgt hlt
  have hd1 : d1 = 2 := by
    have : distAt nonEvenTrip 1 = some (some 2) := by decide!
    rw [this] at e1
    simp only [Option.some.injEq] at e1
    exact e1.symm
  have hd2 : d2 = 9 := by
    have : distAt nonEvenTrip 2 = some (some 9) := by decide!
    rw [this] at e2
    simp only [Option.some.injEq] at e2
    exact e2.symm
  subst hd1
  subst hd2
  obtain ⟨t1, w1, lo1, hi1⟩ := interpolated_rounded_value A eps hA he' 2 (by norm_num)
    (by norm_num)
  obtain ⟨t2, w2, lo2, hi2⟩ := interpolated_rounded_value A eps hA he' 9 (by norm_num)
    (by norm_num)
  have c1 : (342853999999 : Int) < t1 := by
    have : ((342853999999 : Int) : ℚ) < (t1 : ℚ) := by push_cast; linarith
    exact_mod_cast this
  have c2 : t1 ≤ (342860000000 : Int) := by
    have : (t1 : ℚ) ≤ ((342860000000 : Int) : ℚ) := by push_cast; linarith
    exact_mod_cast this
  have c3 : (1542842999999 : Int) < t2 := by
    have : ((1542842999999 : Int) : ℚ) < (t2 : ℚ) := by push_cast; linarith
    exact_mod_cast this
  have c4 : t2 ≤ (1542870000000 : Int) := by
    have : (t2 : ℚ) ≤ ((1542870000000 : Int) : ℚ) := by push_cast; linarith
    exact_mod_cast this
  have hs : hms 8 0 0 = 28800000000000 := by decide
  have h543 : hms 8 5 43 = 29143000000000 := by decide
  have h2543 : hms 8 25 43 = 30343000000000 := by decide
  have h810 : hms 8 10 0 = 29400000000000 := by decide
  have h820 : hms 8 20 0 = 30000000000000 := by decide
  refine ⟨out, hms 8 0 0 + t1, hms 8 0 0 + t2, hout, ?_, ?_, ?_, ?_, ?_, ?_, ?_⟩
  · rw [v1]
    exact congrArg some w1
  · rw [v2]
    exact congrArg some w2
  · rw [hs, h543, abs_lt]
    constructor <;> omega
  · rw [hs, h2543, abs_lt]
    constructor <;> omega
  · refine ⟨[{ StopSequence := 1, ArrivalTime := hms 8 0 0, DepartureTime := hms 8 5 0,
               ExactTimes := true, ShapeDistanceTraveled := some 0 },
             { StopSequence := 2, ArrivalTime := hms 8 10 0, DepartureTime := hms 8 15 0,
               ExactTimes := false, ShapeDistanceTraveled := some 2 },
             { StopSequence := 3, ArrivalTime := hms 8 20 0, DepartureTime := hms 8 25 0,
               ExactTimes := false, ShapeDistanceTraveled := some 9 },
             { StopSequence := 4, ArrivalTime := hms 8 30 0, DepartureTime := hms 8 35 0,
               ExactTimes := true, ShapeDistanceTraveled := some (21 / 2) }], ?_, ?_, ?_⟩
    · decide!
    · decide
    · decide
  · rw [hs, h810]
    omega
  · rw [hs, h820]
    omega

/-- Witness for C14: in exact arithmetic the two interior arrivals are
08:05:42.857142857 and 08:25:42.857142857. -/
theorem non_even_distance_scenario_witness :
    (interpolateStopTimesByShapeDist exactOps nonEvenTrip).map
        (fun out => out.map (fun st => st.ArrivalTime))
      = .ok [hms 8 0 0, 29142857142857, 30342857142857, hms 8 30 0] ∧
    ∃ out a1 a2, interpolateStopTimesByShapeDist exactOps nonEvenTrip = .ok out ∧
      timeAt out 0 1 = some a1 ∧ timeAt out 0 2 = some a2 ∧
      |a1 - hms 8 5 43| < 1000000000 ∧ |a2 - hms 8 25 43| < 1000000000 ∧
      (∃ out', interpolateStopTimes nonEvenTrip = .ok out' ∧
        timeAt out' 0 1 = some (hms 8 10 0) ∧ timeAt out' 0 2 = some (hms 8 20 0)) ∧
      a1 ≠ hms 8 10 0 ∧ a2 ≠ hms 8 20 0 :=
  ⟨by decide!,
    non_even_distance_scenario exactOps (1 / 9007199254740992)
      (relativeError_exactOps _ (by norm_num)) (le_refl _)⟩

/-- C15 (the code fails here). On the three-stop trip whose start boundary (08:00:00) has
no distance, whose end boundary holds 08:30:00 at distance 10 and whose middle stop is at
distance 5, the claim's formula `s + (d / de) * (e - s)` gives 08:15:00. The call, in
`float64` arithmetic, returns 04:15:00 at the middle stop, a time before the start
boundary: the nil check that skips the read of the start distance skips the read of the
start time with it. -/
theorem missing_start_distance_loses_start_time :
    timeAt missingStartDistTrip 0 0 = some (hms 8 0 0) ∧
    distAt missingStartDistTrip 0 = some none ∧
    timeAt missingStartDistTrip 0 1 = some 0 ∧
    distAt missingStartDistTrip 1 = some (some 5) ∧
    timeAt missingStartDistTrip 0 2 = some (hms 8 30 0) ∧
    distAt missingStartDistTrip 2 = some (some 10) ∧
    interpolated float64Ops (hms 8 0 0) (hms 8 30 0) 0 10 5 = hms 8 15 0 ∧
    (interpolateStopTimesByShapeDist float64Ops missingStartDistTrip).map
        (fun out => out.map (fun st => st.ArrivalTime))
      = .ok [hms 8 0 0, hms 4 15 0, hms 8 30 0] ∧
    hms 4 15 0 < hms 8 0 0 ∧ hms 4 15 0 ≠ hms 8 15 0 :=
  ⟨by decide, by decide, by decide, by decide!, by decide, by decide!, by decide!,
    by decide!, by decide, by decide⟩

/-- C17. True idempotence of the uniform synthesizer. When every arrival and departure
time of the sequence is a non-negative `int64` value, `interpolateStopTimes` returns a
result on which a second call returns that same result. -/
theorem uniform_idempotent (ts : List (ScheduledStopTime F))
    (hnn : ∀ (m : Nat) (a : ScheduledStopTime F), ts[m]? = some a →
      0 ≤ a.ArrivalTime ∧ a.ArrivalTime < 9223372036854775808 ∧
      0 ≤ a.DepartureTime ∧ a.DepartureTime < 9223372036854775808) :
    ∃ out, interpolateStopTimes ts = .ok out ∧ interpolateStopTimes out = .ok out := by
  have hview : ∀ tType m t, timeAt ts tType m = some t → 0 ≤ t ∧ t < 9223372036854775808 := by
    intro tType m t h
    unfold timeAt at h
    cases hg : ts[m]? with
    | none => simp [hg] at h
    | some a =>
      simp only [hg, Option.map_some', Option.some.injEq] at h
      unfold getTime at h
      by_cases h0 : tType = 0
      · simp only [h0, if_true] at h
        rw [← h]
        exact ⟨(hnn m a hg).1, (hnn m a hg).2.1⟩
      · simp only [h0, if_false] at h
        rw [← h]
        exact ⟨(hnn m a hg).2.2.1, (hnn m a hg).2.2.2⟩
  obtain ⟨o1, g1⟩ := interpolateStopTimes_total ts
  obtain ⟨o2, g2⟩ := interpolateStopTimes_total o1
  obtain ⟨l1, f1⟩ := uniform_frame ts o1 g1
  obtain ⟨l2, f2⟩ := uniform_frame o1 o2 g2
  have key : ∀ tType, tType < 2 → ∀ m, timeAt o2 tType m = timeAt o1 tType m := by
    intro tType ht m
    by_cases hz1 : timeAt o1 tType m = some 0
    · have hz : timeAt ts tType m = some 0 := by
        by_contra hc
        rw [(f1 m).2.2.2 tType ht hc] at hz1
        exact hc hz1
      obtain ⟨g, h, a1, a2, a3, a4, a5, a6⟩ := gap_around ts tType m hz
      have prev1 : g = 0 ∨ ∃ t, timeAt o1 tType (g - 1) = some t ∧ t ≠ 0 ∧ 1 ≤ g := by
        rcases a5 with a5 | ⟨t, b1, b2, b3⟩
        · exact Or.inl a5
        · refine Or.inr ⟨t, ?_, b2, b3⟩
          rw [(f1 (g - 1)).2.2.2 tType ht (by
            rw [b1]
            intro hc
            simp only [Option.some.injEq] at hc
            exact b2 hc)]
          exact b1
      by_cases hopen : g = 0 ∨ h = ts.length
      · have z1 : ∀ i, g ≤ i → i < h → timeAt o1 tType i = some 0 :=
          uniform_open_gap ts o1 g1 tType ht g h (by omega) a3 a4 a5 hopen
        rw [hz1]
        exact uniform_open_gap o1 o2 g2 tType ht g h (by omega) (by omega) z1 prev1
          (by rw [l1]; exact hopen) m a1 a2
      · have hg : g ≠ 0 := fun hc => hopen (Or.inl hc)
        have hh : h ≠ ts.length := fun hc => hopen (Or.inr hc)
        rcases a5 with a5 | ⟨s, b1, b2, b3⟩
        · exact absurd a5 hg
        rcases a6 with a6 | ⟨e, c1, c2⟩
        · exact absurd a6 hh
        have hzz : ∀ k, g - 1 < k → k < h → timeAt ts tType k = some 0 :=
          fun k k1 k2 => a4 k (by omega) k2
        have hu := uniform_bounded_gap ts o1 g1 tType ht (g - 1) h s e b1 c1 b2 c2 hzz
        by_cases hlt : s < e
        · exfalso
          have hm := hu m (by omega) a2
          obtain ⟨hs0, _⟩ := hview tType (g - 1) s b1
          obtain ⟨_, hre⟩ := hview tType h e c1
          obtain ⟨hval, hq0, _⟩ := uniform_value_no_overflow s e
            ((m : Int) - ((g - 1 : Nat) : Int)) ((h : Int) - ((g - 1 : Nat) : Int))
            (by omega) hre hlt (by omega) (by omega) (by omega)
          rw [if_pos hlt, hval, hz1] at hm
          simp only [Option.some.injEq] at hm
          have hjq : 0 ≤ ((m : Int) - ((g - 1 : Nat) : Int))
              * ((e - s) / ((h : Int) - ((g - 1 : Nat) : Int))) :=
            Int.mul_nonneg (by omega) hq0
          omega
        · have z1 : ∀ k, g - 1 < k → k < h → timeAt o1 tType k = some 0 := by
            intro k k1 k2
            have := hu k k1 k2
            rw [if_neg hlt] at this
            exact this
          have s1 : timeAt o1 tType (g - 1) = some s := by
            rw [(f1 (g - 1)).2.2.2 tType ht (by
              rw [b1]
              intro hc
              simp only [Option.some.injEq] at hc
              exact b2 hc)]
            exact b1
          have e1 : timeAt o1 tType h = some e := by
            rw [(f1 h).2.2.2 tType ht (by
              rw [c1]
              intro hc
              simp only [Option.some.injEq] at hc
              exact c2 hc)]
            exact c1
          have := uniform_bounded_gap o1 o2 g2 tType ht (g - 1) h s e s1 e1 b2 c2 z1 m
            (by omega) a2
          rw [if_neg hlt] at this
          rw [this, hz1]
    · exact (f2 m).2.2.2 tType ht hz1
  have heq : o2 = o1 := by
    apply list_eq_of_views
    intro m
    exact ⟨(f2 m).1, (f2 m).2.1, (f2 m).2.2.1, key 0 (by omega) m, key 1 (by omega) m⟩
  rw [heq] at g2
  exact ⟨o1, g1, g2⟩

/-- Witness for C17: the trip of the normal scenario has no negative time, so a second
pass over the result of the first returns it unchanged. -/
theorem uniform_idempotent_witness :
    ∃ out, interpolateStopTimes normalTrip = .ok out ∧ interpolateStopTimes out = .ok out :=
  uniform_idempotent normalTrip
    (by
      intro m a h
      have hmem : a ∈ normalTrip := List.mem_iff_getElem?.mpr ⟨m, h⟩
      simp only [normalTrip, List.mem_cons, List.mem_singleton, List.not_mem_nil,
        or_false] at hmem
      rcases hmem with hmem | hmem | hmem | hmem <;> subst hmem <;> decide)

/-- C18 as stated fails: with the known times -5·10^18 and 5·10^18 around a one-stop gap,
both `int64` values, the difference `e - s` overflows, and `interpolateStopTimes` writes
-2^63 into the gap, which is below the start boundary's time. -/
theorem uniform_times_between_boundaries_counterexample :
    timeAt overflowTrip 0 0 = some (-5000000000000000000) ∧
    timeAt overflowTrip 0 1 = some 0 ∧
    timeAt overflowTrip 0 2 = some 5000000000000000000 ∧
    (-9223372036854775808 : Int) ≤ -5000000000000000000 ∧
    (5000000000000000000 : Int) < 9223372036854775808 ∧
    ∃ out, interpolateStopTimes overflowTrip = .ok out ∧
      timeAt out 0 1 = some (-9223372036854775808) ∧
      ¬ ((-5000000000000000000 : Int) ≤ -9223372036854775808) :=
  ⟨by decide, by decide, by decide, by decide, by decide,
    [stop ℚ 1 (-5000000000000000000) (-5000000000000000000) none,
     stop ℚ 2 (-9223372036854775808) (-9223372036854775808) none,
     stop ℚ 3 5000000000000000000 5000000000000000000 none],
    by decide, by decide, by decide⟩

/-- C18, amended. For either channel: when a gap is bounded by the known `int64` times `s`
(index `start`) and `e` (index `end_`) with `e > s` and `e - s` itself an `int64` value
(always so when `s ≥ 0`), `interpolateStopTimes` returns, and the value `v` it holds at
index `start + j` (`1 ≤ j < end_ - start`) satisfies `s ≤ v < e`, is at most the value at
the next interior index, and is not the sentinel `0` when `s > 0`. -/
theorem uniform_times_between_boundaries (ts : List (ScheduledStopTime F))
    (tType start end_ : Nat) (s e : Int) (ht : tType < 2)
    (hs : timeAt ts tType start = some s) (he : timeAt ts tType end_ = some e)
    (hs0 : s ≠ 0) (he0 : e ≠ 0) (hlt : s < e)
    (hz : ∀ k, start < k → k < end_ → timeAt ts tType k = some 0)
    (hrs : -9223372036854775808 ≤ s) (hre : e < 9223372036854775808)
    (hno : e - s < 9223372036854775808) :
    ∃ out, interpolateStopTimes ts = .ok out ∧
      ∀ j : Nat, 1 ≤ j → j < end_ - start →
        ∃ v, timeAt out tType (start + j) = some v ∧ s ≤ v ∧ v < e ∧ (0 < s → v ≠ 0) ∧
          (j + 1 < end_ - start →
            ∃ v', timeAt out tType (start + (j + 1)) = some v' ∧ v ≤ v') := by
  obtain ⟨out, hout⟩ := interpolateStopTimes_total ts
  refine ⟨out, hout, ?_⟩
  have val : ∀ j : Nat, 1 ≤ j → j < end_ - start →
      timeAt out tType (start + j) =
        some (s + (j : Int) * ((e - s) / ((end_ : Int) - (start : Int)))) := by
    intro j hj1 hj2
    have hv := uniform_bounded_gap ts out hout tType ht start end_ s e hs he hs0 he0 hz
      (start + j) (by omega) (by omega)
    rw [if_pos hlt] at hv
    have hcast : ((start + j : Nat) : Int) - (start : Int) = (j : Int) := by omega
    rw [hcast] at hv
    rw [hv, (uniform_value_no_overflow s e (j : Int) ((end_ : Int) - (start : Int)) hrs hre
      hlt hno (by omega) (by omega)).1]
  intro j hj1 hj2
  obtain ⟨_, hq0, hkq⟩ := uniform_value_no_overflow s e (j : Int)
    ((end_ : Int) - (start : Int)) hrs hre hlt hno (by omega) (by omega)
  have hjq0 : 0 ≤ (j : Int) * ((e - s) / ((end_ : Int) - (start : Int))) :=
    Int.mul_nonneg (by omega) hq0
  have hjq : (j : Int) * ((e - s) / ((end_ : Int) - (start : Int))) < e - s :=
    step_lt_end (e - s) _ (j : Int) ((end_ : Int) - (start : Int)) (by omega) hq0 hkq
      (by omega)
  refine ⟨_, val j hj1 hj2, by omega, by omega, fun hpos => by omega, ?_⟩
  intro hj3
  refine ⟨_, val (j + 1) (by omega) hj3, ?_⟩
  have hstep : ((j + 1 : Nat) : Int) * ((e - s) / ((end_ : Int) - (start : Int)))
      = (j : Int) * ((e - s) / ((end_ : Int) - (start : Int)))
        + (e - s) / ((end_ : Int) - (start : Int)) := by
    push_cast
    ring
  omega

/-- Witness for the amended C18: on the trip of `TestInterpolateStopTimes_Normal` the
arrivals written at the two interior stops, 08:10:00 and 08:20:00, lie between 08:00:00
and 08:30:00 and are in order. -/
theorem uniform_times_between_boundaries_witness :
    ∃ out, interpolateStopTimes normalTrip = .ok out ∧
      ∀ j : Nat, 1 ≤ j → j < 3 - 0 →
        ∃ v, timeAt out 0 (0 + j) = some v ∧ hms 8 0 0 ≤ v ∧ v < hms 8 30 0 ∧
          (0 < hms 8 0 0 → v ≠ 0) ∧
          (j + 1 < 3 - 0 → ∃ v', timeAt out 0 (0 + (j + 1)) = some v' ∧ v ≤ v') :=
  uniform_times_between_boundaries normalTrip 0 0 3 (hms 8 0 0) (hms 8 30 0)
    (by decide) (by decide) (by decide) (by decide) (by decide) (by decide)
    (by
      intro k h1 h2
      have hk : k = 1 ∨ k = 2 := by omega
      rcases hk with hk | hk <;> subst hk <;> decide)
    (by decide) (by decide) (by decide)

/-- C19 as stated fails: on the same overflowing gap the value written at slot 1 is
-2^63, not `s + 1 * ⌊(e - s) / 2⌋ = 0`, and it falls short of the exactly proportional
time `s + ⌊1 * (e - s) / 2⌋ = 0` by 2^63, which is not less than `j = 1`. -/
theorem uniform_truncation_error_counterexample :
    timeAt overflowTrip 0 0 = some (-5000000000000000000) ∧
    timeAt overflowTrip 0 1 = some 0 ∧
    timeAt overflowTrip 0 2 = some 5000000000000000000 ∧
    ∃ out, interpolateStopTimes overflowTrip = .ok out ∧
      timeAt out 0 1 = some (-9223372036854775808) ∧
      (-5000000000000000000 : Int)
        + 1 * ((5000000000000000000 - (-5000000000000000000)) / 2) = 0 ∧
      (-5000000000000000000 : Int)
        + (1 * (5000000000000000000 - (-5000000000000000000))) / 2 = 0 ∧
      ¬ ((0 : Int) - (-9223372036854775808) < 1) :=
  ⟨by decide, by decide, by decide,
    [stop ℚ 1 (-5000000000000000000) (-5000000000000000000) none,
     stop ℚ 2 (-9223372036854775808) (-9223372036854775808) none,
     stop ℚ 3 5000000000000000000 5000000000000000000 none],
    by decide, by decide, by decide, by decide, by decide⟩

/-- C19, amended. For either channel: when a gap is bounded by the known `int64` times
`s < e` with `e - s` itself an `int64` value (always so when `s ≥ 0`), and
`intervals = end_ - start`, `interpolateStopTimes` returns, and the value it holds at slot
`j` (`1 ≤ j < intervals`) is `s + j * ⌊(e - s) / intervals⌋`; this value never exceeds
`s + ⌊j * (e - s) / intervals⌋`, falls short of it by exactly
`⌊j * ((e - s) mod intervals) / intervals⌋`, which is `0` when `intervals` divides `e - s`
and is always less than `j`. -/
theorem uniform_truncation_error (ts : List (ScheduledStopTime F))
    (tType start end_ : Nat) (s e : Int) (ht : tType < 2)
    (hs : timeAt ts tType start = some s) (he : timeAt ts tType end_ = some e)
    (hs0 : s ≠ 0) (he0 : e ≠ 0) (hlt : s < e)
    (hz : ∀ k, start < k → k < end_ → timeAt ts tType k = some 0)
    (hrs : -9223372036854775808 ≤ s) (hre : e < 9223372036854775808)
    (hno : e - s < 9223372036854775808) :
    ∃ out, interpolateStopTimes ts = .ok out ∧
      ∀ j : Nat, 1 ≤ j → j < end_ - start →
        timeAt out tType (start + j) =
          some (s + (j : Int) * ((e - s) / ((end_ : Int) - (start : Int)))) ∧
        s + (j : Int) * ((e - s) / ((end_ : Int) - (start : Int)))
          ≤ s + ((j : Int) * (e - s)) / ((end_ : Int) - (start : Int)) ∧
        (s + ((j : Int) * (e - s)) / ((end_ : Int) - (start : Int)))
            - (s + (j : Int) * ((e - s) / ((end_ : Int) - (start : Int))))
          = ((j : Int) * ((e - s) % ((end_ : Int) - (start : Int))))
              / ((end_ : Int) - (start : Int)) ∧
        (((end_ : Int) - (start : Int)) ∣ (e - s) →
          ((j : Int) * ((e - s) % ((end_ : Int) - (start : Int))))
              / ((end_ : Int) - (start : Int)) = 0) ∧
        ((j : Int) * ((e - s) % ((end_ : Int) - (start : Int))))
            / ((end_ : Int) - (start : Int)) < (j : Int) := by
  obtain ⟨out, hout⟩ := interpolateStopTimes_total ts
  refine ⟨out, hout, ?_⟩
  intro j hj1 hj2
  have hk : (0 : Int) < (end_ : Int) - (start : Int) := by omega
  have hv := uniform_bounded_gap ts out hout tType ht start end_ s e hs he hs0 he0 hz
    (start + j) (by omega) (by omega)
  rw [if_pos hlt] at hv
  have hcast : ((start + j : Nat) : Int) - (start : Int) = (j : Int) := by omega
  rw [hcast, (uniform_value_no_overflow s e (j : Int) ((end_ : Int) - (start : Int)) hrs hre
    hlt hno (by omega) (by omega)).1] at hv
  have hsplit := truncation_split (e - s) (j : Int) ((end_ : Int) - (start : Int)) hk
  obtain ⟨hr0, hrj⟩ := truncation_remainder_lt (e - s) (j : Int)
    ((end_ : Int) - (start : Int)) hk (by omega)
  refine ⟨hv, by omega, by omega, ?_, hrj⟩
  intro hdvd
  rw [Int.emod_eq_zero_of_dvd hdvd, Int.mul_zero, Int.zero_ediv]

/-- Witness for the amended C19: a gap of three intervals between the times 7 ns and
12 ns; at slot 2 the value written is 7 + 2 * ⌊5 / 3⌋ = 9, the exactly proportional time
is 7 + ⌊2 * 5 / 3⌋ = 10, and the shortfall ⌊2 * (5 mod 3) / 3⌋ is 1. -/
theorem uniform_truncation_error_witness :
    ∃ out, interpolateStopTimes truncationTrip
        = .ok out ∧
      ∀ j : Nat, 1 ≤ j → j < 3 - 0 →
        timeAt out 0 (0 + j) =
          some (7 + (j : Int) * ((12 - 7) / (((3 : Nat) : Int) - ((0 : Nat) : Int)))) ∧
        7 + (j : Int) * ((12 - 7) / (((3 : Nat) : Int) - ((0 : Nat) : Int)))
          ≤ 7 + ((j : Int) * (12 - 7)) / (((3 : Nat) : Int) - ((0 : Nat) : Int)) ∧
        (7 + ((j : Int) * (12 - 7)) / (((3 : Nat) : Int) - ((0 : Nat) : Int)))
            - (7 + (j : Int) * ((12 - 7) / (((3 : Nat) : Int) - ((0 : Nat) : Int))))
          = ((j : Int) * ((12 - 7) % (((3 : Nat) : Int) - ((0 : Nat) : Int))))
              / (((3 : Nat) : Int) - ((0 : Nat) : Int)) ∧
        ((((3 : Nat) : Int) - ((0 : Nat) : Int)) ∣ (12 - 7) →
          ((j : Int) * ((12 - 7) % (((3 : Nat) : Int) - ((0 : Nat) : Int))))
              / (((3 : Nat) : Int) - ((0 : Nat) : Int)) = 0) ∧
        ((j : Int) * ((12 - 7) % (((3 : Nat) : Int) - ((0 : Nat) : Int))))
            / (((3 : Nat) : Int) - ((0 : Nat) : Int)) < (j : Int) :=
  uniform_truncation_error truncationTrip
    0 0 3 7 12 (by decide) (by decide) (by decide) (by decide) (by decide) (by decide)
    (by
      intro k h1 h2
      have hk : k = 1 ∨ k = 2 := by omega
      rcases hk with hk | hk <;> subst hk <;> decide)
    (by decide) (by decide) (by decide)

/-- C20. Termination with a single forward scan. `interpolateStopTimes` returns on every
input, and `interpolateStopTimesByShapeDist` either returns or stops in the nil-pointer
panic. In a scan of either function, an iteration at index `i < n` either finds a known
value and continues at `i + 1`, or finds the sentinel and continues at the end index `e`
of the run of sentinels that starts at `i`, with `i < e ≤ n` (in the distance-weighted
function the gap branch may panic instead). The fuel of the embedding counts the
iterations: from index `i`, `n - i` units are always enough, so a scan started at `0` makes
at most `n` iterations. -/
theorem termination_single_forward_scan (A : Float64Ops F) (ts : List (ScheduledStopTime F)) :
    (∃ out, interpolateStopTimes ts = .ok out) ∧
    ((∃ out, interpolateStopTimesByShapeDist A ts = .ok out) ∨
      interpolateStopTimesByShapeDist A ts = .error .nilDereference) ∧
    (∀ (tType fuel i : Nat) (r : List (ScheduledStopTime F)), r.length = ts.length →
      i < ts.length →
      (∃ t, timeAt r tType i = some t ∧ t ≠ 0 ∧
        scanLoop (uniformGap ts.length tType) ts.length tType (fuel + 1) i r =
          scanLoop (uniformGap ts.length tType) ts.length tType fuel (i + 1) r) ∨
      (timeAt r tType i = some 0 ∧
        ∃ r' e, uniformGap ts.length tType r i = .ok (r', e) ∧ i < e ∧ e ≤ ts.length ∧
          (∀ k, i ≤ k → k < e → timeAt r tType k = some 0) ∧
          (∀ t, timeAt r tType e = some t → t ≠ 0) ∧
          scanLoop (uniformGap ts.length tType) ts.length tType (fuel + 1) i r =
            scanLoop (uniformGap ts.length tType) ts.length tType fuel e r')) ∧
    (∀ (tType fuel i : Nat) (r : List (ScheduledStopTime F)), r.length = ts.length →
      i < ts.length →
      (∃ t, timeAt r tType i = some t ∧ t ≠ 0 ∧
        scanLoop (shapeDistGap A ts.length tType) ts.length tType (fuel + 1) i r =
          scanLoop (shapeDistGap A ts.length tType) ts.length tType fuel (i + 1) r) ∨
      (timeAt r tType i = some 0 ∧
        ((shapeDistGap A ts.length tType r i = .error .nilDereference ∧
          scanLoop (shapeDistGap A ts.length tType) ts.length tType (fuel + 1) i r =
            .error .nilDereference) ∨
        ∃ r' e, shapeDistGap A ts.length tType r i = .ok (r', e) ∧ i < e ∧
          e ≤ ts.length ∧
          (∀ k, i ≤ k → k < e → timeAt r tType k = some 0) ∧
          (∀ t, timeAt r tType e = some t → t ≠ 0) ∧
          scanLoop (shapeDistGap A ts.length tType) ts.length tType (fuel + 1) i r =
            scanLoop (shapeDistGap A ts.length tType) ts.length tType fuel e r'))) ∧
    (∀ (tType fuel i : Nat) (r : List (ScheduledStopTime F)), r.length = ts.length →
      ts.length ≤ fuel + i →
      (∃ out, scanLoop (uniformGap ts.length tType) ts.length tType fuel i r = .ok out) ∧
      scanLoop (shapeDistGap A ts.length tType) ts.length tType fuel i r
        ≠ .error .fuelExhausted) := by
  refine ⟨interpolateStopTimes_total ts, ?_, ?_, ?_, ?_⟩
  · cases h : interpolateStopTimesByShapeDist A ts with
    | ok out => exact Or.inl ⟨out, rfl⟩
    | error err =>
      right
      rw [byShapeDist_fault A ts err h]
  · intro tType fuel i r hn hi
    rcases scanLoop_iteration _ ts.length tType (uniformGap_sound _ tType) fuel i r hn hi with
      h | ⟨hz, ⟨err, he, _⟩ | ⟨r', e, h1, h2, h3, _, h5, h6, h7⟩⟩
    · exact Or.inl h
    · obtain ⟨p, hp⟩ := uniformGap_total ts.length tType r i hn hi
      rw [hp] at he
      exact Except.noConfusion he
    · exact Or.inr ⟨hz, r', e, h1, h2, h3, h5, h6, h7⟩
  · intro tType fuel i r hn hi
    rcases scanLoop_iteration _ ts.length tType (shapeDistGap_sound A _ tType) fuel i r hn
      hi with h | ⟨hz, ⟨err, he, hl⟩ | ⟨r', e, h1, h2, h3, _, h5, h6, h7⟩⟩
    · exact Or.inl h
    · have := shapeDistGap_fault A ts.length tType r i err hn hi he
      subst this
      exact Or.inr ⟨hz, Or.inl ⟨he, hl⟩⟩
    · exact Or.inr ⟨hz, Or.inr ⟨r', e, h1, h2, h3, h5, h6, h7⟩⟩
  · intro tType fuel i r hn hf
    constructor
    · apply scanLoop_total (uniformGap ts.length tType) ts.length tType
        (uniformGap_sound _ tType) (fun _ => True) _ fuel i r trivial hn hf
      intro result j _ hl hj
      obtain ⟨p, hp⟩ := uniformGap_total ts.length tType result j hl hj
      exact ⟨p.1, p.2, hp, trivial⟩
    · intro hc
      have := scanLoop_fault (shapeDistGap A ts.length tType) ts.length tType
        (shapeDistGap_sound A _ tType)
        (fun result j err hl hj => shapeDistGap_fault A ts.length tType result j err hl hj)
        fuel i r _ hn hf hc
      exact Fault.noConfusion this

/-- Witness for C20: on the trip of `TestInterpolateStopTimes_Normal`, of four stops, the
scan of the arrival channel with four units of fuel returns, and its first iteration
finds a known value and moves from index 0 to index 1. -/
theorem termination_single_forward_scan_witness :
    (∃ out, scanLoop (uniformGap 4 0) 4 0 4 0 normalTrip = .ok out) ∧
    scanLoop (uniformGap 4 0) 4 0 4 0 normalTrip = scanLoop (uniformGap 4 0) 4 0 3 1 normalTrip ∧
    scanLoop (uniformGap 4 0) 4 0 3 1 normalTrip ≠ .error .fuelExhausted ∧
    scanLoop (uniformGap 4 0) 4 0 2 0 normalTrip = .error .fuelExhausted :=
  ⟨((termination_single_forward_scan exactOps normalTrip).2.2.2.2 0 4 0 normalTrip rfl
      (by decide)).1,
    by decide, by decide, by decide⟩

end Gtfs
